import Mathlib

/-!
# Grid model, investment sizing and controller of the `grid2` strategy

Shallow embedding of `pkg/strategy/grid2/grid.go` and of `pkg/strategy/grid2/strategy.go`:
the sizing functions, `Validate`, `openGrid`, `closeGrid` and the two order handlers.

Numbers.  The package `fixedpoint` is not part of the sources at hand.  Following the
numeric semantics of the specification ("all comparisons and arithmetic use exact decimal
values, never binary floating point"), a `fixedpoint.Value` is a rational number and
`Add`, `Sub`, `Mul`, `Div`, `Compare` are the exact operations of `ℚ`.  `Floor` is the
integer floor.  The one place where the code leaves the fixed-point values is the tick
truncation of `calculateArithmeticPins` (grid.go line 31), which converts to `float64`,
divides, truncates with `math.Trunc` and multiplies in `float64`, and converts back: there
a `float64` is the rational number it denotes and every operation rounds its exact result
to the nearest `float64`, ties to even (`roundFloat64`).  Division by zero is outside the
model (Lean's `x / 0 = 0` has no counterpart in the code): the statements below that depend
on the value of a quotient assume, prove or exhibit a non-zero divisor.

Loops.  A Go `for` loop whose trip count is not bounded by a slice length is embedded with
a fuel argument; `none` means that the fuel ran out (or that the Go code panics on an
index out of range).  Loops over slice indices are structurally recursive on the index.

Effects.  The controller is embedded by explicit state passing: a function takes the
strategy and returns the strategy afterwards together with the list of calls it made to its
collaborators, in order, and the error it returned.  What the collaborators answer is a
parameter (`Session`).  Logging is left out.
-/

namespace Grid2

/-! ## Numbers -/

/-- Modelled from the spec: a `fixedpoint.Value` (package `fixedpoint` is not in the sources)
is an exact number, with exact `Add`, `Sub`, `Mul`, `Div` and `Compare`. -/
abbrev Value : Type := ℚ

/-- The type `Pin` of grid.go, `type Pin fixedpoint.Value`. -/
abbrev Pin : Type := Value

/-- The function `math.Trunc` of Go: the integer part of a number, rounding toward zero.  The
integer part of a `float64` is a `float64`, so the result is exact. -/
def truncRat (x : ℚ) : ℤ := if 0 ≤ x then ⌊x⌋ else ⌈x⌉

/-- Rounding to the nearest integer, ties to the even one. -/
def roundHalfEven (x : ℚ) : ℤ :=
  if x - ⌊x⌋ < 1 / 2 then ⌊x⌋
  else if 1 / 2 < x - ⌊x⌋ then ⌊x⌋ + 1
  else if ⌊x⌋ % 2 = 0 then ⌊x⌋
  else ⌊x⌋ + 1

/-- The `float64` (IEEE 754 binary64) nearest to an exact number, ties to even: 53
significant bits, with the exponent of the number, which is at least `-1022` (below `2^-1022`
the spacing stays `2^-1074`).  The result is the rational number that the `float64` denotes.
Overflow to infinity is not modelled: the numbers of this development stay far below
`2^1024`. -/
def roundFloat64 (x : ℚ) : ℚ :=
  if x = 0 then 0
  else
    let e := max (Int.log 2 |x|) (-1022)
    (roundHalfEven (x / 2 ^ (e - 52)) : ℚ) * 2 ^ (e - 52)

/-- The operator `/` of Go on two `float64`: the exact quotient, rounded. -/
def float64Div (x y : ℚ) : ℚ := roundFloat64 (x / y)

/-- The operator `*` of Go on two `float64`: the exact product, rounded. -/
def float64Mul (x y : ℚ) : ℚ := roundFloat64 (x * y)

/-- Modelled from the spec: `fixedpoint.Value.Float64` (package `fixedpoint` is not in the
sources) converts an exact decimal value to a `float64`; it is taken to give the `float64`
nearest to the value. -/
def Float64 (v : Value) : ℚ := roundFloat64 v

/-- Modelled from the spec: `fixedpoint.NewFromFloat` (package `fixedpoint` is not in the
sources) converts a `float64` to a fixed-point decimal value; it is taken to round to the
nearest decimal of eight places, the precision of the package, halves away from zero. -/
def NewFromFloat (f : ℚ) : Value :=
  ((if f < 0 then truncRat (f * 10 ^ 8 - 1 / 2) else truncRat (f * 10 ^ 8 + 1 / 2) : ℤ) : ℚ)
    / 10 ^ 8

/-- The body of the pin loop (grid.go lines 31-32):
`pp := math.Trunc(p.Float64()/tickSize.Float64()) * tickSize.Float64()` followed by
`fixedpoint.NewFromFloat(pp)`. -/
def truncToTick (tickSize p : ℚ) : Value :=
  NewFromFloat
    (float64Mul ((truncRat (float64Div (Float64 p) (Float64 tickSize)) : ℤ) : ℚ)
      (Float64 tickSize))

/-- The tick truncation in exact arithmetic, `trunc(p / tickSize) * tickSize`, which the
`float64` steps of `truncToTick` approximate: the multiple of `tickSize` next to `p` toward
zero. -/
def truncToTickExact (tickSize p : ℚ) : ℚ := ((truncRat (p / tickSize) : ℤ) : ℚ) * tickSize

/-- The rounding the specification names: the largest multiple of `tickSize` that does not
exceed `p` (floor rounding). -/
def floorToTick (tickSize p : ℚ) : ℚ := ((⌊p / tickSize⌋ : ℤ) : ℚ) * tickSize

/-! ## grid.go -/

/-- The `Grid` struct of grid.go; `pinsCache` (a `map[Pin]struct{}`) is a finite set. -/
structure Grid where
  UpperPrice : Value
  LowerPrice : Value
  Size : Value
  Pins : List Pin
  pinsCache : Finset Pin

/-- The `for p := lower; p <= upper; p += spread` loop of `calculateArithmeticPins`,
appending one truncated pin per iteration. -/
def calculateArithmeticPinsLoop (upper spread tickSize : ℚ) :
    Nat → ℚ → List ℚ → Option (List ℚ)
  | 0, _, _ => none
  | fuel + 1, p, pins =>
    if p ≤ upper then
      calculateArithmeticPinsLoop upper spread tickSize fuel (p + spread)
        (pins ++ [truncToTick tickSize p])
    else some pins

/-- Embedding of `calculateArithmeticPins` (grid.go lines 24-36). -/
def calculateArithmeticPins (fuel : Nat) (lower upper size tickSize : ℚ) :
    Option (List ℚ) :=
  let height := upper - lower
  let spread := height / size
  calculateArithmeticPinsLoop upper spread tickSize fuel lower []

/-- Embedding of `buildPinCache` (grid.go lines 38-45): insert every pin into an empty map. -/
def buildPinCache (pins : List ℚ) : Finset ℚ :=
  pins.foldl (fun cache pin => insert pin cache) ∅

/-- Embedding of `NewGrid` (grid.go lines 47-59). -/
def NewGrid (fuel : Nat) (lower upper size tickSize : ℚ) : Option Grid :=
  (calculateArithmeticPins fuel lower upper size tickSize).map fun pins =>
    { UpperPrice := upper
      LowerPrice := lower
      Size := size
      Pins := pins
      pinsCache := buildPinCache pins }

/-- Embedding of `Grid.Height`. -/
def Grid.Height (g : Grid) : ℚ := g.UpperPrice - g.LowerPrice

/-- Embedding of `Grid.Spread`. -/
def Grid.Spread (g : Grid) : ℚ := g.Height / g.Size

/-- Embedding of `Grid.updatePinsCache`. -/
def Grid.updatePinsCache (g : Grid) : Grid :=
  { g with pinsCache := buildPinCache g.Pins }

/-- Embedding of `Grid.HasPin`: a lookup in the cache, not in the pin slice. -/
def Grid.HasPin (g : Grid) (pin : ℚ) : Bool := decide (pin ∈ g.pinsCache)

/-- The `for p := lastPinPrice + spread; p <= g.UpperPrice; p += spread` loop of
`ExtendUpperPrice`. -/
def extendUpperLoop (upper spread : ℚ) : Nat → ℚ → List ℚ → Option (List ℚ)
  | 0, _, _ => none
  | fuel + 1, p, newPins =>
    if p ≤ upper then extendUpperLoop upper spread fuel (p + spread) (newPins ++ [p])
    else some newPins

/-- Embedding of `Grid.ExtendUpperPrice` (grid.go lines 91-106).  The upper price is
assigned first, so `Spread()` is taken over the new height.  The result is the grid after
the call together with the returned pins. -/
def Grid.ExtendUpperPrice (fuel : Nat) (g : Grid) (upper : ℚ) : Option (Grid × List ℚ) :=
  let g1 : Grid := { g with UpperPrice := upper }
  let spread := g1.Spread
  let g2 : Grid :=
    { g1 with Size := ((⌊(g1.UpperPrice - g1.LowerPrice) / spread⌋ : ℤ) : ℚ) }
  match g2.Pins.getLast? with
  | none => none
  | some lastPinPrice =>
    (extendUpperLoop g2.UpperPrice spread fuel (lastPinPrice + spread) []).map
      fun newPins =>
        let g3 : Grid := { g2 with Pins := g2.Pins ++ newPins }
        (g3.updatePinsCache, newPins)

/-- The `for p := firstPinPrice - spread*numToAdd; p < firstPinPrice; p += spread` loop of
`ExtendLowerPrice`. -/
def extendLowerLoop (firstPinPrice spread : ℚ) : Nat → ℚ → List ℚ → Option (List ℚ)
  | 0, _, _ => none
  | fuel + 1, p, newPins =>
    if p < firstPinPrice then
      extendLowerLoop firstPinPrice spread fuel (p + spread) (newPins ++ [p])
    else some newPins

/-- Embedding of `Grid.ExtendLowerPrice` (grid.go lines 108-131).  `Spread()` is taken
before the lower price is assigned; when `numToAdd` is zero the function returns before
the pins and the cache are touched. -/
def Grid.ExtendLowerPrice (fuel : Nat) (g : Grid) (lower : ℚ) : Option (Grid × List ℚ) :=
  let spread := g.Spread
  let g1 : Grid := { g with LowerPrice := lower }
  let height := g1.Height
  let g2 : Grid := { g1 with Size := ((⌊height / spread⌋ : ℤ) : ℚ) }
  match g2.Pins.head? with
  | none => none
  | some firstPinPrice =>
    let numToAdd : ℚ := ((⌊(firstPinPrice - g2.LowerPrice) / spread⌋ : ℤ) : ℚ)
    if numToAdd = 0 then some (g2, [])
    else
      (extendLowerLoop firstPinPrice spread fuel (firstPinPrice - spread * numToAdd) []).map
        fun newPins =>
          let g3 : Grid := { g2 with Pins := newPins ++ g2.Pins }
          (g3.updatePinsCache, newPins)

/-- The grid that `NewGrid(90, 110, 4, 1)` builds. -/
def gridExample : Grid :=
  { UpperPrice := 110
    LowerPrice := 90
    Size := 4
    Pins := [90, 95, 100, 105, 110]
    pinsCache := buildPinCache [90, 95, 100, 105, 110] }

/-- The grid `gridExample` after `ExtendUpperPrice(80)`: the upper price is below the lower
price, the pins are the same. -/
def gridExampleInverted : Grid :=
  { UpperPrice := 80
    LowerPrice := 90
    Size := 4
    Pins := [90, 95, 100, 105, 110]
    pinsCache := buildPinCache [90, 95, 100, 105, 110] }

/-! ## strategy.go: investment sizing -/

/-- The three errors built by `fmt.Errorf` in the feasibility checks, by message:
"both base balance ... or quote balance ... is not enough", "base balance ..., required"
and "quote balance ... is not enough".  The receiver is used for these messages only. -/
inductive InvestmentError where
  | bothBalances
  | baseBalance
  | quoteBalance
  deriving DecidableEq, Repr

/-- The local variables of the leg scan: `requiredBase`, `requiredQuote`,
`buyPlacedPrice`. -/
structure ScanState where
  requiredBase : Value
  requiredQuote : Value
  buyPlacedPrice : Value
  deriving DecidableEq, Repr

/-- One iteration, at index `i`, of the scan of `checkRequiredInvestmentByQuantity`
(strategy.go lines 246-268). -/
def checkQuantityBody (baseBalance quantity lastPrice : ℚ) (pins : List ℚ) (i : Nat)
    (st : ScanState) : ScanState :=
  let price := pins.getD i 0
  if lastPrice ≤ price then
    if st.requiredBase + quantity ≤ baseBalance then
      { st with requiredBase := st.requiredBase + quantity }
    else if 0 < i then
      let nextLowerPrice := pins.getD (i - 1) 0
      { st with
        requiredQuote := st.requiredQuote + quantity * nextLowerPrice
        buyPlacedPrice := nextLowerPrice }
    else st
  else
    if st.buyPlacedPrice ≠ 0 ∧ price = st.buyPlacedPrice then st
    else { st with requiredQuote := st.requiredQuote + quantity * price }

/-- The loop `for i := len(pins) - 1; i >= 0; i--` of `checkRequiredInvestmentByQuantity`:
`checkQuantityLoop .. (i+1) st` runs the iterations at the indices `i, i-1, ..., 0`. -/
def checkQuantityLoop (baseBalance quantity lastPrice : ℚ) (pins : List ℚ) :
    Nat → ScanState → ScanState
  | 0, st => st
  | i + 1, st =>
    checkQuantityLoop baseBalance quantity lastPrice pins i
      (checkQuantityBody baseBalance quantity lastPrice pins i st)

/-- The three comparisons that end both feasibility checks (strategy.go lines 271-293 and
331-353): the values are returned in every case, with the error if any. -/
def investmentResult (baseBalance quoteBalance : ℚ) (st : ScanState) :
    ℚ × ℚ × Option InvestmentError :=
  if baseBalance < st.requiredBase ∧ quoteBalance < st.requiredQuote then
    (st.requiredBase, st.requiredQuote, some InvestmentError.bothBalances)
  else if baseBalance < st.requiredBase then
    (st.requiredBase, st.requiredQuote, some InvestmentError.baseBalance)
  else if quoteBalance < st.requiredQuote then
    (st.requiredBase, st.requiredQuote, some InvestmentError.quoteBalance)
  else (st.requiredBase, st.requiredQuote, none)

/-- Embedding of `checkRequiredInvestmentByQuantity` (strategy.go lines 238-294); the
result is `(requiredBase, requiredQuote, err)`. -/
def checkRequiredInvestmentByQuantity (baseBalance quoteBalance quantity lastPrice : ℚ)
    (pins : List ℚ) : ℚ × ℚ × Option InvestmentError :=
  investmentResult baseBalance quoteBalance
    (checkQuantityLoop baseBalance quantity lastPrice pins pins.length ⟨0, 0, 0⟩)

/-- One iteration, at index `i`, of the scan of `checkRequiredInvestmentByAmount`
(strategy.go lines 305-328); the sell quantity is `amount.Div(lastPrice)`. -/
def checkAmountBody (baseBalance amount lastPrice : ℚ) (pins : List ℚ) (i : Nat)
    (st : ScanState) : ScanState :=
  let price := pins.getD i 0
  if lastPrice ≤ price then
    let quantity := amount / lastPrice
    if st.requiredBase + quantity ≤ baseBalance then
      { st with requiredBase := st.requiredBase + quantity }
    else if 0 < i then
      let nextLowerPrice := pins.getD (i - 1) 0
      { st with
        requiredQuote := st.requiredQuote + quantity * nextLowerPrice
        buyPlacedPrice := nextLowerPrice }
    else st
  else
    if st.buyPlacedPrice ≠ 0 ∧ price = st.buyPlacedPrice then st
    else { st with requiredQuote := st.requiredQuote + amount }

/-- The index loop of `checkRequiredInvestmentByAmount`, from the last pin down. -/
def checkAmountLoop (baseBalance amount lastPrice : ℚ) (pins : List ℚ) :
    Nat → ScanState → ScanState
  | 0, st => st
  | i + 1, st =>
    checkAmountLoop baseBalance amount lastPrice pins i
      (checkAmountBody baseBalance amount lastPrice pins i st)

/-- Embedding of `checkRequiredInvestmentByAmount` (strategy.go lines 296-354). -/
def checkRequiredInvestmentByAmount (baseBalance quoteBalance amount lastPrice : ℚ)
    (pins : List ℚ) : ℚ × ℚ × Option InvestmentError :=
  investmentResult baseBalance quoteBalance
    (checkAmountLoop baseBalance amount lastPrice pins pins.length ⟨0, 0, 0⟩)

/-- The quantity `openGrid` gives to the order at a pin (strategy.go lines 576-579): the
configured quantity, or `Amount.Div(price)` when the quantity is zero. -/
def openGridQuantity (quantity amount price : ℚ) : ℚ :=
  if quantity = 0 then amount / price else quantity

/-- The local variables of the scan of `calculateQuoteInvestmentQuantity`:
`totalQuotePrice` and `buyPlacedPrice`. -/
structure QuoteScanState where
  totalQuotePrice : Value
  buyPlacedPrice : Value
  deriving DecidableEq, Repr

/-- One iteration, at index `i`, of the scan of `calculateQuoteInvestmentQuantity`
(strategy.go lines 365-387). -/
def quoteInvestmentBody (lastPrice : ℚ) (pins : List ℚ) (i : Nat)
    (st : QuoteScanState) : QuoteScanState :=
  let price := pins.getD i 0
  if lastPrice ≤ price then
    if 0 < i then
      let nextLowerPrice := pins.getD (i - 1) 0
      { totalQuotePrice := st.totalQuotePrice + nextLowerPrice
        buyPlacedPrice := nextLowerPrice }
    else st
  else
    if st.buyPlacedPrice ≠ 0 ∧ price = st.buyPlacedPrice then st
    else { st with totalQuotePrice := st.totalQuotePrice + price }

/-- The index loop of `calculateQuoteInvestmentQuantity`, from the last pin down. -/
def quoteInvestmentLoop (lastPrice : ℚ) (pins : List ℚ) :
    Nat → QuoteScanState → QuoteScanState
  | 0, st => st
  | i + 1, st =>
    quoteInvestmentLoop lastPrice pins i (quoteInvestmentBody lastPrice pins i st)

/-- Embedding of `calculateQuoteInvestmentQuantity` (strategy.go lines 356-391); the error
result of the Go function is always nil. -/
def calculateQuoteInvestmentQuantity (quoteInvestment lastPrice : ℚ) (pins : List ℚ) : ℚ :=
  quoteInvestment / (quoteInvestmentLoop lastPrice pins pins.length ⟨0, 0⟩).totalQuotePrice

/-! ## The legs, in the words of the specification -/

/-- Prices of the converted buy legs: every pin at or above the last price that is not the
lowest pin gives a buy at the next lower pin.  Listed from low to high. -/
def convertedBuyPrices (lastPrice : ℚ) (pins : List ℚ) : List ℚ :=
  ((pins.zip pins.tail).filter (fun ab => decide (lastPrice ≤ ab.2))).map Prod.fst

/-- The last converted price of the high-to-low scan, that is the lowest one; `dflt` when
no pin was converted. -/
def lastConvertedPrice (lastPrice dflt : ℚ) (pins : List ℚ) : ℚ :=
  (convertedBuyPrices lastPrice pins).head?.getD dflt

/-- Prices of the ordinary buy legs: every pin below the last price, except the one that
already carries the last converted buy. -/
def ownBuyPrices (lastPrice skip : ℚ) (pins : List ℚ) : List ℚ :=
  pins.filter (fun p => decide (p < lastPrice) && !decide (p = skip))

/-- Prices of all buy legs when no pin can be sold: the ordinary buys and the converted
buys.  Pins are positive, so `0` stands for "no converted price". -/
def buyLegPrices (lastPrice : ℚ) (pins : List ℚ) : List ℚ :=
  ownBuyPrices lastPrice (lastConvertedPrice lastPrice 0 pins) pins ++
    convertedBuyPrices lastPrice pins

/-! ## strategy.go: quote and base sizing -/

/-- The fields of `types.Market` that the strategy reads. -/
structure Market where
  TickSize : Value
  MinQuantity : Value
  MinNotional : Value

/-- The first loop of `calculateQuoteBaseInvestmentQuantity` (strategy.go lines 402-409):
from the last pin down, count the pins until the first pin below the last price (`break`). -/
def countSellOrdersLoop (lastPrice : ℚ) (pins : List ℚ) : Nat → Nat → Nat
  | 0, numberOfSellOrders => numberOfSellOrders
  | i + 1, numberOfSellOrders =>
    if pins.getD i 0 < lastPrice then numberOfSellOrders
    else countSellOrdersLoop lastPrice pins i (numberOfSellOrders + 1)

/-- The loop of strategy.go lines 416-419: while `maxBaseQuantity` does not clear the
minimums, decrement `maxNumberOfSellOrders` (a Go `int`) and divide the base investment by
it.  The result is the pair `(maxNumberOfSellOrders, maxBaseQuantity)` at the exit. -/
def reduceSellOrdersLoop (minQuantity minBaseQuantity baseInvestment : ℚ) :
    Nat → ℤ → ℚ → Option (ℤ × ℚ)
  | 0, _, _ => none
  | fuel + 1, maxNumberOfSellOrders, maxBaseQuantity =>
    if maxBaseQuantity ≤ minQuantity ∨ maxBaseQuantity ≤ minBaseQuantity then
      reduceSellOrdersLoop minQuantity minBaseQuantity baseInvestment fuel
        (maxNumberOfSellOrders - 1)
        (baseInvestment / (((maxNumberOfSellOrders - 1 : ℤ)) : ℚ))
    else some (maxNumberOfSellOrders, maxBaseQuantity)

/-- Embedding of `calculateQuoteBaseInvestmentQuantity` (strategy.go lines 393-463).  The
scan of lines 431-455 is, line by line, the scan of `calculateQuoteInvestmentQuantity`, so
`quoteInvestmentLoop` embeds it too.  The error result is always nil. -/
def calculateQuoteBaseInvestmentQuantity (fuel : Nat) (market : Market)
    (quoteInvestment baseInvestment lastPrice : ℚ) (pins : List ℚ) : Option ℚ :=
  let numberOfSellOrders := countSellOrdersLoop lastPrice pins pins.length 0
  let minBaseQuantity := max (market.MinNotional / lastPrice) market.MinQuantity
  (reduceSellOrdersLoop market.MinQuantity minBaseQuantity baseInvestment fuel
      ((numberOfSellOrders : ℤ) + 1) 0).map fun exit =>
    let maxNumberOfSellOrders := exit.1
    let maxBaseQuantity := exit.2
    let totalQuotePrice :=
      (quoteInvestmentLoop lastPrice pins pins.length ⟨0, 0⟩).totalQuotePrice
    let quoteSideQuantity := quoteInvestment / totalQuotePrice
    if 0 < maxNumberOfSellOrders then max quoteSideQuantity maxBaseQuantity
    else quoteSideQuantity

/-! ## The collaborators of the controller -/

/-- Modelled from the spec: `types.SideType` (package `types` is not in the sources) is a
string; an order side is BUY, SELL or something else. -/
inductive SideType where
  | SideTypeBuy
  | SideTypeSell
  | SideTypeSelf
  deriving DecidableEq, Repr

/-- Modelled from the spec: the order types of package `types`. -/
inductive OrderType where
  | OrderTypeLimit
  | OrderTypeMarket
  deriving DecidableEq, Repr

/-- Modelled from the spec: the time-in-force values of package `types`. -/
inductive TimeInForce where
  | TimeInForceGTC
  | TimeInForceIOC
  deriving DecidableEq, Repr

/-- The fields of `types.SubmitOrder` that the strategy does not fill with a constant
(`Symbol`, `Market` and `Tag` are the same in every order it builds); `Type_` is the field
`Type`. -/
structure SubmitOrder where
  Type_ : OrderType
  Side : SideType
  Price : Value
  Quantity : Value
  TimeInForce : TimeInForce
  deriving DecidableEq, Repr

/-- The fields of a filled or cancelled `types.Order` that the handlers read. -/
structure Order where
  Side : SideType
  Price : Value
  Quantity : Value
  deriving DecidableEq, Repr

/-- The errors of `getLastTradePrice`: "last price of ... not found", an error of
`QueryTickers` (by code), "... ticker price not found". -/
inductive PriceError where
  | lastPriceNotFound
  | queryTickers (code : Nat)
  | tickerNotFound
  deriving DecidableEq, Repr

/-- The error values `openGrid` and `closeGrid` can return, by origin. -/
inductive GridError where
  | failedLastTradePrice (cause : PriceError)
  | baseBalanceNotFound
  | quoteBalanceNotFound
  | investment (cause : InvestmentError)
  | baseInvestmentTooLarge
  | quoteInvestmentTooLarge
  | submitOrders (code : Nat)
  | gracefulCancel (code : Nat)
  deriving DecidableEq, Repr

/-- A call the strategy makes to a collaborator (§6 of the specification). -/
inductive Call where
  | getLastTradePrice
  | BalanceBase
  | BalanceQuote
  | SubmitOrders (orders : List SubmitOrder)
  | GracefulCancel
  | Sync
  deriving DecidableEq, Repr

/-- Modelled from the spec: what the collaborators answer (their code is not in the
sources).  `LastPrice` and `QueryTickers` are the two last-price sources, selected by
`IsBackTesting`; a ticker is the pair `(Last, Buy)`; a balance is `(Available, found)`;
`SubmitOrders k orders` is the error of the `k`-th `SubmitOrders` call of a handler, if
any; `GracefulCancel` is the error of the cancellation, if any. -/
structure Session where
  IsBackTesting : Bool
  LastPrice : Option Value
  QueryTickers : Except Nat (Option (Value × Value))
  BaseBalance : Option Value
  QuoteBalance : Option Value
  SubmitOrders : Nat → List SubmitOrder → Option Nat
  GracefulCancel : Option Nat

/-- The embedded struct `bbgo.QuantityOrAmount`. -/
structure QuantityOrAmount where
  Quantity : Value
  Amount : Value

/-- Modelled from the spec: `QuantityOrAmount.IsSet` (package `bbgo` is not in the sources);
a sizing field is set when it is non-zero. -/
def QuantityOrAmount.IsSet (qa : QuantityOrAmount) : Bool :=
  decide (qa.Quantity ≠ 0) || decide (qa.Amount ≠ 0)

/-- Modelled from the spec: `QuantityOrAmount.Validate` fails when neither the quantity nor
the amount is set. -/
def QuantityOrAmount.Validate (qa : QuantityOrAmount) : Bool :=
  decide (qa.Quantity = 0) && decide (qa.Amount = 0)

/-- The configuration and state of `Strategy` (strategy.go lines 37-102) that the
controller reads or writes; `grid` is `none` for the nil pointer. -/
structure Strategy where
  Market : Market
  ProfitSpread : Value
  GridNum : ℤ
  UpperPrice : Value
  LowerPrice : Value
  Compound : Bool
  EarnBase : Bool
  QuantityOrAmount : QuantityOrAmount
  QuoteInvestment : Value
  BaseInvestment : Value
  CloseWhenCancelOrder : Bool
  grid : Option Grid

/-! ## strategy.go: `Validate` -/

/-- The errors of `Validate`, in the order of its checks. -/
inductive ValidateError where
  | upperPriceZero
  | lowerPriceZero
  | upperPriceNotAboveLowerPrice
  | profitSpreadTooSmall
  | gridNumZero
  | quantityOrAmount
  | noSizingMode
  deriving DecidableEq, Repr

/-- Embedding of `Strategy.Validate` (strategy.go lines 108-144); `none` is the nil error.
The fee rate `fixedpoint.NewFromFloat(0.075 * 0.01)` is `3/4000`. -/
def Strategy.Validate (s : Strategy) : Option ValidateError :=
  if s.UpperPrice = 0 then some ValidateError.upperPriceZero
  else if s.LowerPrice = 0 then some ValidateError.lowerPriceZero
  else if s.UpperPrice ≤ s.LowerPrice then some ValidateError.upperPriceNotAboveLowerPrice
  else if s.ProfitSpread ≠ 0 ∧ s.ProfitSpread / s.LowerPrice < 3 / 4000 then
    some ValidateError.profitSpreadTooSmall
  else if s.GridNum = 0 then some ValidateError.gridNumZero
  else if s.QuantityOrAmount.Validate = true ∧ s.QuoteInvestment = 0 ∧ s.BaseInvestment = 0 then
    some ValidateError.quantityOrAmount
  else if s.QuantityOrAmount.IsSet = false ∧ s.QuoteInvestment = 0 ∧ s.BaseInvestment = 0 then
    some ValidateError.noSizingMode
  else none

/-! ## The controller -/

/-- Modelled from the spec: `Grid.NextLowerPin` is not in grid.go at hand; §4.1 says "scan
ascending pins for the nearest pin strictly below `price`; return `(pin, found)`".  The scan
keeps the highest pin below the price seen so far. -/
def Grid.NextLowerPin (g : Grid) (price : ℚ) : Option ℚ :=
  g.Pins.foldl
    (fun best pin =>
      if pin < price then
        match best with
        | none => some pin
        | some b => if b < pin then some pin else some b
      else best)
    none

/-- Modelled from the spec: `Grid.NextHigherPin` is not in grid.go at hand; §4.1 says "scan
ascending pins for the nearest pin strictly above `price`; return `(pin, found)`".  The scan
keeps the lowest pin above the price seen so far. -/
def Grid.NextHigherPin (g : Grid) (price : ℚ) : Option ℚ :=
  g.Pins.foldl
    (fun best pin =>
      if price < pin then
        match best with
        | none => some pin
        | some b => if pin < b then some pin else some b
      else best)
    none

/-- Embedding of `closeGrid` (strategy.go lines 477-489): `bbgo.Sync`, then
`GracefulCancel`, whose error is returned.  No field of the strategy is assigned. -/
def closeGrid (env : Session) (s : Strategy) : Strategy × List Call × Option GridError :=
  (s, [Call.Sync, Call.GracefulCancel], env.GracefulCancel.map GridError.gracefulCancel)

/-- Embedding of `handleOrderCanceled` (strategy.go lines 155-165): the error of
`closeGrid` is logged; the handler returns nothing. -/
def handleOrderCanceled (env : Session) (s : Strategy) (_o : Order) : Strategy × List Call :=
  if s.CloseWhenCancelOrder then
    let r := closeGrid env s
    (r.1, r.2.1)
  else (s, [])

/-- The order form that `handleOrderFilled` builds (strategy.go lines 171-220).  `none` is
the nil dereference of `s.grid.NextLowerPin` when no grid is set and no profit spread is
configured. -/
def newOrderForm (s : Strategy) (o : Order) : Option SubmitOrder :=
  match o.Side with
  | SideType.SideTypeSell =>
    (if s.ProfitSpread ≠ 0 then some (o.Price - s.ProfitSpread)
      else s.grid.map fun g =>
        match g.NextLowerPin o.Price with
        | some pin => pin
        | none => o.Price).map fun newPrice =>
      { Type_ := OrderType.OrderTypeLimit
        Side := SideType.SideTypeBuy
        Price := newPrice
        Quantity :=
          if s.Compound || s.EarnBase then o.Quantity * o.Price / newPrice else o.Quantity
        TimeInForce := TimeInForce.TimeInForceGTC }
  | SideType.SideTypeBuy =>
    (if s.ProfitSpread ≠ 0 then some (o.Price + s.ProfitSpread)
      else s.grid.map fun g =>
        match g.NextHigherPin o.Price with
        | some pin => pin
        | none => o.Price).map fun newPrice =>
      { Type_ := OrderType.OrderTypeLimit
        Side := SideType.SideTypeSell
        Price := newPrice
        Quantity := if s.EarnBase then o.Quantity * o.Price / newPrice else o.Quantity
        TimeInForce := TimeInForce.TimeInForceGTC }
  | SideType.SideTypeSelf =>
    some
      { Type_ := OrderType.OrderTypeLimit
        Side := SideType.SideTypeSell
        Price := o.Price
        Quantity := o.Quantity
        TimeInForce := TimeInForce.TimeInForceGTC }

/-- Embedding of `handleOrderFilled` (strategy.go lines 167-229): one `SubmitOrders` call
with the order form; its error is logged and the handler returns nothing, so the answer of
`env.SubmitOrders` is not read. -/
def handleOrderFilled (_env : Session) (s : Strategy) (o : Order) :
    Option (Strategy × List Call) :=
  (newOrderForm s o).map fun orderForm => (s, [Call.SubmitOrders [orderForm]])

/-- Embedding of `getLastTradePrice` (strategy.go lines 659-684). -/
def getLastTradePrice (env : Session) : Except PriceError ℚ :=
  if env.IsBackTesting then
    match env.LastPrice with
    | some price => Except.ok price
    | none => Except.error PriceError.lastPriceNotFound
  else
    match env.QueryTickers with
    | Except.error code => Except.error (PriceError.queryTickers code)
    | Except.ok (some ticker) =>
      if ticker.1 ≠ 0 then Except.ok ticker.1 else Except.ok ticker.2
    | Except.ok none => Except.error PriceError.tickerNotFound

/-- The sizing step of `openGrid` (strategy.go lines 522-551).  `err` is the variable `err`
of line 503, which lines 526 and 531 test in place of `err2`.  The feasibility checks are
called with the arguments in the order of the source: `lastPrice` in the position of the
quantity (amount) and the quantity (amount) in the position of the last price.  The result
is `none` when the sizing loop runs out of fuel, `Except.error e` when `openGrid` returns
`e` here, else the strategy with the quantity assigned. -/
def openGridSizing (fuel : Nat) (s : Strategy) (lastPrice totalBase totalQuote : ℚ)
    (err : Option GridError) (pins : List ℚ) : Option (Except (Option GridError) Strategy) :=
  if s.QuantityOrAmount.IsSet then
    let err2 := (checkRequiredInvestmentByQuantity totalBase totalQuote lastPrice
      s.QuantityOrAmount.Quantity pins).2.2
    if s.QuantityOrAmount.Quantity ≠ 0 ∧ err ≠ none then
      some (Except.error (err2.map GridError.investment))
    else
      let err2 := (checkRequiredInvestmentByAmount totalBase totalQuote lastPrice
        s.QuantityOrAmount.Amount pins).2.2
      if s.QuantityOrAmount.Amount ≠ 0 ∧ err ≠ none then
        some (Except.error (err2.map GridError.investment))
      else some (Except.ok s)
  else if s.QuoteInvestment ≠ 0 ∧ s.BaseInvestment ≠ 0 then
    (calculateQuoteBaseInvestmentQuantity fuel s.Market s.QuoteInvestment s.BaseInvestment
        lastPrice pins).map fun quantity =>
      Except.ok { s with QuantityOrAmount := { s.QuantityOrAmount with Quantity := quantity } }
  else if s.QuoteInvestment ≠ 0 then
    some (Except.ok { s with QuantityOrAmount :=
      { s.QuantityOrAmount with
        Quantity := calculateQuoteInvestmentQuantity s.QuoteInvestment lastPrice pins } })
  else some (Except.ok s)

/-- The local variables of the pin scan of `openGrid` (strategy.go lines 568-572), and the
`SubmitOrders` calls made so far. -/
structure OpenGridState where
  buyPlacedPrice : Value
  usedBase : Value
  usedQuote : Value
  submitOrders : List SubmitOrder
  calls : List Call

/-- The limit GTC order that the scan of `openGrid` appends. -/
def gridOrder (side : SideType) (price quantity : ℚ) : SubmitOrder :=
  { Type_ := OrderType.OrderTypeLimit
    Side := side
    Price := price
    Quantity := quantity
    TimeInForce := TimeInForce.TimeInForceGTC }

/-- The classification of the pin at index `i` in the scan of `openGrid` (strategy.go lines
574-630); `none` is the `continue` of line 615. -/
def openGridBody (s : Strategy) (lastPrice totalBase : ℚ) (pins : List ℚ) (i : Nat)
    (st : OpenGridState) : Option OpenGridState :=
  let price := pins.getD i 0
  let quantity := openGridQuantity s.QuantityOrAmount.Quantity s.QuantityOrAmount.Amount price
  if lastPrice ≤ price then
    if st.usedBase + quantity < totalBase then
      some { st with
        submitOrders := st.submitOrders ++ [gridOrder SideType.SideTypeSell price quantity]
        usedBase := st.usedBase + quantity }
    else if 0 < i then
      let nextPrice := pins.getD (i - 1) 0
      some { st with
        submitOrders := st.submitOrders ++ [gridOrder SideType.SideTypeBuy nextPrice quantity]
        usedQuote := st.usedQuote + quantity * price
        buyPlacedPrice := nextPrice }
    else some st
  else
    if st.buyPlacedPrice ≠ 0 ∧ st.buyPlacedPrice ≤ price then none
    else
      some { st with
        submitOrders := st.submitOrders ++ [gridOrder SideType.SideTypeBuy price quantity]
        usedQuote := st.usedQuote + quantity * price }

/-- The pin scan of `openGrid` (strategy.go lines 573-639), from the last pin down.  Every
iteration that does not `continue` ends with `SubmitOrders(ctx, submitOrders...)` on the
whole slice built so far (line 632); when that call fails the function returns at once
(line 634).  The result is the state and whether the function returned inside the loop. -/
def openGridLoop (env : Session) (s : Strategy) (lastPrice totalBase : ℚ) (pins : List ℚ) :
    Nat → OpenGridState → OpenGridState × Bool
  | 0, st => (st, false)
  | i + 1, st =>
    match openGridBody s lastPrice totalBase pins i st with
    | none => openGridLoop env s lastPrice totalBase pins i st
    | some st1 =>
      let st2 := { st1 with calls := st1.calls ++ [Call.SubmitOrders st1.submitOrders] }
      match env.SubmitOrders st1.calls.length st1.submitOrders with
      | some _ => (st2, true)
      | none => openGridLoop env s lastPrice totalBase pins i st2

/-- Embedding of `openGrid` (strategy.go lines 494-642).  The result is `none` when a loop
runs out of fuel, else the strategy afterwards, the calls made to the collaborators, and the
returned error (`none` for nil).  The method `CalculateArithmeticPins` called at line 500 is
not in grid.go at hand, where `NewGrid` computes the pins; the call is taken to leave the
grid as `NewGrid` built it.  The variable `err` of line 503 is nil once line 504 is passed;
line 526 and line 531 test it, and line 634 returns it. -/
def openGrid (fuel : Nat) (env : Session) (s : Strategy) :
    Option (Strategy × List Call × Option GridError) :=
  match s.grid with
  | some _ => some (s, [], none)
  | none =>
    match NewGrid fuel s.LowerPrice s.UpperPrice (s.GridNum : ℚ) s.Market.TickSize with
    | none => none
    | some grid =>
      let s1 : Strategy := { s with grid := some grid }
      match getLastTradePrice env with
      | Except.error cause =>
        some (s1, [Call.getLastTradePrice], some (GridError.failedLastTradePrice cause))
      | Except.ok lastPrice =>
        let err : Option GridError := none
        match env.BaseBalance with
        | none =>
          some (s1, [Call.getLastTradePrice, Call.BalanceBase],
            some GridError.baseBalanceNotFound)
        | some totalBase =>
          match env.QuoteBalance with
          | none =>
            some (s1, [Call.getLastTradePrice, Call.BalanceBase, Call.BalanceQuote],
              some GridError.quoteBalanceNotFound)
          | some totalQuote =>
            let lookups := [Call.getLastTradePrice, Call.BalanceBase, Call.BalanceQuote]
            match openGridSizing fuel s1 lastPrice totalBase totalQuote err grid.Pins with
            | none => none
            | some (Except.error err2) => some (s1, lookups, err2)
            | some (Except.ok s2) =>
              if s2.BaseInvestment ≠ 0 ∧ s2.QuoteInvestment ≠ 0 ∧
                  totalBase < s2.BaseInvestment then
                some (s2, lookups, some GridError.baseInvestmentTooLarge)
              else if s2.BaseInvestment ≠ 0 ∧ s2.QuoteInvestment ≠ 0 ∧
                  totalQuote < s2.QuoteInvestment then
                some (s2, lookups, some GridError.quoteInvestmentTooLarge)
              else
                let r := openGridLoop env s2 lastPrice totalBase grid.Pins grid.Pins.length
                  ⟨0, 0, 0, [], []⟩
                if r.2 then some (s2, lookups ++ r.1.calls, err)
                else some (s2, lookups ++ r.1.calls, none)

/-- All the orders passed to `SubmitOrders` by a list of calls, taken together in order. -/
def submittedOrders (calls : List Call) : List SubmitOrder :=
  calls.flatMap fun call =>
    match call with
    | Call.SubmitOrders orders => orders
    | _ => []

/-- The total quantity of the sell legs among the orders built by the scan of `openGrid`. -/
def sellLegsQuantity (orders : List SubmitOrder) : ℚ :=
  ((orders.filter fun order => decide (order.Side = SideType.SideTypeSell)).map
    SubmitOrder.Quantity).sum

/-- The sum of price times quantity over the buy legs among the orders built by the scan of
`openGrid`. -/
def buyLegsNotional (orders : List SubmitOrder) : ℚ :=
  ((orders.filter fun order => decide (order.Side = SideType.SideTypeBuy)).map
    fun order => order.Price * order.Quantity).sum

/-- The divisors of the loop of strategy.go lines 416-419: the values of
`maxNumberOfSellOrders` that `baseInvestment` is divided by in the first `steps` iterations,
in order (fewer when the loop stops before).  It follows `reduceSellOrdersLoop` step by
step. -/
def reduceSellOrdersDivisors (minQuantity minBaseQuantity baseInvestment : ℚ) :
    Nat → ℤ → ℚ → List ℤ
  | 0, _, _ => []
  | steps + 1, maxNumberOfSellOrders, maxBaseQuantity =>
    if maxBaseQuantity ≤ minQuantity ∨ maxBaseQuantity ≤ minBaseQuantity then
      (maxNumberOfSellOrders - 1) ::
        reduceSellOrdersDivisors minQuantity minBaseQuantity baseInvestment steps
          (maxNumberOfSellOrders - 1)
          (baseInvestment / (((maxNumberOfSellOrders - 1 : ℤ)) : ℚ))
    else []

/-- A strategy with the grid `90..110` of four steps, quantity `1` per level, no grid yet. -/
def strategyExample : Strategy :=
  { Market := { TickSize := 1, MinQuantity := 0, MinNotional := 0 }
    ProfitSpread := 0
    GridNum := 4
    UpperPrice := 110
    LowerPrice := 90
    Compound := false
    EarnBase := false
    QuantityOrAmount := { Quantity := 1, Amount := 0 }
    QuoteInvestment := 0
    BaseInvestment := 0
    CloseWhenCancelOrder := true
    grid := none }

/-- Collaborators that answer the last price `100`, the balances `base` and `quote`, and
the error `submit k orders` to the `k`-th `SubmitOrders` call. -/
def sessionExample (base quote : Option ℚ) (submit : Nat → List SubmitOrder → Option Nat) :
    Session :=
  { IsBackTesting := true
    LastPrice := some 100
    QueryTickers := Except.ok none
    BaseBalance := base
    QuoteBalance := quote
    SubmitOrders := submit
    GracefulCancel := none }

/-! ## Rounding lemmas -/

lemma truncRat_of_nonneg {x : ℚ} (h : 0 ≤ x) : truncRat x = ⌊x⌋ := by
  simp [truncRat, h]

lemma truncRat_mono {x y : ℚ} (h : x ≤ y) : truncRat x ≤ truncRat y := by
  unfold truncRat
  by_cases hx : 0 ≤ x
  · have hy : 0 ≤ y := hx.trans h
    rw [if_pos hx, if_pos hy]
    exact Int.floor_mono h
  · rw [if_neg hx]
    by_cases hy : 0 ≤ y
    · rw [if_pos hy]
      have h1 : ⌈x⌉ ≤ 0 := by
        rw [Int.ceil_le]
        push_neg at hx
        exact_mod_cast hx.le
      exact h1.trans (Int.floor_nonneg.mpr hy)
    · rw [if_neg hy]
      exact Int.ceil_mono h

lemma truncToTickExact_of_nonneg {tickSize p : ℚ} (ht : 0 < tickSize) (hp : 0 ≤ p) :
    truncToTickExact tickSize p = floorToTick tickSize p := by
  unfold truncToTickExact floorToTick
  rw [truncRat_of_nonneg (div_nonneg hp ht.le)]

lemma truncToTickExact_mono {tickSize p q : ℚ} (ht : 0 < tickSize) (h : p ≤ q) :
    truncToTickExact tickSize p ≤ truncToTickExact tickSize q := by
  unfold truncToTickExact
  have h1 : p / tickSize ≤ q / tickSize := div_le_div_of_nonneg_right h ht.le
  have h2 : ((truncRat (p / tickSize) : ℤ) : ℚ) ≤ ((truncRat (q / tickSize) : ℤ) : ℚ) := by
    exact_mod_cast truncRat_mono h1
  exact mul_le_mul_of_nonneg_right h2 ht.le

lemma floorToTick_le {tickSize : ℚ} (ht : 0 < tickSize) (p : ℚ) :
    floorToTick tickSize p ≤ p := by
  unfold floorToTick
  have h := Int.floor_le (p / tickSize)
  calc ((⌊p / tickSize⌋ : ℤ) : ℚ) * tickSize ≤ p / tickSize * tickSize :=
        mul_le_mul_of_nonneg_right h ht.le
    _ = p := div_mul_cancel₀ p ht.ne'

lemma lt_floorToTick_add {tickSize : ℚ} (ht : 0 < tickSize) (p : ℚ) :
    p < floorToTick tickSize p + tickSize := by
  unfold floorToTick
  have h := Int.lt_floor_add_one (p / tickSize)
  calc p = p / tickSize * tickSize := (div_mul_cancel₀ p ht.ne').symm
    _ < (((⌊p / tickSize⌋ : ℤ) : ℚ) + 1) * tickSize := mul_lt_mul_of_pos_right h ht
    _ = ((⌊p / tickSize⌋ : ℤ) : ℚ) * tickSize + tickSize := by ring

/-- The floor rounding is the largest multiple of the tick that does not exceed `p`. -/
lemma floorToTick_greatest {tickSize : ℚ} (ht : 0 < tickSize) (p : ℚ) (z : ℤ)
    (hz : (z : ℚ) * tickSize ≤ p) : (z : ℚ) * tickSize ≤ floorToTick tickSize p := by
  unfold floorToTick
  have h1 : (z : ℚ) ≤ p / tickSize := (le_div_iff₀ ht).mpr hz
  have h2 : z ≤ ⌊p / tickSize⌋ := Int.le_floor.mpr h1
  have h3 : (z : ℚ) ≤ ((⌊p / tickSize⌋ : ℤ) : ℚ) := by exact_mod_cast h2
  exact mul_le_mul_of_nonneg_right h3 ht.le

lemma floorToTick_of_multiple {tickSize : ℚ} (ht : 0 < tickSize) (z : ℤ) :
    floorToTick tickSize ((z : ℚ) * tickSize) = (z : ℚ) * tickSize := by
  unfold floorToTick
  rw [mul_div_assoc, div_self ht.ne', mul_one, Int.floor_intCast]

/-- A step of at least one tick moves the floor rounding strictly up. -/
lemma floorToTick_lt_of_tick_le {tickSize p q : ℚ} (ht : 0 < tickSize)
    (h : p + tickSize ≤ q) : floorToTick tickSize p < floorToTick tickSize q := by
  unfold floorToTick
  have h1 : p / tickSize + 1 ≤ q / tickSize := by
    rw [le_div_iff₀ ht, add_mul, div_mul_cancel₀ p ht.ne', one_mul]
    exact h
  have h2 : ⌊p / tickSize⌋ + 1 ≤ ⌊q / tickSize⌋ := by
    rw [← Int.floor_add_one]
    exact Int.floor_mono h1
  have h3 : ((⌊p / tickSize⌋ : ℤ) : ℚ) < ((⌊q / tickSize⌋ : ℤ) : ℚ) := by
    exact_mod_cast Int.lt_of_lt_of_le (Int.lt_succ_self _) h2
  exact mul_lt_mul_of_pos_right h3 ht

/-! ## The `float64` steps of the tick truncation -/

lemma roundHalfEven_eq (x : ℚ) (m : ℤ) (h : |x - (m : ℚ)| < 1 / 2) : roundHalfEven x = m := by
  rw [abs_lt] at h
  obtain ⟨h1, h2⟩ := h
  have hf1 := Int.floor_le x
  have hf2 := Int.lt_floor_add_one x
  have hle : ⌊x⌋ ≤ m := by
    have : ((⌊x⌋ : ℤ) : ℚ) < (m : ℚ) + 1 := by linarith
    have : ⌊x⌋ < m + 1 := by exact_mod_cast this
    omega
  have hge : m - 1 ≤ ⌊x⌋ := by
    have : (m : ℚ) - 1 < ((⌊x⌋ : ℤ) : ℚ) + 1 := by linarith
    have : m - 1 < ⌊x⌋ + 1 := by exact_mod_cast this
    omega
  unfold roundHalfEven
  rcases (by omega : ⌊x⌋ = m ∨ ⌊x⌋ = m - 1) with hm | hm
  · have : x - ((⌊x⌋ : ℤ) : ℚ) < 1 / 2 := by rw [hm]; linarith
    rw [if_pos this, hm]
  · have hc : ((⌊x⌋ : ℤ) : ℚ) = (m : ℚ) - 1 := by rw [hm]; push_cast; ring
    have h3 : ¬ x - ((⌊x⌋ : ℤ) : ℚ) < 1 / 2 := by rw [hc]; linarith
    have h4 : 1 / 2 < x - ((⌊x⌋ : ℤ) : ℚ) := by rw [hc]; linarith
    rw [if_neg h3, if_pos h4, hm]
    ring

lemma log_two_eq (a : ℚ) (e : ℤ) (h1 : (2 : ℚ) ^ e ≤ a) (h2 : a < (2 : ℚ) ^ (e + 1)) :
    Int.log 2 a = e := by
  have ha : 0 < a := lt_of_lt_of_le (zpow_pos (by norm_num) e) h1
  have hb : 1 < (2 : ℕ) := by norm_num
  apply le_antisymm
  · have := (Int.lt_zpow_iff_log_lt hb ha).mp (by exact_mod_cast h2)
    omega
  · exact (Int.zpow_le_iff_le_log hb ha).mp (by exact_mod_cast h1)

lemma roundFloat64_eq (x : ℚ) (e m : ℤ) (he : -1022 ≤ e) (h1 : (2 : ℚ) ^ e ≤ |x|)
    (h2 : |x| < (2 : ℚ) ^ (e + 1)) (hm : |x / 2 ^ (e - 52) - (m : ℚ)| < 1 / 2) :
    roundFloat64 x = (m : ℚ) * 2 ^ (e - 52) := by
  have hx : x ≠ 0 := by
    intro h
    rw [h, abs_zero] at h1
    exact absurd h1 (not_le.mpr (zpow_pos (by norm_num) e))
  unfold roundFloat64
  rw [if_neg hx]
  simp only
  rw [log_two_eq |x| e h1 h2, max_eq_left he, roundHalfEven_eq _ m hm]

lemma roundFloat64_intCast (z : ℤ) (hz : |z| < 2 ^ 53) : roundFloat64 (z : ℚ) = (z : ℚ) := by
  by_cases h0 : z = 0
  · subst h0
    simp [roundFloat64]
  have hpos : (0 : ℚ) < |(z : ℚ)| := abs_pos.mpr (by exact_mod_cast h0)
  have hb : 1 < (2 : ℕ) := by norm_num
  have hone : (1 : ℚ) ≤ |(z : ℚ)| := by
    have : (1 : ℤ) ≤ |z| := Int.one_le_abs h0
    exact_mod_cast this
  have hlo : 0 ≤ Int.log 2 |(z : ℚ)| := by
    apply (Int.zpow_le_iff_le_log hb hpos).mp
    simpa using hone
  have hhi : Int.log 2 |(z : ℚ)| < 53 := by
    apply (Int.lt_zpow_iff_log_lt hb hpos).mp
    have h53 : (((2 : ℕ) : ℚ)) ^ (53 : ℤ) = 2 ^ 53 := by norm_num
    rw [h53]
    exact_mod_cast hz
  obtain ⟨k, hk⟩ : ∃ k : ℕ, (k : ℤ) = 52 - Int.log 2 |(z : ℚ)| := ⟨(52 - Int.log 2 |(z : ℚ)|).toNat, by omega⟩
  have hexp : Int.log 2 |(z : ℚ)| - 52 = -(k : ℤ) := by omega
  unfold roundFloat64
  rw [if_neg (by exact_mod_cast h0)]
  simp only
  rw [max_eq_left (by omega), hexp, zpow_neg, zpow_natCast, div_inv_eq_mul]
  have : roundHalfEven ((z : ℚ) * 2 ^ k) = z * 2 ^ k := by
    apply roundHalfEven_eq
    push_cast
    simp
  rw [this]
  push_cast
  field_simp

lemma truncRat_intCast (z : ℤ) : truncRat (z : ℚ) = z := by
  unfold truncRat
  split_ifs
  · exact Int.floor_intCast z
  · exact Int.ceil_intCast z

lemma NewFromFloat_intCast (z : ℤ) : NewFromFloat (z : ℚ) = (z : ℚ) := by
  unfold NewFromFloat
  have h8 : (0 : ℚ) < 10 ^ 8 := by norm_num
  by_cases hz : (z : ℚ) < 0
  · rw [if_pos hz]
    have hneg : ¬ (0 : ℚ) ≤ (z : ℚ) * 10 ^ 8 - 1 / 2 := by
      have : (z : ℚ) * 10 ^ 8 < 0 := mul_neg_of_neg_of_pos hz h8
      linarith
    have hc : ⌈(z : ℚ) * 10 ^ 8 - 1 / 2⌉ = z * 10 ^ 8 := by
      rw [Int.ceil_eq_iff]
      push_cast
      constructor <;> linarith
    rw [truncRat, if_neg hneg, hc]
    push_cast
    norm_num
  · rw [if_neg hz]
    push_neg at hz
    have hpos : (0 : ℚ) ≤ (z : ℚ) * 10 ^ 8 + 1 / 2 := by
      have : (0 : ℚ) ≤ (z : ℚ) * 10 ^ 8 := mul_nonneg hz h8.le
      linarith
    have hc : ⌊(z : ℚ) * 10 ^ 8 + 1 / 2⌋ = z * 10 ^ 8 := by
      rw [Int.floor_eq_iff]
      push_cast
      constructor <;> linarith
    rw [truncRat, if_pos hpos, hc]
    push_cast
    norm_num

/-- The `float64` steps are exact at a price that is a multiple `n * tickSize` of the tick,
`|n| < 2^53`, when the price and the tick are `float64` numbers and the price has at most
eight decimals: the quotient is the integer `n` and the product is the price. -/
lemma truncToTick_exact_multiple (tickSize p : ℚ) (n : ℤ) (ht : 0 < tickSize)
    (hn : |n| < 2 ^ 53) (hp : p = (n : ℚ) * tickSize) (hft : roundFloat64 tickSize = tickSize)
    (hfp : roundFloat64 p = p) (h8 : NewFromFloat p = p) :
    truncToTick tickSize p = p ∧ truncToTickExact tickSize p = p := by
  have hq : p / tickSize = (n : ℚ) := by
    rw [hp, mul_div_assoc, div_self ht.ne', mul_one]
  constructor
  · unfold truncToTick Float64 float64Div float64Mul
    rw [hfp, hft, hq, roundFloat64_intCast n hn, truncRat_intCast, ← hp, hfp, h8]
  · unfold truncToTickExact
    rw [hq, truncRat_intCast, ← hp]

/-- On integers the tick truncation is computed exactly: for an integer tick `t > 0` and an
integer multiple `n * t` of it, all below `2^53` in absolute value, the pin is `n * t`. -/
lemma truncToTick_int_multiple (t n : ℤ) (ht : 0 < t) (ht53 : |t| < 2 ^ 53)
    (hn53 : |n| < 2 ^ 53) (hp53 : |n * t| < 2 ^ 53) :
    truncToTick (t : ℚ) ((n : ℚ) * (t : ℚ)) = (n : ℚ) * (t : ℚ) := by
  have htq : (t : ℚ) ≠ 0 := by exact_mod_cast ht.ne'
  have hp : Float64 ((n : ℚ) * (t : ℚ)) = (n : ℚ) * (t : ℚ) := by
    have := roundFloat64_intCast (n * t) hp53
    push_cast at this
    exact this
  have htf : Float64 (t : ℚ) = (t : ℚ) := roundFloat64_intCast t ht53
  unfold truncToTick
  rw [hp, htf]
  unfold float64Div float64Mul
  rw [mul_div_assoc, div_self htq, mul_one, roundFloat64_intCast n hn53, truncRat_intCast]
  have := roundFloat64_intCast (n * t) hp53
  push_cast at this
  rw [this]
  have h2 := NewFromFloat_intCast (n * t)
  push_cast at h2
  exact h2

lemma roundFloat64_eq_of (x r : ℚ) (e m : ℤ) (he : -1022 ≤ e) (h1 : (2 : ℚ) ^ e ≤ |x|)
    (h2 : |x| < (2 : ℚ) ^ (e + 1)) (hm : |x / 2 ^ (e - 52) - (m : ℚ)| < 1 / 2)
    (hr : (m : ℚ) * 2 ^ (e - 52) = r) : roundFloat64 x = r := by
  rw [roundFloat64_eq x e m he h1 h2 hm, hr]

/-- Evaluation of the tick truncation through its float64 steps: the two conversions, the
quotient, its truncation, the product and the conversion back. -/
lemma truncToTick_eval (t p ft fp x q y pr r : ℚ) (n : ℤ) (h1 : roundFloat64 p = fp)
    (h2 : roundFloat64 t = ft) (hx : fp / ft = x) (h3 : roundFloat64 x = q)
    (h4 : truncRat q = n) (hy : (n : ℚ) * ft = y) (h5 : roundFloat64 y = pr)
    (h6 : NewFromFloat pr = r) : truncToTick t p = r := by
  unfold truncToTick Float64 float64Div float64Mul
  rw [h1, h2, hx, h3, h4, hy, h5, h6]

/-- The float64 steps of grid.go line 31 at the price `0.28` and the tick `0.01`: the quotient is
`28.000000000000004`, the pin is `0.28`. -/
lemma truncToTick_cent_28 : truncToTick (1 / 100) (7 / 25) = (7 / 25) := by
  refine truncToTick_eval (1 / 100) (7 / 25)
    (5764607523034235 / 576460752303423488)
    (1261007895663739 / 4503599627370496)
    (161409010644958592 / 5764607523034235)
    (7881299347898369 / 281474976710656)
    (40352252661239645 / 144115188075855872)
    (1261007895663739 / 4503599627370496) (7 / 25) (28)
    ?_ ?_ (by norm_num) ?_ ?_ (by norm_num) ?_ ?_
  · exact roundFloat64_eq_of (7 / 25)
      (1261007895663739 / 4503599627370496) (-2) (5044031582654956) (by norm_num)
      (by norm_num [abs_of_pos]) (by norm_num [abs_of_pos]) (by rw [abs_lt]; norm_num) (by norm_num)
  · exact roundFloat64_eq_of (1 / 100)
      (5764607523034235 / 576460752303423488) (-7) (5764607523034235) (by norm_num)
      (by norm_num [abs_of_pos]) (by norm_num [abs_of_pos]) (by rw [abs_lt]; norm_num) (by norm_num)
  · exact roundFloat64_eq_of (161409010644958592 / 5764607523034235)
      (7881299347898369 / 281474976710656) (4) (7881299347898369) (by norm_num)
      (by norm_num [abs_of_pos]) (by norm_num [abs_of_pos]) (by rw [abs_lt]; norm_num) (by norm_num)
  · rw [truncRat, if_pos (by norm_num), Int.floor_eq_iff]
    norm_num
  · exact roundFloat64_eq_of (40352252661239645 / 144115188075855872)
      (1261007895663739 / 4503599627370496) (-2) (5044031582654956) (by norm_num)
      (by norm_num [abs_of_pos]) (by norm_num [abs_of_pos]) (by rw [abs_lt]; norm_num) (by norm_num)
  · have hc : ⌊((1261007895663739 / 4503599627370496) : ℚ) * 10 ^ 8 + 1 / 2⌋ = 28000000 := by
      rw [Int.floor_eq_iff]; norm_num
    rw [NewFromFloat, if_neg (by norm_num), truncRat, if_pos (by norm_num), hc]
    norm_num

/-- The float64 steps of grid.go line 31 at the price `0.29` and the tick `0.01`: the float64
quotient is `28.999999999999996`, which truncates to `28`, and the pin is `0.28`. -/
lemma truncToTick_cent_29 : truncToTick (1 / 100) (29 / 100) = (7 / 25) := by
  refine truncToTick_eval (1 / 100) (29 / 100)
    (5764607523034235 / 576460752303423488)
    (5224175567749775 / 18014398509481984)
    (33434723633598560 / 1152921504606847)
    (8162774324609023 / 281474976710656)
    (40352252661239645 / 144115188075855872)
    (1261007895663739 / 4503599627370496) (7 / 25) (28)
    ?_ ?_ (by norm_num) ?_ ?_ (by norm_num) ?_ ?_
  · exact roundFloat64_eq_of (29 / 100)
      (5224175567749775 / 18014398509481984) (-2) (5224175567749775) (by norm_num)
      (by norm_num [abs_of_pos]) (by norm_num [abs_of_pos]) (by rw [abs_lt]; norm_num) (by norm_num)
  · exact roundFloat64_eq_of (1 / 100)
      (5764607523034235 / 576460752303423488) (-7) (5764607523034235) (by norm_num)
      (by norm_num [abs_of_pos]) (by norm_num [abs_of_pos]) (by rw [abs_lt]; norm_num) (by norm_num)
  · exact roundFloat64_eq_of (33434723633598560 / 1152921504606847)
      (8162774324609023 / 281474976710656) (4) (8162774324609023) (by norm_num)
      (by norm_num [abs_of_pos]) (by norm_num [abs_of_pos]) (by rw [abs_lt]; norm_num) (by norm_num)
  · rw [truncRat, if_pos (by norm_num), Int.floor_eq_iff]
    norm_num
  · exact roundFloat64_eq_of (40352252661239645 / 144115188075855872)
      (1261007895663739 / 4503599627370496) (-2) (5044031582654956) (by norm_num)
      (by norm_num [abs_of_pos]) (by norm_num [abs_of_pos]) (by rw [abs_lt]; norm_num) (by norm_num)
  · have hc : ⌊((1261007895663739 / 4503599627370496) : ℚ) * 10 ^ 8 + 1 / 2⌋ = 28000000 := by
      rw [Int.floor_eq_iff]; norm_num
    rw [NewFromFloat, if_neg (by norm_num), truncRat, if_pos (by norm_num), hc]
    norm_num

/-- The float64 steps at the price `0.30` and the tick `0.01`: the quotient is `30`, the pin
`0.30`. -/
lemma truncToTick_cent_30 : truncToTick (1 / 100) (3 / 10) = (3 / 10) := by
  refine truncToTick_eval (1 / 100) (3 / 10)
    (5764607523034235 / 576460752303423488)
    (5404319552844595 / 18014398509481984)
    (34587645138205408 / 1152921504606847)
    30
    (86469112845513525 / 288230376151711744)
    (5404319552844595 / 18014398509481984) (3 / 10) (30)
    ?_ ?_ (by norm_num) ?_ ?_ (by norm_num) ?_ ?_
  · exact roundFloat64_eq_of (3 / 10)
      (5404319552844595 / 18014398509481984) (-2) (5404319552844595) (by norm_num)
      (by norm_num [abs_of_pos]) (by norm_num [abs_of_pos]) (by rw [abs_lt]; norm_num) (by norm_num)
  · exact roundFloat64_eq_of (1 / 100)
      (5764607523034235 / 576460752303423488) (-7) (5764607523034235) (by norm_num)
      (by norm_num [abs_of_pos]) (by norm_num [abs_of_pos]) (by rw [abs_lt]; norm_num) (by norm_num)
  · exact roundFloat64_eq_of (34587645138205408 / 1152921504606847)
      30 (4) (8444249301319680) (by norm_num)
      (by norm_num [abs_of_pos]) (by norm_num [abs_of_pos]) (by rw [abs_lt]; norm_num) (by norm_num)
  · rw [truncRat, if_pos (by norm_num), Int.floor_eq_iff]
    norm_num
  · exact roundFloat64_eq_of (86469112845513525 / 288230376151711744)
      (5404319552844595 / 18014398509481984) (-2) (5404319552844595) (by norm_num)
      (by norm_num [abs_of_pos]) (by norm_num [abs_of_pos]) (by rw [abs_lt]; norm_num) (by norm_num)
  · have hc : ⌊((5404319552844595 / 18014398509481984) : ℚ) * 10 ^ 8 + 1 / 2⌋ = 30000000 := by
      rw [Int.floor_eq_iff]; norm_num
    rw [NewFromFloat, if_neg (by norm_num), truncRat, if_pos (by norm_num), hc]
    norm_num

/-- The float64 steps at the price `0.31` and the tick `0.01`: the quotient is `31`, the pin
`0.31`. -/
lemma truncToTick_cent_31 : truncToTick (1 / 100) (31 / 100) = (31 / 100) := by
  refine truncToTick_eval (1 / 100) (31 / 100)
    (5764607523034235 / 576460752303423488)
    (5584463537939415 / 18014398509481984)
    (35740566642812256 / 1152921504606847)
    31
    (178702833214061285 / 576460752303423488)
    (5584463537939415 / 18014398509481984) (31 / 100) (31)
    ?_ ?_ (by norm_num) ?_ ?_ (by norm_num) ?_ ?_
  · exact roundFloat64_eq_of (31 / 100)
      (5584463537939415 / 18014398509481984) (-2) (5584463537939415) (by norm_num)
      (by norm_num [abs_of_pos]) (by norm_num [abs_of_pos]) (by rw [abs_lt]; norm_num) (by norm_num)
  · exact roundFloat64_eq_of (1 / 100)
      (5764607523034235 / 576460752303423488) (-7) (5764607523034235) (by norm_num)
      (by norm_num [abs_of_pos]) (by norm_num [abs_of_pos]) (by rw [abs_lt]; norm_num) (by norm_num)
  · exact roundFloat64_eq_of (35740566642812256 / 1152921504606847)
      31 (4) (8725724278030336) (by norm_num)
      (by norm_num [abs_of_pos]) (by norm_num [abs_of_pos]) (by rw [abs_lt]; norm_num) (by norm_num)
  · rw [truncRat, if_pos (by norm_num), Int.floor_eq_iff]
    norm_num
  · exact roundFloat64_eq_of (178702833214061285 / 576460752303423488)
      (5584463537939415 / 18014398509481984) (-2) (5584463537939415) (by norm_num)
      (by norm_num [abs_of_pos]) (by norm_num [abs_of_pos]) (by rw [abs_lt]; norm_num) (by norm_num)
  · have hc : ⌊((5584463537939415 / 18014398509481984) : ℚ) * 10 ^ 8 + 1 / 2⌋ = 31000000 := by
      rw [Int.floor_eq_iff]; norm_num
    rw [NewFromFloat, if_neg (by norm_num), truncRat, if_pos (by norm_num), hc]
    norm_num

/-- The float64 steps at the price `-3/2` and the tick `1`: the pin is `-1`. -/
lemma truncToTick_one_neg_half : truncToTick 1 (-3 / 2) = (-1) := by
  refine truncToTick_eval 1 (-3 / 2)
    1
    (-3 / 2)
    (-3 / 2)
    (-3 / 2)
    (-1)
    (-1) (-1) (-1)
    ?_ ?_ (by norm_num) ?_ ?_ (by norm_num) ?_ ?_
  · exact roundFloat64_eq_of (-3 / 2)
      (-3 / 2) (0) (-6755399441055744) (by norm_num)
      (by norm_num [abs_of_neg]) (by norm_num [abs_of_neg]) (by rw [abs_lt]; norm_num) (by norm_num)
  · exact roundFloat64_eq_of 1
      1 (0) (4503599627370496) (by norm_num)
      (by norm_num [abs_of_pos]) (by norm_num [abs_of_pos]) (by rw [abs_lt]; norm_num) (by norm_num)
  · exact roundFloat64_eq_of (-3 / 2)
      (-3 / 2) (0) (-6755399441055744) (by norm_num)
      (by norm_num [abs_of_neg]) (by norm_num [abs_of_neg]) (by rw [abs_lt]; norm_num) (by norm_num)
  · rw [truncRat, if_neg (by norm_num), Int.ceil_eq_iff]
    norm_num
  · exact roundFloat64_eq_of (-1)
      (-1) (0) (-4503599627370496) (by norm_num)
      (by norm_num [abs_of_neg]) (by norm_num [abs_of_neg]) (by rw [abs_lt]; norm_num) (by norm_num)
  · have hc : ⌈((-1) : ℚ) * 10 ^ 8 - 1 / 2⌉ = -100000000 := by
      rw [Int.ceil_eq_iff]; norm_num
    rw [NewFromFloat, if_pos (by norm_num), truncRat, if_neg (by norm_num), hc]
    norm_num

/-- The float64 steps at the price `1/2` and the tick `1`: the pin is `0`. -/
lemma truncToTick_one_half : truncToTick 1 (1 / 2) = 0 := by
  refine truncToTick_eval 1 (1 / 2)
    1
    (1 / 2)
    (1 / 2)
    (1 / 2)
    0
    0 0 (0)
    ?_ ?_ (by norm_num) ?_ ?_ (by norm_num) ?_ ?_
  · exact roundFloat64_eq_of (1 / 2)
      (1 / 2) (-1) (4503599627370496) (by norm_num)
      (by norm_num [abs_of_pos]) (by norm_num [abs_of_pos]) (by rw [abs_lt]; norm_num) (by norm_num)
  · exact roundFloat64_eq_of 1
      1 (0) (4503599627370496) (by norm_num)
      (by norm_num [abs_of_pos]) (by norm_num [abs_of_pos]) (by rw [abs_lt]; norm_num) (by norm_num)
  · exact roundFloat64_eq_of (1 / 2)
      (1 / 2) (-1) (4503599627370496) (by norm_num)
      (by norm_num [abs_of_pos]) (by norm_num [abs_of_pos]) (by rw [abs_lt]; norm_num) (by norm_num)
  · rw [truncRat, if_pos (by norm_num), Int.floor_eq_iff]
    norm_num
  · norm_num [roundFloat64]
  · have hc : ⌊(0 : ℚ) * 10 ^ 8 + 1 / 2⌋ = 0 := by
      rw [Int.floor_eq_iff]; norm_num
    rw [NewFromFloat, if_neg (by norm_num), truncRat, if_pos (by norm_num), hc]
    norm_num

/-- The float64 steps at the price `3/2` and the tick `1`: the pin is `1`. -/
lemma truncToTick_one_three_halves : truncToTick 1 (3 / 2) = 1 := by
  refine truncToTick_eval 1 (3 / 2)
    1
    (3 / 2)
    (3 / 2)
    (3 / 2)
    1
    1 1 (1)
    ?_ ?_ (by norm_num) ?_ ?_ (by norm_num) ?_ ?_
  · exact roundFloat64_eq_of (3 / 2)
      (3 / 2) (0) (6755399441055744) (by norm_num)
      (by norm_num [abs_of_pos]) (by norm_num [abs_of_pos]) (by rw [abs_lt]; norm_num) (by norm_num)
  · exact roundFloat64_eq_of 1
      1 (0) (4503599627370496) (by norm_num)
      (by norm_num [abs_of_pos]) (by norm_num [abs_of_pos]) (by rw [abs_lt]; norm_num) (by norm_num)
  · exact roundFloat64_eq_of (3 / 2)
      (3 / 2) (0) (6755399441055744) (by norm_num)
      (by norm_num [abs_of_pos]) (by norm_num [abs_of_pos]) (by rw [abs_lt]; norm_num) (by norm_num)
  · rw [truncRat, if_pos (by norm_num), Int.floor_eq_iff]
    norm_num
  · exact roundFloat64_eq_of 1
      1 (0) (4503599627370496) (by norm_num)
      (by norm_num [abs_of_pos]) (by norm_num [abs_of_pos]) (by rw [abs_lt]; norm_num) (by norm_num)
  · have hc : ⌊(1 : ℚ) * 10 ^ 8 + 1 / 2⌋ = 100000000 := by
      rw [Int.floor_eq_iff]; norm_num
    rw [NewFromFloat, if_neg (by norm_num), truncRat, if_pos (by norm_num), hc]
    norm_num

/-! ## The pin loop of `calculateArithmeticPins` -/

/-- The pin loop, started at the `k`-th price with `m` prices left up to `upper`, appends
the truncations of these `m` prices and stops. -/
lemma calculateArithmeticPinsLoop_eq (lower upper spread tickSize : ℚ) (n : Nat)
    (hs : 0 < spread) (hu : upper = lower + n * spread) :
    ∀ (m k fuel : Nat) (acc : List ℚ), k + m = n + 1 → m + 1 ≤ fuel →
      calculateArithmeticPinsLoop upper spread tickSize fuel (lower + k * spread) acc =
        some (acc ++ (List.range' k m).map
          (fun (j : ℕ) => truncToTick tickSize (lower + (j : ℚ) * spread))) := by
  intro m
  induction m with
  | zero =>
    intro k fuel acc hk hf
    obtain ⟨f, rfl⟩ : ∃ f, fuel = f + 1 := ⟨fuel - 1, by omega⟩
    have hk' : k = n + 1 := by omega
    subst hk'
    have : ¬ (lower + ((n + 1 : ℕ) : ℚ) * spread ≤ upper) := by
      rw [hu]; push_cast; nlinarith
    rw [calculateArithmeticPinsLoop, if_neg this]
    simp
  | succ m ih =>
    intro k fuel acc hk hf
    obtain ⟨f, rfl⟩ : ∃ f, fuel = f + 1 := ⟨fuel - 1, by omega⟩
    have hkn : (k : ℚ) ≤ (n : ℚ) := by exact_mod_cast (by omega : k ≤ n)
    have hle : lower + (k : ℚ) * spread ≤ upper := by
      rw [hu]; nlinarith
    have hnext : lower + (k : ℚ) * spread + spread = lower + ((k + 1 : ℕ) : ℚ) * spread := by
      push_cast; ring
    rw [calculateArithmeticPinsLoop, if_pos hle, hnext,
      ih (k + 1) f _ (by omega) (by omega)]
    simp [List.range'_succ]

lemma calculateArithmeticPins_eq (lower upper tickSize : ℚ) (n fuel : Nat)
    (hlu : lower < upper) (hn : 0 < n) (hf : n + 2 ≤ fuel) :
    calculateArithmeticPins fuel lower upper (n : ℚ) tickSize =
      some ((List.range (n + 1)).map
        (fun (j : ℕ) => truncToTick tickSize (lower + (j : ℚ) * ((upper - lower) / (n : ℚ))))) := by
  have hn' : (0 : ℚ) < (n : ℚ) := by exact_mod_cast hn
  have hs : 0 < (upper - lower) / (n : ℚ) := div_pos (sub_pos.mpr hlu) hn'
  have hu : upper = lower + (n : ℚ) * ((upper - lower) / (n : ℚ)) := by
    field_simp
  have h := calculateArithmeticPinsLoop_eq lower upper ((upper - lower) / (n : ℚ)) tickSize n
    hs hu (n + 1) 0 fuel [] (by omega) (by omega)
  simp only [Nat.cast_zero, zero_mul, add_zero, List.nil_append] at h
  unfold calculateArithmeticPins
  simp only
  rw [h, List.range_eq_range']


lemma NewGrid_eq (lower upper tickSize : ℚ) (n fuel : Nat)
    (hlu : lower < upper) (hn : 0 < n) (hf : n + 2 ≤ fuel) :
    NewGrid fuel lower upper (n : ℚ) tickSize =
      some
        { UpperPrice := upper
          LowerPrice := lower
          Size := (n : ℚ)
          Pins := (List.range (n + 1)).map
            (fun (j : ℕ) => truncToTick tickSize (lower + (j : ℚ) * ((upper - lower) / (n : ℚ))))
          pinsCache := buildPinCache ((List.range (n + 1)).map
            (fun (j : ℕ) => truncToTick tickSize (lower + (j : ℚ) * ((upper - lower) / (n : ℚ))))) } := by
  unfold NewGrid
  rw [calculateArithmeticPins_eq lower upper tickSize n fuel hlu hn hf]
  rfl

/-! ## C1: the pins of `NewGrid` -/

/-- The grid that `NewGrid` returns, from the list of its pins. -/
lemma NewGrid_of_pins (lower upper tickSize : ℚ) (n fuel : Nat) (pins : List ℚ)
    (hlu : lower < upper) (hn : 0 < n) (hf : n + 2 ≤ fuel)
    (hpins : (List.range (n + 1)).map
      (fun (j : ℕ) => truncToTick tickSize (lower + (j : ℚ) * ((upper - lower) / (n : ℚ)))) =
        pins) :
    NewGrid fuel lower upper (n : ℚ) tickSize =
      some
        { UpperPrice := upper
          LowerPrice := lower
          Size := (n : ℚ)
          Pins := pins
          pinsCache := buildPinCache pins } := by
  rw [NewGrid_eq lower upper tickSize n fuel hlu hn hf, hpins]

/-- Where the `float64` steps are exact at every price of the loop, the pins of `NewGrid` are
the exact truncations. -/
lemma pins_eq_exact (lower spread tickSize : ℚ) (n : Nat)
    (hexact : ∀ k : ℕ, k ≤ n →
      truncToTick tickSize (lower + (k : ℚ) * spread) =
        truncToTickExact tickSize (lower + (k : ℚ) * spread)) :
    (List.range (n + 1)).map (fun (k : ℕ) => truncToTick tickSize (lower + (k : ℚ) * spread)) =
      (List.range (n + 1)).map
        (fun (k : ℕ) => truncToTickExact tickSize (lower + (k : ℚ) * spread)) := by
  apply List.map_congr_left
  intro k hk
  exact hexact k (by have := List.mem_range.mp hk; omega)

/-- With the tick `1` the `float64` steps are exact on the integers below `2^53`. -/
lemma truncToTick_one_int (z : ℤ) (hz : |z| < 2 ^ 53) :
    truncToTick 1 (z : ℚ) = (z : ℚ) ∧ truncToTickExact 1 (z : ℚ) = (z : ℚ) := by
  constructor
  · have h := truncToTick_int_multiple 1 z one_pos (by norm_num) hz (by simpa using hz)
    simpa using h
  · unfold truncToTickExact
    rw [div_one, truncRat_intCast, mul_one]

/-- The prices of the loop of `NewGrid(90, 110, 4, 1)` are the integers `90 + 5 k`, on which
the `float64` steps are exact. -/
lemma truncToTick_gridExample (k : ℕ) (hk : k ≤ 4) :
    truncToTick 1 (90 + (k : ℚ) * ((110 - 90) / ((4 : ℕ) : ℚ))) = 90 + 5 * (k : ℚ) ∧
    truncToTickExact 1 (90 + (k : ℚ) * ((110 - 90) / ((4 : ℕ) : ℚ))) = 90 + 5 * (k : ℚ) := by
  have hp : (90 : ℚ) + (k : ℚ) * ((110 - 90) / ((4 : ℕ) : ℚ)) = (((90 + 5 * (k : ℤ)) : ℤ) : ℚ) := by
    push_cast
    ring
  have hz : |(90 + 5 * (k : ℤ))| < 2 ^ 53 := by
    rw [abs_lt]
    constructor
    · have : (0 : ℤ) ≤ (k : ℤ) := Int.natCast_nonneg k
      norm_num
      omega
    · have : (k : ℤ) ≤ 4 := by exact_mod_cast hk
      norm_num
      omega
  obtain ⟨h1, h2⟩ := truncToTick_one_int (90 + 5 * (k : ℤ)) hz
  rw [hp, h1, h2]
  push_cast
  exact ⟨rfl, rfl⟩

/-- The pins of `NewGrid(0.28, 0.30, 2, 0.01)` are `[0.28, 0.28, 0.30]`: the price `0.29` gives
the pin `0.28`. -/
lemma NewGrid_cent_28 :
    NewGrid 4 (7 / 25) (3 / 10) ((2 : ℕ) : ℚ) (1 / 100) =
      some
        { UpperPrice := 3 / 10
          LowerPrice := 7 / 25
          Size := ((2 : ℕ) : ℚ)
          Pins := [7 / 25, 7 / 25, 3 / 10]
          pinsCache := buildPinCache [7 / 25, 7 / 25, 3 / 10] } := by
  apply NewGrid_of_pins _ _ _ 2 4 _ (by norm_num) (by norm_num) (by norm_num)
  have hr : List.range (2 + 1) = [0, 1, 2] := rfl
  have e0 : (7 / 25 : ℚ) + ((0 : ℕ) : ℚ) * ((3 / 10 - 7 / 25) / ((2 : ℕ) : ℚ)) = 7 / 25 := by
    norm_num
  have e1 : (7 / 25 : ℚ) + ((1 : ℕ) : ℚ) * ((3 / 10 - 7 / 25) / ((2 : ℕ) : ℚ)) = 29 / 100 := by
    norm_num
  have e2 : (7 / 25 : ℚ) + ((2 : ℕ) : ℚ) * ((3 / 10 - 7 / 25) / ((2 : ℕ) : ℚ)) = 3 / 10 := by
    norm_num
  rw [hr]
  simp only [List.map_cons, List.map_nil, e0, e1, e2, truncToTick_cent_28, truncToTick_cent_29,
    truncToTick_cent_30]

/-- The pins of `NewGrid(0.29, 0.31, 2, 0.01)` are `[0.28, 0.30, 0.31]`. -/
lemma NewGrid_cent_29 :
    NewGrid 4 (29 / 100) (31 / 100) ((2 : ℕ) : ℚ) (1 / 100) =
      some
        { UpperPrice := 31 / 100
          LowerPrice := 29 / 100
          Size := ((2 : ℕ) : ℚ)
          Pins := [7 / 25, 3 / 10, 31 / 100]
          pinsCache := buildPinCache [7 / 25, 3 / 10, 31 / 100] } := by
  apply NewGrid_of_pins _ _ _ 2 4 _ (by norm_num) (by norm_num) (by norm_num)
  have hr : List.range (2 + 1) = [0, 1, 2] := rfl
  have e0 : (29 / 100 : ℚ) + ((0 : ℕ) : ℚ) * ((31 / 100 - 29 / 100) / ((2 : ℕ) : ℚ)) =
      29 / 100 := by
    norm_num
  have e1 : (29 / 100 : ℚ) + ((1 : ℕ) : ℚ) * ((31 / 100 - 29 / 100) / ((2 : ℕ) : ℚ)) =
      3 / 10 := by
    norm_num
  have e2 : (29 / 100 : ℚ) + ((2 : ℕ) : ℚ) * ((31 / 100 - 29 / 100) / ((2 : ℕ) : ℚ)) =
      31 / 100 := by
    norm_num
  rw [hr]
  simp only [List.map_cons, List.map_nil, e0, e1, e2, truncToTick_cent_29, truncToTick_cent_30,
    truncToTick_cent_31]

/-- The pins of `NewGrid(-3/2, 1/2, 1, 1)` are `[-1, 0]`. -/
lemma NewGrid_neg_half :
    NewGrid 3 (-3 / 2) (1 / 2) ((1 : ℕ) : ℚ) 1 =
      some
        { UpperPrice := 1 / 2
          LowerPrice := -3 / 2
          Size := ((1 : ℕ) : ℚ)
          Pins := [-1, 0]
          pinsCache := buildPinCache [-1, 0] } := by
  apply NewGrid_of_pins _ _ _ 1 3 _ (by norm_num) (by norm_num) (by norm_num)
  have hr : List.range (1 + 1) = [0, 1] := rfl
  have e0 : (-3 / 2 : ℚ) + ((0 : ℕ) : ℚ) * ((1 / 2 - -3 / 2) / ((1 : ℕ) : ℚ)) = -3 / 2 := by
    norm_num
  have e1 : (-3 / 2 : ℚ) + ((1 : ℕ) : ℚ) * ((1 / 2 - -3 / 2) / ((1 : ℕ) : ℚ)) = 1 / 2 := by
    norm_num
  rw [hr]
  simp only [List.map_cons, List.map_nil, e0, e1, truncToTick_one_neg_half,
    truncToTick_one_half]

/-- C1, as stated, fails in two ways.  For `lower = -3/2`, `upper = 1/2`, `size = 1`,
`tickSize = 1` the code returns the pins `[-1, 0]`, whereas the floor roundings of
`lower + k*spread` are `[-2, 0]`: `math.Trunc` rounds toward zero.  For `lower = 0.28`,
`upper = 0.30`, `size = 2`, `tickSize = 0.01` the code returns `[0.28, 0.28, 0.30]`, whereas
the floor roundings are `[0.28, 0.29, 0.30]`: the quotient `0.29 / 0.01` is taken in
`float64`, where it is `28.999999999999996`. -/
theorem C1_counterexample :
    (((-3 / 2 : ℚ) < 1 / 2 ∧ 0 < (1 : ℕ) ∧ (0 : ℚ) < 1) ∧
      (NewGrid 3 (-3 / 2) (1 / 2) ((1 : ℕ) : ℚ) 1).map Grid.Pins = some [-1, 0] ∧
      (List.range (1 + 1)).map
        (fun (k : ℕ) => floorToTick 1 (-3 / 2 + (k : ℚ) * ((1 / 2 - -3 / 2) / ((1 : ℕ) : ℚ)))) =
          [-2, 0] ∧
      ¬ ((NewGrid 3 (-3 / 2) (1 / 2) ((1 : ℕ) : ℚ) 1).map Grid.Pins =
          some ((List.range (1 + 1)).map
            (fun (k : ℕ) =>
              floorToTick 1 (-3 / 2 + (k : ℚ) * ((1 / 2 - -3 / 2) / ((1 : ℕ) : ℚ))))))) ∧
    (((7 / 25 : ℚ) < 3 / 10 ∧ 0 < (2 : ℕ) ∧ (0 : ℚ) < 1 / 100) ∧
      (NewGrid 4 (7 / 25) (3 / 10) ((2 : ℕ) : ℚ) (1 / 100)).map Grid.Pins =
        some [7 / 25, 7 / 25, 3 / 10] ∧
      (List.range (2 + 1)).map
        (fun (k : ℕ) =>
          floorToTick (1 / 100) (7 / 25 + (k : ℚ) * ((3 / 10 - 7 / 25) / ((2 : ℕ) : ℚ)))) =
          [7 / 25, 29 / 100, 3 / 10] ∧
      ¬ ((NewGrid 4 (7 / 25) (3 / 10) ((2 : ℕ) : ℚ) (1 / 100)).map Grid.Pins =
          some ((List.range (2 + 1)).map
            (fun (k : ℕ) =>
              floorToTick (1 / 100)
                (7 / 25 + (k : ℚ) * ((3 / 10 - 7 / 25) / ((2 : ℕ) : ℚ))))))) := by
  have h1 : (NewGrid 3 (-3 / 2) (1 / 2) ((1 : ℕ) : ℚ) 1).map Grid.Pins = some [-1, 0] := by
    rw [NewGrid_neg_half]
    rfl
  have h2 : (List.range (1 + 1)).map
      (fun (k : ℕ) => floorToTick 1 (-3 / 2 + (k : ℚ) * ((1 / 2 - -3 / 2) / ((1 : ℕ) : ℚ)))) =
        [-2, 0] := by
    norm_num [List.range_succ, floorToTick]
  have h3 : (NewGrid 4 (7 / 25) (3 / 10) ((2 : ℕ) : ℚ) (1 / 100)).map Grid.Pins =
      some [7 / 25, 7 / 25, 3 / 10] := by
    rw [NewGrid_cent_28]
    rfl
  have h4 : (List.range (2 + 1)).map
      (fun (k : ℕ) =>
        floorToTick (1 / 100) (7 / 25 + (k : ℚ) * ((3 / 10 - 7 / 25) / ((2 : ℕ) : ℚ)))) =
        [7 / 25, 29 / 100, 3 / 10] := by
    have hr : List.range (2 + 1) = [0, 1, 2] := rfl
    have f0 : floorToTick (1 / 100)
        (7 / 25 + ((0 : ℕ) : ℚ) * ((3 / 10 - 7 / 25) / ((2 : ℕ) : ℚ))) = 7 / 25 := by
      have := floorToTick_of_multiple (by norm_num : (0 : ℚ) < 1 / 100) 28
      norm_num at this ⊢
      exact this
    have f1 : floorToTick (1 / 100)
        (7 / 25 + ((1 : ℕ) : ℚ) * ((3 / 10 - 7 / 25) / ((2 : ℕ) : ℚ))) = 29 / 100 := by
      have := floorToTick_of_multiple (by norm_num : (0 : ℚ) < 1 / 100) 29
      norm_num at this ⊢
      exact this
    have f2 : floorToTick (1 / 100)
        (7 / 25 + ((2 : ℕ) : ℚ) * ((3 / 10 - 7 / 25) / ((2 : ℕ) : ℚ))) = 3 / 10 := by
      have := floorToTick_of_multiple (by norm_num : (0 : ℚ) < 1 / 100) 30
      norm_num at this ⊢
      exact this
    rw [hr]
    simp only [List.map_cons, List.map_nil, f0, f1, f2]
  refine ⟨⟨⟨by norm_num, by norm_num, by norm_num⟩, h1, h2, ?_⟩,
    ⟨by norm_num, by norm_num, by norm_num⟩, h3, h4, ?_⟩
  · rw [h1, h2]
    norm_num
  · rw [h3, h4]
    norm_num

/-- C1, amended: for every `lower < upper`, positive integer `size` and `tickSize > 0`,
`NewGrid` terminates (any fuel of at least `size + 2` loop tests suffices) and returns the
`size + 1` pins `truncToTick (lower + k*spread)` for `k = 0..size` in that order, where
`spread = (upper-lower)/size`, and `Spread()` is `spread`.  Where the `float64` steps of the
truncation are exact at every price `lower + k*spread`, every pin is the truncation toward
zero `trunc((lower + k*spread)/tickSize) * tickSize`, an exact multiple of `tickSize`, and
whenever moreover `0 ≤ lower` every pin is the floor rounding
`floorToTick (lower + k*spread)`. -/
theorem C1_NewGrid_pins (lower upper tickSize : ℚ) (n fuel : Nat)
    (hlu : lower < upper) (hn : 0 < n) (ht : 0 < tickSize) (hf : n + 2 ≤ fuel) :
    ∃ g, NewGrid fuel lower upper (n : ℚ) tickSize = some g ∧
      g.Pins = (List.range (n + 1)).map
        (fun (k : ℕ) => truncToTick tickSize (lower + (k : ℚ) * ((upper - lower) / (n : ℚ)))) ∧
      g.Pins.length = n + 1 ∧
      g.Spread = (upper - lower) / (n : ℚ) ∧
      ((∀ k : ℕ, k ≤ n →
          truncToTick tickSize (lower + (k : ℚ) * ((upper - lower) / (n : ℚ))) =
            truncToTickExact tickSize (lower + (k : ℚ) * ((upper - lower) / (n : ℚ)))) →
        g.Pins = (List.range (n + 1)).map
          (fun (k : ℕ) =>
            truncToTickExact tickSize (lower + (k : ℚ) * ((upper - lower) / (n : ℚ)))) ∧
        (∀ p ∈ g.Pins, ∃ z : ℤ, p = (z : ℚ) * tickSize) ∧
        (0 ≤ lower → g.Pins = (List.range (n + 1)).map
          (fun (k : ℕ) =>
            floorToTick tickSize (lower + (k : ℚ) * ((upper - lower) / (n : ℚ)))))) := by
  refine ⟨_, NewGrid_eq lower upper tickSize n fuel hlu hn hf, rfl, by simp, rfl, ?_⟩
  intro hexact
  have hpins := pins_eq_exact lower ((upper - lower) / (n : ℚ)) tickSize n hexact
  refine ⟨hpins, ?_, ?_⟩
  · intro p hp
    have hp' : p ∈ (List.range (n + 1)).map
        (fun (k : ℕ) =>
          truncToTickExact tickSize (lower + (k : ℚ) * ((upper - lower) / (n : ℚ)))) := by
      rw [← hpins]
      exact hp
    simp only [List.mem_map] at hp'
    obtain ⟨k, -, rfl⟩ := hp'
    exact ⟨_, rfl⟩
  · intro h0
    show (List.range (n + 1)).map _ = _
    rw [hpins]
    apply List.map_congr_left
    intro k _
    apply truncToTickExact_of_nonneg ht
    have hs : 0 ≤ (upper - lower) / (n : ℚ) :=
      div_nonneg (sub_nonneg.mpr hlu.le) (Nat.cast_nonneg n)
    have hk : (0 : ℚ) ≤ (k : ℚ) := Nat.cast_nonneg k
    nlinarith [mul_nonneg hk hs]

/-- Witness of C1: `NewGrid(90, 110, 4, 1)` has the pins `[90, 95, 100, 105, 110]` and
`Spread() = 5`; the `float64` steps are exact at the prices `90, 95, ..., 110`, and the pins
are multiples of the tick and the floor roundings. -/
theorem C1_NewGrid_pins_witness :
    ∃ g, NewGrid 6 90 110 ((4 : ℕ) : ℚ) 1 = some g ∧
      g.Pins = [90, 95, 100, 105, 110] ∧ g.Spread = 5 ∧
      (∀ p ∈ g.Pins, ∃ z : ℤ, p = (z : ℚ) * 1) ∧
      g.Pins = (List.range (4 + 1)).map
        (fun (k : ℕ) => floorToTick 1 (90 + (k : ℚ) * ((110 - 90) / ((4 : ℕ) : ℚ)))) := by
  obtain ⟨g, hg, hp, -, hs, hex⟩ :=
    C1_NewGrid_pins 90 110 1 4 6 (by norm_num) (by norm_num) (by norm_num) (by norm_num)
  obtain ⟨-, hm, hfl⟩ := hex (fun k hk => by
    rw [(truncToTick_gridExample k hk).1, (truncToTick_gridExample k hk).2])
  refine ⟨g, hg, ?_, ?_, hm, hfl (by norm_num)⟩
  · rw [hp]
    have hr : List.range (4 + 1) = [0, 1, 2, 3, 4] := rfl
    rw [hr]
    simp only [List.map_cons, List.map_nil]
    rw [(truncToTick_gridExample 0 (by norm_num)).1, (truncToTick_gridExample 1 (by norm_num)).1,
      (truncToTick_gridExample 2 (by norm_num)).1, (truncToTick_gridExample 3 (by norm_num)).1,
      (truncToTick_gridExample 4 (by norm_num)).1]
    norm_num
  · rw [hs]
    norm_num

/-! ## C2, C3: order and bounds of the pins of `NewGrid` -/

/-- The pins of `NewGrid(1, 2, 2, 1)` are `[1, 1, 2]`. -/
lemma NewGrid_half_step :
    NewGrid 4 1 2 ((2 : ℕ) : ℚ) 1 =
      some
        { UpperPrice := 2
          LowerPrice := 1
          Size := ((2 : ℕ) : ℚ)
          Pins := [1, 1, 2]
          pinsCache := buildPinCache [1, 1, 2] } := by
  apply NewGrid_of_pins _ _ _ 2 4 _ (by norm_num) (by norm_num) (by norm_num)
  have hr : List.range (2 + 1) = [0, 1, 2] := rfl
  have e0 : (1 : ℚ) + ((0 : ℕ) : ℚ) * ((2 - 1) / ((2 : ℕ) : ℚ)) = ((1 : ℤ) : ℚ) := by norm_num
  have e1 : (1 : ℚ) + ((1 : ℕ) : ℚ) * ((2 - 1) / ((2 : ℕ) : ℚ)) = 3 / 2 := by norm_num
  have e2 : (1 : ℚ) + ((2 : ℕ) : ℚ) * ((2 - 1) / ((2 : ℕ) : ℚ)) = ((2 : ℤ) : ℚ) := by norm_num
  rw [hr]
  simp only [List.map_cons, List.map_nil, e0, e1, e2, truncToTick_one_three_halves,
    (truncToTick_one_int 1 (by norm_num)).1, (truncToTick_one_int 2 (by norm_num)).1]
  norm_num

/-- The pins of `NewGrid(1/2, 3/2, 1, 1)` are `[0, 1]`. -/
lemma NewGrid_off_tick :
    NewGrid 3 (1 / 2) (3 / 2) ((1 : ℕ) : ℚ) 1 =
      some
        { UpperPrice := 3 / 2
          LowerPrice := 1 / 2
          Size := ((1 : ℕ) : ℚ)
          Pins := [0, 1]
          pinsCache := buildPinCache [0, 1] } := by
  apply NewGrid_of_pins _ _ _ 1 3 _ (by norm_num) (by norm_num) (by norm_num)
  have hr : List.range (1 + 1) = [0, 1] := rfl
  have e0 : (1 / 2 : ℚ) + ((0 : ℕ) : ℚ) * ((3 / 2 - 1 / 2) / ((1 : ℕ) : ℚ)) = 1 / 2 := by
    norm_num
  have e1 : (1 / 2 : ℚ) + ((1 : ℕ) : ℚ) * ((3 / 2 - 1 / 2) / ((1 : ℕ) : ℚ)) = 3 / 2 := by
    norm_num
  rw [hr]
  simp only [List.map_cons, List.map_nil, e0, e1, truncToTick_one_half,
    truncToTick_one_three_halves]

/-- C2, as stated, fails in two ways.  For `lower = 1`, `upper = 2`, `size = 2`,
`tickSize = 1` the spread `1/2` is below the tick and the code returns the pins `[1, 1, 2]`,
which repeat the pin `1`.  For `lower = 0.28`, `upper = 0.30`, `size = 2`, `tickSize = 0.01`
the spread is one tick, and the code returns `[0.28, 0.28, 0.30]`: in `float64` the price
`0.29` truncates to `0.28`. -/
theorem C2_counterexample :
    (((1 : ℚ) < 2 ∧ 0 < (2 : ℕ) ∧ (0 : ℚ) < 1) ∧
      ∃ g, NewGrid 4 1 2 ((2 : ℕ) : ℚ) 1 = some g ∧ g.Pins = [1, 1, 2] ∧
        ¬ g.Pins.Pairwise (fun a b => a < b)) ∧
    (((7 / 25 : ℚ) < 3 / 10 ∧ 0 < (2 : ℕ) ∧ (0 : ℚ) < 1 / 100 ∧ (0 : ℚ) ≤ 7 / 25 ∧
        (1 / 100 : ℚ) ≤ (3 / 10 - 7 / 25) / ((2 : ℕ) : ℚ)) ∧
      ∃ g, NewGrid 4 (7 / 25) (3 / 10) ((2 : ℕ) : ℚ) (1 / 100) = some g ∧
        g.Pins = [7 / 25, 7 / 25, 3 / 10] ∧ ¬ g.Pins.Pairwise (fun a b => a < b)) := by
  refine ⟨⟨⟨by norm_num, by norm_num, by norm_num⟩, _, NewGrid_half_step, rfl, by simp⟩,
    ⟨by norm_num, by norm_num, by norm_num, by norm_num, by norm_num⟩,
    _, NewGrid_cent_28, rfl, by simp⟩

/-- C2, amended: for all valid inputs (`lower < upper`, `size > 0`, `tickSize > 0`) for which
the `float64` steps of the truncation are exact at every price `lower + k*spread`, the pin
sequence returned by `NewGrid` is non-decreasing (`Pins[i] ≤ Pins[j]` for `i < j`), and it
is strictly ascending whenever moreover `0 ≤ lower` and the spread `(upper-lower)/size` is
at least one tick. -/
theorem C2_NewGrid_ascending (lower upper tickSize : ℚ) (n fuel : Nat)
    (hlu : lower < upper) (hn : 0 < n) (ht : 0 < tickSize) (hf : n + 2 ≤ fuel)
    (hexact : ∀ k : ℕ, k ≤ n →
      truncToTick tickSize (lower + (k : ℚ) * ((upper - lower) / (n : ℚ))) =
        truncToTickExact tickSize (lower + (k : ℚ) * ((upper - lower) / (n : ℚ)))) :
    ∃ g, NewGrid fuel lower upper (n : ℚ) tickSize = some g ∧
      g.Pins.Pairwise (fun a b => a ≤ b) ∧
      (0 ≤ lower → tickSize ≤ (upper - lower) / (n : ℚ) →
        g.Pins.Pairwise (fun a b => a < b)) := by
  have hs : 0 ≤ (upper - lower) / (n : ℚ) :=
    div_nonneg (sub_nonneg.mpr hlu.le) (Nat.cast_nonneg n)
  have hpins := pins_eq_exact lower ((upper - lower) / (n : ℚ)) tickSize n hexact
  refine ⟨_, NewGrid_of_pins lower upper tickSize n fuel _ hlu hn hf hpins, ?_, ?_⟩
  · refine List.Pairwise.map _ ?_ (List.pairwise_lt_range (n + 1))
    intro a b hab
    apply truncToTickExact_mono ht
    have : (a : ℚ) ≤ (b : ℚ) := by exact_mod_cast hab.le
    nlinarith [mul_le_mul_of_nonneg_right this hs]
  · intro h0 hts
    refine List.Pairwise.map _ ?_ (List.pairwise_lt_range (n + 1))
    intro a b hab
    have ha : (0 : ℚ) ≤ (a : ℚ) := Nat.cast_nonneg a
    have hb : (0 : ℚ) ≤ (b : ℚ) := Nat.cast_nonneg b
    have hab' : (a : ℚ) + 1 ≤ (b : ℚ) := by exact_mod_cast hab
    rw [truncToTickExact_of_nonneg ht (by nlinarith [mul_nonneg ha hs]),
      truncToTickExact_of_nonneg ht (by nlinarith [mul_nonneg hb hs])]
    apply floorToTick_lt_of_tick_le ht
    nlinarith [mul_le_mul_of_nonneg_right hab' hs]

/-- Witness of C2: `NewGrid(90, 110, 4, 1)`, where the `float64` steps are exact, is
strictly ascending. -/
theorem C2_NewGrid_ascending_witness :
    (∀ k : ℕ, k ≤ 4 →
      truncToTick 1 (90 + (k : ℚ) * ((110 - 90) / ((4 : ℕ) : ℚ))) =
        truncToTickExact 1 (90 + (k : ℚ) * ((110 - 90) / ((4 : ℕ) : ℚ)))) ∧
    ∃ g, NewGrid 6 90 110 ((4 : ℕ) : ℚ) 1 = some g ∧
      g.Pins.Pairwise (fun a b => a ≤ b) ∧ g.Pins.Pairwise (fun a b => a < b) := by
  have hex : ∀ k : ℕ, k ≤ 4 →
      truncToTick 1 (90 + (k : ℚ) * ((110 - 90) / ((4 : ℕ) : ℚ))) =
        truncToTickExact 1 (90 + (k : ℚ) * ((110 - 90) / ((4 : ℕ) : ℚ))) := fun k hk => by
    rw [(truncToTick_gridExample k hk).1, (truncToTick_gridExample k hk).2]
  obtain ⟨g, hg, h1, h2⟩ :=
    C2_NewGrid_ascending 90 110 1 4 6 (by norm_num) (by norm_num) (by norm_num) (by norm_num)
      hex
  exact ⟨hex, g, hg, h1, h2 (by norm_num) (by norm_num)⟩

/-- C3, as stated, fails in two ways.  For `lower = 1/2`, `upper = 3/2`, `size = 1`,
`tickSize = 1` the code returns the pins `[0, 1]`; the first pin `0` is below `lower`, hence
not in `[lower, lower + spread)`.  For `lower = 0.29`, `upper = 0.31`, `size = 2`,
`tickSize = 0.01` the bound `lower` is a multiple of the tick, yet the code returns
`[0.28, 0.30, 0.31]`: in `float64` the quotient `0.29 / 0.01` is `28.999999999999996`, and
the first pin `0.28` is one tick below `lower`. -/
theorem C3_counterexample :
    (((1 / 2 : ℚ) < 3 / 2 ∧ 0 < (1 : ℕ) ∧ (0 : ℚ) < 1) ∧
      ∃ g, NewGrid 3 (1 / 2) (3 / 2) ((1 : ℕ) : ℚ) 1 = some g ∧ g.Pins.head? = some 0 ∧
        ¬ ((1 / 2 : ℚ) ≤ 0 ∧ (0 : ℚ) < 1 / 2 + (3 / 2 - 1 / 2) / ((1 : ℕ) : ℚ))) ∧
    (((29 / 100 : ℚ) < 31 / 100 ∧ 0 < (2 : ℕ) ∧ (0 : ℚ) < 1 / 100 ∧
        (29 / 100 : ℚ) = ((29 : ℤ) : ℚ) * (1 / 100)) ∧
      ∃ g, NewGrid 4 (29 / 100) (31 / 100) ((2 : ℕ) : ℚ) (1 / 100) = some g ∧
        g.Pins = [7 / 25, 3 / 10, 31 / 100] ∧ g.Pins.head? = some (7 / 25) ∧
        ¬ ((29 / 100 : ℚ) ≤ 7 / 25 ∧
          (7 / 25 : ℚ) < 29 / 100 + (31 / 100 - 29 / 100) / ((2 : ℕ) : ℚ)) ∧
        ¬ ((29 / 100 : ℚ) - 1 / 100 < 7 / 25)) := by
  refine ⟨⟨⟨by norm_num, by norm_num, by norm_num⟩, _, NewGrid_off_tick, rfl, by norm_num⟩,
    ⟨by norm_num, by norm_num, by norm_num, by norm_num⟩,
    _, NewGrid_cent_29, rfl, rfl, by norm_num, by norm_num⟩

/-- C3, amended: for all valid inputs (`lower < upper`, `size > 0`, `tickSize > 0`) with
`0 ≤ lower` for which the `float64` steps of the truncation are exact at the prices `lower`
and `upper`, the first pin of `NewGrid` is the floor rounding of `lower`, so it lies in
`(lower - tickSize, lower]`; it lies in `[lower, lower + spread)` (and is `lower` itself)
when `lower` is a multiple of `tickSize`; and the last pin is `≤ upper`. -/
theorem C3_NewGrid_bounds (lower upper tickSize : ℚ) (n fuel : Nat)
    (hlu : lower < upper) (hn : 0 < n) (ht : 0 < tickSize) (hf : n + 2 ≤ fuel)
    (h0 : 0 ≤ lower)
    (hexactLower : truncToTick tickSize lower = truncToTickExact tickSize lower)
    (hexactUpper : truncToTick tickSize upper = truncToTickExact tickSize upper) :
    ∃ g first last, NewGrid fuel lower upper (n : ℚ) tickSize = some g ∧
      g.Pins.head? = some first ∧ g.Pins.getLast? = some last ∧
      lower - tickSize < first ∧ first ≤ lower ∧ last ≤ upper ∧
      ((∃ z : ℤ, lower = (z : ℚ) * tickSize) →
        first = lower ∧ lower ≤ first ∧ first < lower + (upper - lower) / (n : ℚ)) := by
  have hn' : (0 : ℚ) < (n : ℚ) := by exact_mod_cast hn
  have hs : 0 < (upper - lower) / (n : ℚ) := div_pos (sub_pos.mpr hlu) hn'
  have hfirst : truncToTick tickSize (lower + ((0 : ℕ) : ℚ) * ((upper - lower) / (n : ℚ))) =
      floorToTick tickSize lower := by
    rw [Nat.cast_zero, zero_mul, add_zero, hexactLower, truncToTickExact_of_nonneg ht h0]
  have hlast : truncToTick tickSize (lower + (n : ℚ) * ((upper - lower) / (n : ℚ))) =
      floorToTick tickSize upper := by
    have : lower + (n : ℚ) * ((upper - lower) / (n : ℚ)) = upper := by field_simp
    rw [this, hexactUpper, truncToTickExact_of_nonneg ht (h0.trans hlu.le)]
  refine ⟨_, floorToTick tickSize lower, floorToTick tickSize upper,
    NewGrid_eq lower upper tickSize n fuel hlu hn hf, ?_, ?_, ?_, ?_, ?_, ?_⟩
  · show ((List.range (n + 1)).map _).head? = _
    rw [List.range_succ_eq_map, List.map_cons, List.head?_cons, hfirst]
  · show ((List.range (n + 1)).map _).getLast? = _
    rw [List.range_succ, List.map_append, List.map_singleton, List.getLast?_append,
      List.getLast?_singleton, hlast]
    rfl
  · linarith [lt_floorToTick_add ht lower]
  · exact floorToTick_le ht lower
  · exact floorToTick_le ht upper
  · rintro ⟨z, hz⟩
    have : floorToTick tickSize lower = lower := by
      rw [hz, floorToTick_of_multiple ht]
    rw [this]
    exact ⟨rfl, le_refl _, by linarith⟩

/-- Witness of C3: `NewGrid(90, 110, 4, 1)`, where the `float64` steps are exact at `90` and
at `110`, starts at `90` and ends at `110`. -/
theorem C3_NewGrid_bounds_witness :
    (truncToTick 1 90 = truncToTickExact 1 90 ∧ truncToTick 1 110 = truncToTickExact 1 110) ∧
    ∃ g first last, NewGrid 6 90 110 ((4 : ℕ) : ℚ) 1 = some g ∧
      g.Pins.head? = some first ∧ g.Pins.getLast? = some last ∧
      first = 90 ∧ last ≤ 110 := by
  have h90 : truncToTick 1 90 = truncToTickExact 1 90 := by
    have h := truncToTick_one_int 90 (by norm_num)
    norm_num at h
    rw [h.1, h.2]
  have h110 : truncToTick 1 110 = truncToTickExact 1 110 := by
    have h := truncToTick_one_int 110 (by norm_num)
    norm_num at h
    rw [h.1, h.2]
  obtain ⟨g, first, last, hg, hf, hl, -, -, hu, hm⟩ :=
    C3_NewGrid_bounds 90 110 1 4 6 (by norm_num) (by norm_num) (by norm_num) (by norm_num)
      (by norm_num) h90 h110
  exact ⟨⟨h90, h110⟩, g, first, last, hg, hf, hl, (hm ⟨90, by norm_num⟩).1, hu⟩

/-! ## C4: extension keeps the existing pins -/

lemma mem_foldl_insert (pins : List ℚ) (cache : Finset ℚ) (p : ℚ) :
    p ∈ pins.foldl (fun cache pin => insert pin cache) cache ↔ p ∈ cache ∨ p ∈ pins := by
  induction pins generalizing cache with
  | nil => simp
  | cons a l ih =>
    rw [List.foldl_cons, ih, Finset.mem_insert, List.mem_cons]
    tauto

lemma mem_buildPinCache (pins : List ℚ) (p : ℚ) : p ∈ buildPinCache pins ↔ p ∈ pins := by
  unfold buildPinCache
  rw [mem_foldl_insert]
  simp

lemma HasPin_updatePinsCache (g : Grid) (p : ℚ) :
    g.updatePinsCache.HasPin p = true ↔ p ∈ g.updatePinsCache.Pins := by
  simp [Grid.HasPin, Grid.updatePinsCache, mem_buildPinCache]

/-- The loop of `ExtendUpperPrice` stops within `m + 1` loop tests when `m` steps lead above
the upper price. -/
lemma extendUpperLoop_terminates (upper spread : ℚ) :
    ∀ (m : Nat) (p : ℚ) (acc : List ℚ), upper < p + (m : ℚ) * spread →
      ∃ r, extendUpperLoop upper spread (m + 1) p acc = some r := by
  intro m
  induction m with
  | zero =>
    intro p acc h
    have : ¬ p ≤ upper := by simpa using h
    exact ⟨acc, by rw [extendUpperLoop, if_neg this]⟩
  | succ m ih =>
    intro p acc h
    by_cases hp : p ≤ upper
    · have h' : upper < p + spread + (m : ℚ) * spread := by
        push_cast at h; linarith
      obtain ⟨r, hr⟩ := ih (p + spread) (acc ++ [p]) h'
      exact ⟨r, by rw [extendUpperLoop, if_pos hp, hr]⟩
    · exact ⟨acc, by rw [extendUpperLoop, if_neg hp]⟩

/-- The loop of `ExtendLowerPrice` stops within `m + 1` loop tests when `m` steps reach the
first pin. -/
lemma extendLowerLoop_terminates (first spread : ℚ) :
    ∀ (m : Nat) (p : ℚ) (acc : List ℚ), first ≤ p + (m : ℚ) * spread →
      ∃ r, extendLowerLoop first spread (m + 1) p acc = some r := by
  intro m
  induction m with
  | zero =>
    intro p acc h
    have : ¬ p < first := by simpa using h
    exact ⟨acc, by rw [extendLowerLoop, if_neg this]⟩
  | succ m ih =>
    intro p acc h
    by_cases hp : p < first
    · have h' : first ≤ p + spread + (m : ℚ) * spread := by
        push_cast at h; linarith
      obtain ⟨r, hr⟩ := ih (p + spread) (acc ++ [p]) h'
      exact ⟨r, by rw [extendLowerLoop, if_pos hp, hr]⟩
    · exact ⟨acc, by rw [extendLowerLoop, if_neg hp]⟩

lemma exists_nat_steps (a p spread : ℚ) (hs : 0 < spread) :
    ∃ m : Nat, a < p + (m : ℚ) * spread := by
  obtain ⟨m, hm⟩ := exists_nat_gt ((a - p) / spread)
  refine ⟨m, ?_⟩
  have := (div_lt_iff₀ hs).mp hm
  linarith

lemma ExtendUpperPrice_frame (g : Grid) (upper : ℚ) (fuel : Nat) (g' : Grid) (r : List ℚ)
    (h : g.ExtendUpperPrice fuel upper = some (g', r)) :
    g'.Pins = g.Pins ++ r ∧ ∀ p, g'.HasPin p = true ↔ p ∈ g'.Pins := by
  unfold Grid.ExtendUpperPrice at h
  simp only at h
  cases hl : g.Pins.getLast? with
  | none => rw [hl] at h; simp at h
  | some last =>
    rw [hl] at h
    simp only [Option.map_eq_some'] at h
    obtain ⟨newPins, -, heq⟩ := h
    simp only [Prod.mk.injEq] at heq
    obtain ⟨hg, hr⟩ := heq
    subst hr
    subst hg
    exact ⟨rfl, fun p => HasPin_updatePinsCache _ p⟩

lemma ExtendLowerPrice_frame (g : Grid) (lower : ℚ) (fuel : Nat) (g' : Grid) (r : List ℚ)
    (hc : ∀ p, g.HasPin p = true ↔ p ∈ g.Pins)
    (h : g.ExtendLowerPrice fuel lower = some (g', r)) :
    g'.Pins = r ++ g.Pins ∧ ∀ p, g'.HasPin p = true ↔ p ∈ g'.Pins := by
  unfold Grid.ExtendLowerPrice at h
  simp only at h
  cases hl : g.Pins.head? with
  | none => rw [hl] at h; simp at h
  | some first =>
    rw [hl] at h
    simp only at h
    split_ifs at h with hn
    · simp only [Option.some.injEq, Prod.mk.injEq] at h
      obtain ⟨hg, hr⟩ := h
      subst hr
      subst hg
      exact ⟨rfl, hc⟩
    · simp only [Option.map_eq_some'] at h
      obtain ⟨newPins, -, heq⟩ := h
      simp only [Prod.mk.injEq] at heq
      obtain ⟨hg, hr⟩ := heq
      subst hr
      subst hg
      exact ⟨rfl, fun p => HasPin_updatePinsCache _ p⟩

lemma ExtendUpperPrice_returns (g : Grid) (upper : ℚ) (hne : g.Pins ≠ [])
    (hs : 0 < (upper - g.LowerPrice) / g.Size) :
    ∃ fuel res, g.ExtendUpperPrice fuel upper = some res := by
  obtain ⟨last, hl⟩ : ∃ last, g.Pins.getLast? = some last := by
    cases hl : g.Pins.getLast? with
    | none => exact absurd (List.getLast?_eq_none_iff.mp hl) hne
    | some last => exact ⟨last, rfl⟩
  obtain ⟨m, hm⟩ := exists_nat_steps upper (last + (upper - g.LowerPrice) / g.Size) _ hs
  obtain ⟨r, hr⟩ := extendUpperLoop_terminates upper _ m _ [] hm
  refine ⟨m + 1, ?_⟩
  unfold Grid.ExtendUpperPrice
  simp only [Grid.Spread, Grid.Height, hl, hr, Option.map_some']
  exact ⟨_, rfl⟩

lemma ExtendLowerPrice_returns (g : Grid) (lower : ℚ) (hne : g.Pins ≠ [])
    (hs : 0 < g.Spread) :
    ∃ fuel res, g.ExtendLowerPrice fuel lower = some res := by
  obtain ⟨first, hl⟩ : ∃ first, g.Pins.head? = some first := by
    cases hl : g.Pins.head? with
    | none => exact absurd (List.head?_eq_none_iff.mp hl) hne
    | some first => exact ⟨first, rfl⟩
  by_cases hn : ((⌊(first - lower) / g.Spread⌋ : ℤ) : ℚ) = 0
  · refine ⟨0, ?_⟩
    unfold Grid.ExtendLowerPrice
    simp only [hl, hn, if_true]
    exact ⟨_, rfl⟩
  · obtain ⟨m, hm⟩ := exists_nat_steps first
      (first - g.Spread * ((⌊(first - lower) / g.Spread⌋ : ℤ) : ℚ)) _ hs
    obtain ⟨r, hr⟩ := extendLowerLoop_terminates first _ m _ [] hm.le
    refine ⟨m + 1, ?_⟩
    unfold Grid.ExtendLowerPrice
    simp only [hl, hn, if_false, hr, Option.map_some']
    exact ⟨_, rfl⟩

/-- C4: `ExtendUpperPrice` and `ExtendLowerPrice` never change an existing pin.  For every
non-empty grid whose pin cache holds exactly its pins (as `NewGrid` builds it) and every new
bound: whenever `ExtendUpperPrice` returns pins `r`, the pins afterwards are the pins before
followed by `r`; whenever `ExtendLowerPrice` returns `r`, the pins afterwards are `r`
followed by the pins before; in both cases `HasPin(p)` holds afterwards exactly for the
members `p` of the resulting pin sequence.  Both calls do return when the spread they step
by is positive. -/
theorem C4_extend_keeps_pins (g : Grid) (bound : ℚ) (hne : g.Pins ≠ [])
    (hc : ∀ p, g.HasPin p = true ↔ p ∈ g.Pins) :
    (∀ fuel g' r, g.ExtendUpperPrice fuel bound = some (g', r) →
      g'.Pins = g.Pins ++ r ∧ ∀ p, g'.HasPin p = true ↔ p ∈ g'.Pins) ∧
    (∀ fuel g' r, g.ExtendLowerPrice fuel bound = some (g', r) →
      g'.Pins = r ++ g.Pins ∧ ∀ p, g'.HasPin p = true ↔ p ∈ g'.Pins) ∧
    (0 < (bound - g.LowerPrice) / g.Size →
      ∃ fuel res, g.ExtendUpperPrice fuel bound = some res) ∧
    (0 < g.Spread → ∃ fuel res, g.ExtendLowerPrice fuel bound = some res) :=
  ⟨fun fuel g' r h => ExtendUpperPrice_frame g bound fuel g' r h,
   fun fuel g' r h => ExtendLowerPrice_frame g bound fuel g' r hc h,
   fun hs => ExtendUpperPrice_returns g bound hne hs,
   fun hs => ExtendLowerPrice_returns g bound hne hs⟩


lemma NewGrid_gridExample : NewGrid 6 90 110 ((4 : ℕ) : ℚ) 1 = some gridExample := by
  rw [NewGrid_eq 90 110 1 4 6 (by norm_num) (by norm_num) (by norm_num)]
  have : (List.range (4 + 1)).map
      (fun (j : ℕ) => truncToTick 1 (90 + (j : ℚ) * ((110 - 90) / ((4 : ℕ) : ℚ)))) =
      [90, 95, 100, 105, 110] := by
    have hr : List.range (4 + 1) = [0, 1, 2, 3, 4] := rfl
    rw [hr]
    simp only [List.map_cons, List.map_nil]
    rw [(truncToTick_gridExample 0 (by norm_num)).1, (truncToTick_gridExample 1 (by norm_num)).1,
      (truncToTick_gridExample 2 (by norm_num)).1, (truncToTick_gridExample 3 (by norm_num)).1,
      (truncToTick_gridExample 4 (by norm_num)).1]
    norm_num
  rw [this]
  rfl

/-- Witness of C4 on the grid of `NewGrid(90, 110, 4, 1)` and the bound `120`. -/
theorem C4_extend_keeps_pins_witness :
    gridExample.Pins ≠ [] ∧ (∀ p, gridExample.HasPin p = true ↔ p ∈ gridExample.Pins) ∧
    ((∀ fuel g' r, gridExample.ExtendUpperPrice fuel 120 = some (g', r) →
      g'.Pins = gridExample.Pins ++ r ∧ ∀ p, g'.HasPin p = true ↔ p ∈ g'.Pins) ∧
    (∀ fuel g' r, gridExample.ExtendLowerPrice fuel 120 = some (g', r) →
      g'.Pins = r ++ gridExample.Pins ∧ ∀ p, g'.HasPin p = true ↔ p ∈ g'.Pins) ∧
    (0 < (120 - gridExample.LowerPrice) / gridExample.Size →
      ∃ fuel res, gridExample.ExtendUpperPrice fuel 120 = some res) ∧
    (0 < gridExample.Spread → ∃ fuel res, gridExample.ExtendLowerPrice fuel 120 = some res)) :=
  have hne : gridExample.Pins ≠ [] := by simp [gridExample]
  have hc : ∀ p, gridExample.HasPin p = true ↔ p ∈ gridExample.Pins := fun p => by
    simp [Grid.HasPin, gridExample, mem_buildPinCache]
  ⟨hne, hc, C4_extend_keeps_pins gridExample 120 hne hc⟩

/-! ## C5: `ExtendUpperPrice` steps by the spread of the new height -/

/-- C5 at its witness input: on the grid of `NewGrid(90, 110, 4, 1)`, whose spread is `5`,
`ExtendUpperPrice(120)` returns the single new pin `117.5` and leaves the size at `4`: the
upper price is assigned before `Spread()` is read, so the step is `(120-90)/4 = 7.5`.  The
claim expects the new pins `[115, 120]` and the size `6`. -/
theorem C5_ExtendUpperPrice_at_witness :
    NewGrid 6 90 110 ((4 : ℕ) : ℚ) 1 = some gridExample ∧ gridExample.Spread = 5 ∧
    ∃ g', gridExample.ExtendUpperPrice 3 120 = some (g', [235 / 2]) ∧
      g'.Size = 4 ∧ g'.Pins = [90, 95, 100, 105, 110, 235 / 2] ∧ g'.Spread = 15 / 2 := by
  refine ⟨NewGrid_gridExample, by norm_num [gridExample, Grid.Spread, Grid.Height], ?_⟩
  have h1 : (120 - 90 : ℚ) / ((120 - 90) / 4) = 4 := by norm_num
  have hl : gridExample.Pins.getLast? = some 110 := by simp [gridExample]
  have hloop : extendUpperLoop 120 ((120 - 90) / 4) 3 (110 + (120 - 90) / 4) [] =
      some [235 / 2] := by
    norm_num [extendUpperLoop]
  have hext : gridExample.ExtendUpperPrice 3 120 = some
      ({ UpperPrice := 120, LowerPrice := 90, Size := 4,
         Pins := [90, 95, 100, 105, 110, 235 / 2],
         pinsCache := buildPinCache [90, 95, 100, 105, 110, 235 / 2] }, [235 / 2]) := by
    unfold Grid.ExtendUpperPrice
    simp only [hl]
    simp only [gridExample, Grid.Spread, Grid.Height, hloop, Option.map_some', h1,
      Grid.updatePinsCache]
    norm_num
  exact ⟨_, hext, rfl, rfl, by norm_num [Grid.Spread, Grid.Height]⟩


/-! ## C6: `ExtendLowerPrice` -/

/-- The loop of `ExtendLowerPrice`, started `N` steps below the first pin, collects the `N`
prices below the first pin and stops. -/
lemma extendLowerLoop_eq (first start spread : ℚ) (N : Nat) (hs : 0 < spread)
    (hN : first = start + (N : ℚ) * spread) :
    ∀ (m k fuel : Nat) (acc : List ℚ), k + m = N → m + 1 ≤ fuel →
      extendLowerLoop first spread fuel (start + (k : ℚ) * spread) acc =
        some (acc ++ (List.range' k m).map (fun (j : ℕ) => start + (j : ℚ) * spread)) := by
  intro m
  induction m with
  | zero =>
    intro k fuel acc hk hf
    obtain ⟨f, rfl⟩ : ∃ f, fuel = f + 1 := ⟨fuel - 1, by omega⟩
    have hk' : k = N := by omega
    subst hk'
    have : ¬ (start + (k : ℚ) * spread < first) := by rw [hN]; exact lt_irrefl _
    rw [extendLowerLoop, if_neg this]
    simp
  | succ m ih =>
    intro k fuel acc hk hf
    obtain ⟨f, rfl⟩ : ∃ f, fuel = f + 1 := ⟨fuel - 1, by omega⟩
    have hkn : (k : ℚ) + 1 ≤ (N : ℚ) := by exact_mod_cast (by omega : k + 1 ≤ N)
    have hlt : start + (k : ℚ) * spread < first := by
      rw [hN]; nlinarith
    have hnext : start + (k : ℚ) * spread + spread = start + ((k + 1 : ℕ) : ℚ) * spread := by
      push_cast; ring
    rw [extendLowerLoop, if_pos hlt, hnext, ih (k + 1) f _ (by omega) (by omega)]
    simp [List.range'_succ]

/-- C6, as stated, fails on a grid with a negative spread.  `NewGrid(90, 110, 4, 1)` followed
by `ExtendUpperPrice(80)` is the grid with upper price `80`, lower price `90`, size `4` and
the pins `[90, ..., 110]`; its spread is `-5/2`.  For `ExtendLowerPrice(100)` the number
`n = floor((90 - 100) / (-5/2))` is `4`, not zero, but the call returns no pin at all. -/
theorem C6_counterexample :
    (∃ g0, NewGrid 6 90 110 ((4 : ℕ) : ℚ) 1 = some g0 ∧
      g0.ExtendUpperPrice 2 80 = some (gridExampleInverted, [])) ∧
    gridExampleInverted.Pins.head? = some 90 ∧
    gridExampleInverted.Spread = -5 / 2 ∧
    ⌊((90 : ℚ) - 100) / gridExampleInverted.Spread⌋ = 4 ∧
    ∃ g', gridExampleInverted.ExtendLowerPrice 2 100 = some (g', []) ∧
      g'.Pins = gridExampleInverted.Pins ∧
      ([] : List ℚ) ≠ (List.range 4).map
        (fun (k : ℕ) => 90 - ((4 : ℚ) - (k : ℚ)) * gridExampleInverted.Spread) := by
  have hsp : gridExampleInverted.Spread = -5 / 2 := by
    norm_num [gridExampleInverted, Grid.Spread, Grid.Height]
  have hlast : gridExample.Pins.getLast? = some 110 := by simp [gridExample]
  have h1 : ((80 : ℚ) - 90) / ((80 - 90) / 4) = 4 := by norm_num
  have hup : gridExample.ExtendUpperPrice 2 80 = some (gridExampleInverted, []) := by
    have hloop : extendUpperLoop 80 ((80 - 90) / 4) 2 (110 + (80 - 90) / 4) [] = some [] := by
      norm_num [extendUpperLoop]
    unfold Grid.ExtendUpperPrice
    simp only [hlast]
    simp only [gridExample, Grid.Spread, Grid.Height, hloop, Option.map_some', h1,
      Grid.updatePinsCache, gridExampleInverted]
    norm_num
  have hn : ⌊((90 : ℚ) - 100) / (-5 / 2)⌋ = 4 := by
    have : ((90 : ℚ) - 100) / (-5 / 2) = ((4 : ℤ) : ℚ) := by norm_num
    rw [this, Int.floor_intCast]
  have hdown : gridExampleInverted.ExtendLowerPrice 2 100 = some
      ({ UpperPrice := 80, LowerPrice := 100, Size := 8,
         Pins := [90, 95, 100, 105, 110],
         pinsCache := buildPinCache [90, 95, 100, 105, 110] }, []) := by
    have hhead : gridExampleInverted.Pins.head? = some 90 := by simp [gridExampleInverted]
    have hsize : ⌊((80 : ℚ) - 100) / (-5 / 2)⌋ = 8 := by
      have : ((80 : ℚ) - 100) / (-5 / 2) = ((8 : ℤ) : ℚ) := by norm_num
      rw [this, Int.floor_intCast]
    have hloop : extendLowerLoop 90 (-5 / 2) 2 (90 - -5 / 2 * ((4 : ℤ) : ℚ)) [] = some [] := by
      norm_num [extendLowerLoop]
    unfold Grid.ExtendLowerPrice
    simp only [hhead, hsp]
    simp only [gridExampleInverted, Grid.Height, hn, hsize, hloop]
    norm_num [Grid.updatePinsCache]
  refine ⟨⟨_, NewGrid_gridExample, hup⟩, by simp [gridExampleInverted], hsp, ?_, _, hdown,
    rfl, ?_⟩
  · rw [hsp]; exact hn
  · simp [List.range_succ]


lemma ExtendLowerPrice_eq (g : Grid) (newLower f : ℚ) (n : ℤ) (fuel : Nat)
    (hf : g.Pins.head? = some f) (hs : 0 < g.Spread)
    (hn : n = ⌊(f - newLower) / g.Spread⌋) (hfuel : n.toNat + 1 ≤ fuel) :
    ∃ g', g.ExtendLowerPrice fuel newLower =
        some (g', (List.range n.toNat).map
          (fun (k : ℕ) => f - ((n : ℚ) - (k : ℚ)) * g.Spread)) ∧
      g'.Size = ((⌊(g.UpperPrice - newLower) / g.Spread⌋ : ℤ) : ℚ) ∧
      g'.Pins = (List.range n.toNat).map
          (fun (k : ℕ) => f - ((n : ℚ) - (k : ℚ)) * g.Spread) ++ g.Pins := by
  obtain ⟨fuel', rfl⟩ : ∃ f', fuel = f' + 1 := ⟨fuel - 1, by omega⟩
  unfold Grid.ExtendLowerPrice
  simp only [hf, ← hn, Grid.Height]
  rcases lt_trichotomy n 0 with hneg | hzero | hpos
  · have hne : ¬ ((n : ℚ) = 0) := by exact_mod_cast hneg.ne
    have hnq : (n : ℚ) < 0 := by exact_mod_cast hneg
    have hstart : ¬ (f - g.Spread * (n : ℚ) < f) := by
      have := mul_neg_of_pos_of_neg hs hnq
      linarith
    have htn : n.toNat = 0 := Int.toNat_eq_zero.mpr hneg.le
    rw [if_neg hne, extendLowerLoop, if_neg hstart, htn]
    exact ⟨_, rfl, rfl, rfl⟩
  · subst hzero
    simp only [Int.cast_zero, if_true, Int.toNat_zero, List.range_zero, List.map_nil,
      List.nil_append]
    exact ⟨_, rfl, rfl, rfl⟩
  · have hne : ¬ ((n : ℚ) = 0) := by exact_mod_cast hpos.ne'
    have hcast : ((n.toNat : ℕ) : ℚ) = (n : ℚ) := by
      have := Int.toNat_of_nonneg hpos.le
      exact_mod_cast this
    have hN : f = (f - g.Spread * (n : ℚ)) + ((n.toNat : ℕ) : ℚ) * g.Spread := by
      rw [hcast]; ring
    have hloop := extendLowerLoop_eq f (f - g.Spread * (n : ℚ)) g.Spread n.toNat hs hN
      n.toNat 0 (fuel' + 1) [] (by omega) (by omega)
    simp only [Nat.cast_zero, zero_mul, add_zero, List.nil_append] at hloop
    have hmap : (List.range' 0 n.toNat).map
        (fun (j : ℕ) => f - g.Spread * (n : ℚ) + (j : ℚ) * g.Spread) =
        (List.range n.toNat).map (fun (k : ℕ) => f - ((n : ℚ) - (k : ℚ)) * g.Spread) := by
      rw [← List.range_eq_range']
      apply List.map_congr_left
      intro k _
      ring
    rw [if_neg hne, hloop, hmap]
    exact ⟨_, rfl, rfl, rfl⟩

/-- C6, amended: for every non-empty grid whose spread `s = Spread()` before the call is
positive and every `newLower`, with `f` the first pin and `n = floor((f - newLower)/s)`:
`ExtendLowerPrice(newLower)` returns (any fuel of at least `max(n,0) + 1` loop tests
suffices) and sets the size to `floor((upper - newLower)/s)`; if `n ≤ 0` it returns no pins
and leaves the pin sequence unchanged; otherwise it returns exactly the `n` pins
`f - n*s, f - (n-1)*s, ..., f - s` in ascending order, each `≥ newLower`, and prepends
them. -/
theorem C6_ExtendLowerPrice (g : Grid) (newLower f : ℚ) (n : ℤ) (fuel : Nat)
    (hf : g.Pins.head? = some f) (hs : 0 < g.Spread)
    (hn : n = ⌊(f - newLower) / g.Spread⌋) (hfuel : n.toNat + 1 ≤ fuel) :
    ∃ g' r, g.ExtendLowerPrice fuel newLower = some (g', r) ∧
      g'.Size = ((⌊(g.UpperPrice - newLower) / g.Spread⌋ : ℤ) : ℚ) ∧
      g'.Pins = r ++ g.Pins ∧
      (n ≤ 0 → r = [] ∧ g'.Pins = g.Pins) ∧
      r = (List.range n.toNat).map (fun (k : ℕ) => f - ((n : ℚ) - (k : ℚ)) * g.Spread) ∧
      r.length = n.toNat ∧
      r.Pairwise (fun a b => a < b) ∧
      (∀ p ∈ r, newLower ≤ p ∧ p < f) := by
  obtain ⟨g', hg, hsize, hpins⟩ := ExtendLowerPrice_eq g newLower f n fuel hf hs hn hfuel
  refine ⟨g', _, hg, hsize, hpins, ?_, rfl, by simp, ?_, ?_⟩
  · intro hle
    have htn : n.toNat = 0 := Int.toNat_eq_zero.mpr hle
    rw [hpins, htn]
    simp
  · refine List.Pairwise.map _ ?_ (List.pairwise_lt_range n.toNat)
    intro a b hab
    have : (a : ℚ) < (b : ℚ) := by exact_mod_cast hab
    nlinarith
  · intro p hp
    simp only [List.mem_map, List.mem_range] at hp
    obtain ⟨k, hk, rfl⟩ := hp
    have hnpos : 0 ≤ n := by
      by_contra hneg
      push_neg at hneg
      rw [Int.toNat_eq_zero.mpr hneg.le] at hk
      exact Nat.not_lt_zero k hk
    have hcast : ((n.toNat : ℕ) : ℚ) = (n : ℚ) := by
      have := Int.toNat_of_nonneg hnpos
      exact_mod_cast this
    have hkn : (k : ℚ) + 1 ≤ (n : ℚ) := by
      rw [← hcast]; exact_mod_cast hk
    have hk0 : (0 : ℚ) ≤ (k : ℚ) := Nat.cast_nonneg k
    have hfl : (n : ℚ) ≤ (f - newLower) / g.Spread := by
      rw [hn]; exact Int.floor_le _
    have hfl' : (n : ℚ) * g.Spread ≤ f - newLower := (le_div_iff₀ hs).mp hfl
    constructor
    · nlinarith [mul_nonneg hk0 hs.le]
    · nlinarith

/-- Witness of C6: on the grid of `NewGrid(90, 110, 4, 1)`, whose spread is `5`,
`ExtendLowerPrice(80)` returns the two pins `[80, 85]` and sets the size to `6`. -/
theorem C6_ExtendLowerPrice_witness :
    ∃ g' r, gridExample.ExtendLowerPrice 3 80 = some (g', r) ∧
      g'.Size = 6 ∧ g'.Pins = [80, 85, 90, 95, 100, 105, 110] ∧ r = [80, 85] := by
  have hs : gridExample.Spread = 5 := by norm_num [gridExample, Grid.Spread, Grid.Height]
  have hn : (2 : ℤ) = ⌊((90 : ℚ) - 80) / gridExample.Spread⌋ := by
    have : ((90 : ℚ) - 80) / 5 = ((2 : ℤ) : ℚ) := by norm_num
    rw [hs, this, Int.floor_intCast]
  have hsize : ⌊(gridExample.UpperPrice - 80) / gridExample.Spread⌋ = 6 := by
    have : ((110 : ℚ) - 80) / 5 = ((6 : ℤ) : ℚ) := by norm_num
    rw [hs]
    show ⌊((110 : ℚ) - 80) / 5⌋ = 6
    rw [this, Int.floor_intCast]
  obtain ⟨g', r, hg, hsz, hp, -, hr, -, -, -⟩ :=
    C6_ExtendLowerPrice gridExample 80 90 2 3 (by simp [gridExample]) (by rw [hs]; norm_num)
      hn (by decide)
  have hr' : r = [80, 85] := by
    have h2 : Int.toNat 2 = 2 := rfl
    rw [hr, hs, h2]
    norm_num [List.range_succ]
  refine ⟨g', r, hg, ?_, ?_, hr'⟩
  · rw [hsz, hsize]; norm_num
  · rw [hp, hr']; simp [gridExample]


/-! ## C7: the error of the quantity check -/

/-- C7: `checkRequiredInvestmentByQuantity` returns the `requiredBase` and `requiredQuote`
its scan computed in every case; it returns an error if and only if
`requiredBase > baseBalance` or `requiredQuote > quoteBalance`; the error names both
balances when both hold, the base balance when only the base is short and the quote balance
when only the quote is short. -/
theorem C7_check_error (baseBalance quoteBalance quantity lastPrice : ℚ) (pins : List ℚ) :
    ∃ st : ScanState,
      st = checkQuantityLoop baseBalance quantity lastPrice pins pins.length ⟨0, 0, 0⟩ ∧
      (checkRequiredInvestmentByQuantity baseBalance quoteBalance quantity lastPrice pins).1 =
        st.requiredBase ∧
      (checkRequiredInvestmentByQuantity baseBalance quoteBalance quantity lastPrice pins).2.1 =
        st.requiredQuote ∧
      ((checkRequiredInvestmentByQuantity baseBalance quoteBalance quantity lastPrice pins).2.2
          ≠ none ↔ (baseBalance < st.requiredBase ∨ quoteBalance < st.requiredQuote)) ∧
      (baseBalance < st.requiredBase ∧ quoteBalance < st.requiredQuote →
        (checkRequiredInvestmentByQuantity baseBalance quoteBalance quantity lastPrice pins).2.2
          = some InvestmentError.bothBalances) ∧
      (baseBalance < st.requiredBase ∧ ¬ quoteBalance < st.requiredQuote →
        (checkRequiredInvestmentByQuantity baseBalance quoteBalance quantity lastPrice pins).2.2
          = some InvestmentError.baseBalance) ∧
      (¬ baseBalance < st.requiredBase ∧ quoteBalance < st.requiredQuote →
        (checkRequiredInvestmentByQuantity baseBalance quoteBalance quantity lastPrice pins).2.2
          = some InvestmentError.quoteBalance) := by
  refine ⟨_, rfl, ?_⟩
  unfold checkRequiredInvestmentByQuantity investmentResult
  generalize checkQuantityLoop baseBalance quantity lastPrice pins pins.length ⟨0, 0, 0⟩ = st
  by_cases hb : baseBalance < st.requiredBase <;>
    by_cases hq : quoteBalance < st.requiredQuote <;>
    simp [hb, hq]


/-! ## The leg scan on a pin list that grows at the top -/

lemma getD_snoc_length (l : List ℚ) (a : ℚ) : (l ++ [a]).getD l.length 0 = a := by
  simp [List.getD_eq_getElem?_getD]

lemma getD_pred_length (l : List ℚ) (x : ℚ) (h : l.getLast? = some x) :
    l.getD (l.length - 1) 0 = x := by
  rw [List.getD_eq_getElem?_getD, ← List.getLast?_eq_getElem?, h]
  rfl

lemma checkQuantityBody_snoc (b q lp : ℚ) (l : List ℚ) (a : ℚ) (i : Nat) (st : ScanState)
    (hi : i < l.length) :
    checkQuantityBody b q lp (l ++ [a]) i st = checkQuantityBody b q lp l i st := by
  unfold checkQuantityBody
  rw [List.getD_append l [a] 0 i hi, List.getD_append l [a] 0 (i - 1) (by omega)]

lemma checkQuantityLoop_snoc (b q lp : ℚ) (l : List ℚ) (a : ℚ) :
    ∀ (k : Nat) (st : ScanState), k ≤ l.length →
      checkQuantityLoop b q lp (l ++ [a]) k st = checkQuantityLoop b q lp l k st := by
  intro k
  induction k with
  | zero => intro st _; rfl
  | succ k ih =>
    intro st hk
    rw [checkQuantityLoop, checkQuantityLoop, checkQuantityBody_snoc b q lp l a k st (by omega),
      ih _ (by omega)]

lemma zip_tail_snoc (a : ℚ) : ∀ (l : List ℚ) (x : ℚ), l.getLast? = some x →
    (l ++ [a]).zip (l ++ [a]).tail = l.zip l.tail ++ [(x, a)]
  | [], x, h => by simp at h
  | [y], x, h => by
    simp at h
    subst h
    simp
  | y :: z :: l, x, h => by
    have h' : (z :: l).getLast? = some x := by
      rw [List.getLast?_cons_cons] at h
      exact h
    have ih := zip_tail_snoc a (z :: l) x h'
    simp only [List.cons_append, List.tail_cons, List.zip_cons_cons] at ih ⊢
    rw [ih]

lemma convertedBuyPrices_snoc (lp a : ℚ) (l : List ℚ) (x : ℚ) (h : l.getLast? = some x) :
    convertedBuyPrices lp (l ++ [a]) =
      convertedBuyPrices lp l ++ (if lp ≤ a then [x] else []) := by
  unfold convertedBuyPrices
  rw [zip_tail_snoc a l x h, List.filter_append, List.map_append]
  by_cases hle : lp ≤ a <;> simp [List.filter_cons, hle]

lemma convertedBuyPrices_singleton (lp a : ℚ) : convertedBuyPrices lp [a] = [] := by
  simp [convertedBuyPrices]

lemma convertedBuyPrices_nil (lp : ℚ) : convertedBuyPrices lp [] = [] := by
  simp [convertedBuyPrices]

/-- No pin is converted when every pin is below the last price. -/
lemma convertedBuyPrices_of_all_lt (lp : ℚ) (l : List ℚ) (h : ∀ p ∈ l, p < lp) :
    convertedBuyPrices lp l = [] := by
  unfold convertedBuyPrices
  rw [List.map_eq_nil_iff, List.filter_eq_nil_iff]
  intro ab hab
  have h2 : ab.2 ∈ l := List.mem_of_mem_tail (List.of_mem_zip hab).2
  simpa using h ab.2 h2

lemma ownBuyPrices_snoc (lp skip a : ℚ) (l : List ℚ) :
    ownBuyPrices lp skip (l ++ [a]) =
      ownBuyPrices lp skip l ++ (if a < lp ∧ a ≠ skip then [a] else []) := by
  unfold ownBuyPrices
  rw [List.filter_append]
  by_cases h1 : a < lp <;> by_cases h2 : a = skip <;> simp [List.filter_cons, h1, h2]


/-- The scan of `checkRequiredInvestmentByQuantity` with no base balance, from any quote sum
`rq` and marked price `b`: no pin is sold, the quote sum grows by the quantity times the
prices of the ordinary and the converted buy legs, and the marked price ends as the last
converted price. -/
lemma checkQuantityLoop_noBase (q lp : ℚ) (hq : 0 < q) :
    ∀ (l : List ℚ), l.Pairwise (fun a b => a < b) → (∀ p ∈ l, 0 < p) → ∀ (rq b : ℚ),
      checkQuantityLoop 0 q lp l l.length ⟨0, rq, b⟩ =
        ⟨0, rq + q * ((ownBuyPrices lp (lastConvertedPrice lp b l) l).sum +
            (convertedBuyPrices lp l).sum), lastConvertedPrice lp b l⟩ := by
  intro l
  induction l using List.reverseRecOn with
  | nil =>
    intro _ _ rq b
    simp [checkQuantityLoop, ownBuyPrices, lastConvertedPrice, convertedBuyPrices]
  | append_singleton l a ih =>
    intro hasc hpos rq b
    have hascl : l.Pairwise (fun a b => a < b) := (List.pairwise_append.mp hasc).1
    have hlt : ∀ x ∈ l, x < a := fun x hx =>
      (List.pairwise_append.mp hasc).2.2 x hx a (List.mem_singleton_self a)
    have hposl : ∀ p ∈ l, 0 < p := fun p hp => hpos p (List.mem_append_left _ hp)
    have ha : 0 < a := hpos a (List.mem_append_right _ (List.mem_singleton_self a))
    have hnq : ¬ (0 + q ≤ 0) := by linarith
    rw [List.length_append, List.length_singleton, checkQuantityLoop,
      checkQuantityLoop_snoc 0 q lp l a l.length _ (le_refl _)]
    unfold checkQuantityBody
    simp only [getD_snoc_length]
    by_cases hle : lp ≤ a
    · rw [if_pos hle, if_neg hnq]
      rcases List.eq_nil_or_concat l with hnil | ⟨l', x, hl⟩
      · subst hnil
        simp [checkQuantityLoop, ownBuyPrices, lastConvertedPrice, convertedBuyPrices,
          not_lt.mpr hle]
      · have hlast : l.getLast? = some x := by rw [hl]; simp
        have hlen : 0 < l.length := by rw [hl]; simp
        rw [if_pos hlen, List.getD_append l [a] 0 (l.length - 1) (by omega),
          getD_pred_length l x hlast]
        rw [ih hascl hposl]
        have hconv := convertedBuyPrices_snoc lp a l x hlast
        rw [if_pos hle] at hconv
        have hlcp : lastConvertedPrice lp b (l ++ [a]) = lastConvertedPrice lp x l := by
          unfold lastConvertedPrice
          rw [hconv]
          cases convertedBuyPrices lp l <;> simp
        have hown : ownBuyPrices lp (lastConvertedPrice lp x l) (l ++ [a]) =
            ownBuyPrices lp (lastConvertedPrice lp x l) l := by
          rw [ownBuyPrices_snoc, if_neg (fun h => absurd h.1 (not_lt.mpr hle)),
            List.append_nil]
        rw [hlcp, hown, hconv, List.sum_append, List.sum_singleton]
        congr 1
        ring
    · rw [if_neg hle]
      push_neg at hle
      have hall : ∀ p ∈ l, p < lp := fun p hp => (hlt p hp).trans hle
      have hall' : ∀ p ∈ l ++ [a], p < lp := by
        intro p hp
        rcases List.mem_append.mp hp with h | h
        · exact hall p h
        · rw [List.mem_singleton.mp h]; exact hle
      have hc1 : convertedBuyPrices lp l = [] := convertedBuyPrices_of_all_lt lp l hall
      have hc2 : convertedBuyPrices lp (l ++ [a]) = [] :=
        convertedBuyPrices_of_all_lt lp (l ++ [a]) hall'
      have hl1 : ∀ d, lastConvertedPrice lp d l = d := by
        intro d; simp [lastConvertedPrice, hc1]
      have hl2 : lastConvertedPrice lp b (l ++ [a]) = b := by
        simp [lastConvertedPrice, hc2]
      rw [hl2, hc2, ownBuyPrices_snoc]
      by_cases hab : a = b
      · have hb0 : b ≠ 0 := by rw [← hab]; exact ha.ne'
        rw [if_pos ⟨hb0, hab⟩, ih hascl hposl, hl1, hc1,
          if_neg (fun h => h.2 hab), List.append_nil]
      · rw [if_neg (fun h => hab h.2)]
        rw [ih hascl hposl, hl1, hc1, if_pos ⟨hle, hab⟩, List.sum_append, List.sum_singleton]
        congr 1
        simp only [List.sum_nil]
        ring


/-! ## C8: leg classification with no base balance -/

lemma checkRequiredInvestmentByQuantity_noBase (pins : List ℚ) (lp q qb : ℚ)
    (hasc : pins.Pairwise (fun a b => a < b)) (hpos : ∀ p ∈ pins, 0 < p) (hq : 0 < q) :
    (checkRequiredInvestmentByQuantity 0 qb q lp pins).1 = 0 ∧
    (checkRequiredInvestmentByQuantity 0 qb q lp pins).2.1 = q * (buyLegPrices lp pins).sum := by
  unfold checkRequiredInvestmentByQuantity investmentResult
  rw [checkQuantityLoop_noBase q lp hq pins hasc hpos 0 0]
  simp only [zero_add, buyLegPrices, List.sum_append]
  split_ifs <;> exact ⟨rfl, rfl⟩

/-- Every converted buy price is the pin right below a pin at or above the last price. -/
lemma mem_convertedBuyPrices (lp : ℚ) (pins : List ℚ) (p : ℚ) :
    p ∈ convertedBuyPrices lp pins ↔
      ∃ i, 0 < i ∧ i < pins.length ∧ lp ≤ pins.getD i 0 ∧ p = pins.getD (i - 1) 0 := by
  induction pins using List.reverseRecOn with
  | nil => simp [convertedBuyPrices]
  | append_singleton l a ih =>
    rcases List.eq_nil_or_concat l with hnil | ⟨l', x, hl⟩
    · subst hnil
      simp only [List.nil_append, convertedBuyPrices_singleton, List.not_mem_nil,
        List.length_singleton, false_iff]
      rintro ⟨i, h0, h1, -⟩
      omega
    · have hlast : l.getLast? = some x := by rw [hl]; simp
      have hlen : 0 < l.length := by rw [hl]; simp
      rw [convertedBuyPrices_snoc lp a l x hlast, List.mem_append, ih]
      constructor
      · rintro (⟨i, h0, h1, h2, h3⟩ | hmem)
        · refine ⟨i, h0, by rw [List.length_append]; omega, ?_, ?_⟩
          · rwa [List.getD_append l [a] 0 i h1]
          · rwa [List.getD_append l [a] 0 (i - 1) (by omega)]
        · by_cases hle : lp ≤ a
          · rw [if_pos hle, List.mem_singleton] at hmem
            refine ⟨l.length, hlen, by simp, ?_, ?_⟩
            · rwa [getD_snoc_length]
            · rw [List.getD_append l [a] 0 (l.length - 1) (by omega),
                getD_pred_length l x hlast, hmem]
          · rw [if_neg hle] at hmem
            simp at hmem
      · rintro ⟨i, h0, h1, h2, h3⟩
        rw [List.length_append, List.length_singleton] at h1
        by_cases hi : i < l.length
        · left
          refine ⟨i, h0, hi, ?_, ?_⟩
          · rwa [List.getD_append l [a] 0 i hi] at h2
          · rwa [List.getD_append l [a] 0 (i - 1) (by omega)] at h3
        · right
          have hi' : i = l.length := by omega
          subst hi'
          rw [getD_snoc_length] at h2
          rw [List.getD_append l [a] 0 (l.length - 1) (by omega),
            getD_pred_length l x hlast] at h3
          rw [if_pos h2, h3]
          exact List.mem_singleton_self x

/-- On strictly ascending pins the converted buy prices are strictly ascending, lie below
the highest pin, and only the lowest of them, the last converted price, can lie below the
last price. -/
lemma convertedBuyPrices_sorted (lp : ℚ) :
    ∀ (l : List ℚ), l.Pairwise (fun a b => a < b) →
      (convertedBuyPrices lp l).Pairwise (fun a b => a < b) ∧
      (∀ p ∈ convertedBuyPrices lp l, ∀ x, l.getLast? = some x → p < x) ∧
      (∀ b, ∀ p ∈ convertedBuyPrices lp l, p < lp → p = lastConvertedPrice lp b l) := by
  intro l
  induction l using List.reverseRecOn with
  | nil => intro _; simp [convertedBuyPrices]
  | append_singleton l a ih =>
    intro hasc
    have hascl : l.Pairwise (fun a b => a < b) := (List.pairwise_append.mp hasc).1
    have hlt : ∀ x ∈ l, x < a := fun x hx =>
      (List.pairwise_append.mp hasc).2.2 x hx a (List.mem_singleton_self a)
    obtain ⟨ih1, ih2, ih3⟩ := ih hascl
    rcases List.eq_nil_or_concat l with hnil | ⟨l', x, hl⟩
    · subst hnil
      simp [convertedBuyPrices]
    · have hlast : l.getLast? = some x := by rw [hl]; simp
      have hxl : x ∈ l := by rw [hl]; simp
      have hconv := convertedBuyPrices_snoc lp a l x hlast
      by_cases hle : lp ≤ a
      · rw [if_pos hle] at hconv
        refine ⟨?_, ?_, ?_⟩
        · rw [hconv, List.pairwise_append]
          refine ⟨ih1, List.pairwise_singleton _ _, ?_⟩
          intro p hp y hy
          rw [List.mem_singleton.mp hy]
          exact ih2 p hp x hlast
        · intro p hp y hy
          have hya : y = a := by simpa using hy.symm
          rw [hconv, List.mem_append, List.mem_singleton] at hp
          rcases hp with hp | hp
          · rw [hya]; exact (ih2 p hp x hlast).trans (hlt x hxl)
          · rw [hya, hp]; exact hlt x hxl
        · intro b p hp hplt
          have hlcp : lastConvertedPrice lp b (l ++ [a]) = lastConvertedPrice lp x l := by
            unfold lastConvertedPrice
            rw [hconv]
            cases convertedBuyPrices lp l <;> simp
          rw [hlcp]
          rw [hconv, List.mem_append, List.mem_singleton] at hp
          rcases hp with hp | hp
          · exact ih3 x p hp hplt
          · subst hp
            have hall : ∀ y ∈ l, y < lp := by
              intro y hy
              have hyx : y ≤ p := by
                rw [hl, List.concat_eq_append] at hy hascl
                rcases List.mem_append.mp hy with h | h
                · exact ((List.pairwise_append.mp hascl).2.2 y h p
                    (List.mem_singleton_self p)).le
                · exact (List.mem_singleton.mp h).le
              exact lt_of_le_of_lt hyx hplt
            simp [lastConvertedPrice, convertedBuyPrices_of_all_lt lp l hall]
      · rw [if_neg hle, List.append_nil] at hconv
        push_neg at hle
        have hall : ∀ p ∈ l, p < lp := fun p hp => (hlt p hp).trans hle
        have hc1 : convertedBuyPrices lp l = [] := convertedBuyPrices_of_all_lt lp l hall
        rw [hconv, hc1]
        simp

/-- No price carries two buy legs: on strictly ascending pins the prices of the ordinary
and of the converted buy legs are pairwise different. -/
lemma buyLegPrices_nodup (lp : ℚ) (pins : List ℚ)
    (hasc : pins.Pairwise (fun a b => a < b)) : (buyLegPrices lp pins).Nodup := by
  obtain ⟨h1, -, h3⟩ := convertedBuyPrices_sorted lp pins hasc
  unfold buyLegPrices
  rw [List.nodup_append]
  refine ⟨?_, ?_, ?_⟩
  · unfold ownBuyPrices
    exact List.Nodup.filter _ (hasc.imp (fun h => ne_of_lt h))
  · exact h1.imp (fun h => ne_of_lt h)
  · intro p hown hconv
    unfold ownBuyPrices at hown
    simp only [List.mem_filter, Bool.and_eq_true, decide_eq_true_eq, Bool.not_eq_true',
      decide_eq_false_iff_not] at hown
    exact hown.2.2 (h3 0 p hconv hown.2.1)

/-- C8: leg classification of `checkRequiredInvestmentByQuantity` with no base.  For every
strictly ascending list of positive pins, every `lastPrice` and every quantity `q > 0`, with
`baseBalance = 0` the result has `requiredBase = 0` (no pin is sold) and
`requiredQuote = q * (sum of the buy-leg prices)`, where the buy legs are: for every pin at
index `i > 0` at or above `lastPrice`, a buy at the next lower pin `pins[i-1]`; and every pin
below `lastPrice` at its own price, except the pin whose price is the last converted price,
which is thus counted once: no two buy legs have the same price. -/
theorem C8_no_base_classification (pins : List ℚ) (lastPrice q quoteBalance : ℚ)
    (hasc : pins.Pairwise (fun a b => a < b)) (hpos : ∀ p ∈ pins, 0 < p) (hq : 0 < q) :
    (checkRequiredInvestmentByQuantity 0 quoteBalance q lastPrice pins).1 = 0 ∧
    (checkRequiredInvestmentByQuantity 0 quoteBalance q lastPrice pins).2.1 =
      q * ((ownBuyPrices lastPrice (lastConvertedPrice lastPrice 0 pins) pins).sum +
        (convertedBuyPrices lastPrice pins).sum) ∧
    (∀ p, p ∈ convertedBuyPrices lastPrice pins ↔
      ∃ i, 0 < i ∧ i < pins.length ∧ lastPrice ≤ pins.getD i 0 ∧ p = pins.getD (i - 1) 0) ∧
    (∀ p, p ∈ ownBuyPrices lastPrice (lastConvertedPrice lastPrice 0 pins) pins ↔
      p ∈ pins ∧ p < lastPrice ∧ p ≠ lastConvertedPrice lastPrice 0 pins) ∧
    lastConvertedPrice lastPrice 0 pins = (convertedBuyPrices lastPrice pins).head?.getD 0 ∧
    (ownBuyPrices lastPrice (lastConvertedPrice lastPrice 0 pins) pins ++
      convertedBuyPrices lastPrice pins).Nodup := by
  obtain ⟨h1, h2⟩ :=
    checkRequiredInvestmentByQuantity_noBase pins lastPrice q quoteBalance hasc hpos hq
  refine ⟨h1, ?_, mem_convertedBuyPrices lastPrice pins, ?_, rfl,
    buyLegPrices_nodup lastPrice pins hasc⟩
  · rw [h2, buyLegPrices, List.sum_append]
  · intro p
    simp [ownBuyPrices, List.mem_filter]

/-- Witness of C8: pins `[90, 95, 100, 105, 110]`, last price `100`, no base, quantity `2`:
the pins `110`, `105`, `100` become buys at `105`, `100`, `95`, there is no second buy at
`95`, the pin `90` is an ordinary buy, and `requiredQuote = 2*(105 + 100 + 95 + 90)`. -/
theorem C8_no_base_classification_witness :
    (checkRequiredInvestmentByQuantity 0 1000 2 100 [90, 95, 100, 105, 110]).1 = 0 ∧
    (checkRequiredInvestmentByQuantity 0 1000 2 100 [90, 95, 100, 105, 110]).2.1 =
      2 * (105 + 100 + 95 + 90) ∧
    convertedBuyPrices 100 [90, 95, 100, 105, 110] = [95, 100, 105] ∧
    ownBuyPrices 100 (lastConvertedPrice 100 0 [90, 95, 100, 105, 110])
      [90, 95, 100, 105, 110] = [90] := by
  have hasc : ([90, 95, 100, 105, 110] : List ℚ).Pairwise (fun a b => a < b) := by
    norm_num
  have hpos : ∀ p ∈ ([90, 95, 100, 105, 110] : List ℚ), 0 < p := by
    intro p hp
    simp only [List.mem_cons, List.mem_singleton, List.not_mem_nil, or_false] at hp
    rcases hp with h | h | h | h | h <;> rw [h] <;> norm_num
  obtain ⟨h1, h2, -, -, -, -⟩ :=
    C8_no_base_classification [90, 95, 100, 105, 110] 100 2 1000 hasc hpos (by norm_num)
  have hconv : convertedBuyPrices 100 [90, 95, 100, 105, 110] = [95, 100, 105] := by
    norm_num [convertedBuyPrices, List.filter_cons]
  have hown : ownBuyPrices 100 (lastConvertedPrice 100 0 [90, 95, 100, 105, 110])
      [90, 95, 100, 105, 110] = [90] := by
    norm_num [ownBuyPrices, lastConvertedPrice, hconv, List.filter_cons]
  refine ⟨h1, ?_, hconv, hown⟩
  rw [h2, hconv, hown]
  norm_num


/-! ## C9: the amount check sizes sells by the last price -/

/-- C9 at a failing input: `amount = 100`, `lastPrice = 100`, pins `[90, 110]`.  With base
balance `10` the pin `110` is a sell leg, and the check counts `amount/lastPrice = 1` base
for it, whereas the order `openGrid` builds at that pin has the quantity
`amount/110 = 10/11`.  With base balance `0` the pin `110` is converted to a buy at `90`,
counted as `(amount/lastPrice) * 90 = 90` quote instead of `amount = 100`. -/
theorem C9_amount_check_at_failing_input :
    checkRequiredInvestmentByAmount 10 1000 100 100 [90, 110] = (1, 100, none) ∧
    openGridQuantity 0 100 110 = 10 / 11 ∧
    (checkRequiredInvestmentByAmount 10 1000 100 100 [90, 110]).1 ≠ 100 / 110 ∧
    checkRequiredInvestmentByAmount 0 1000 100 100 [90, 110] = (0, 90, none) ∧
    (checkRequiredInvestmentByAmount 0 1000 100 100 [90, 110]).2.1 ≠ 100 := by
  have h1 : checkRequiredInvestmentByAmount 10 1000 100 100 [90, 110] = (1, 100, none) := by
    norm_num [checkRequiredInvestmentByAmount, checkAmountLoop, checkAmountBody,
      investmentResult]
  have h2 : checkRequiredInvestmentByAmount 0 1000 100 100 [90, 110] = (0, 90, none) := by
    norm_num [checkRequiredInvestmentByAmount, checkAmountLoop, checkAmountBody,
      investmentResult]
  refine ⟨h1, by norm_num [openGridQuantity], ?_, h2, ?_⟩
  · rw [h1]; norm_num
  · rw [h2]; norm_num

/-! ## C10: the quote-investment quantity spends the quote investment -/

/-- The scan of `calculateQuoteInvestmentQuantity` adds up the prices that the scan of
`checkRequiredInvestmentByQuantity` multiplies by the quantity when no pin can be sold. -/
lemma checkQuantityLoop_quoteInvestmentLoop (q lp : ℚ) (hq : 0 < q) (pins : List ℚ) :
    ∀ (k : Nat) (rq t b : ℚ),
      checkQuantityLoop 0 q lp pins k ⟨0, rq, b⟩ =
        ⟨0, rq + q * ((quoteInvestmentLoop lp pins k ⟨t, b⟩).totalQuotePrice - t),
          (quoteInvestmentLoop lp pins k ⟨t, b⟩).buyPlacedPrice⟩ := by
  have hnq : ¬ (0 + q ≤ 0) := by linarith
  intro k
  induction k with
  | zero =>
    intro rq t b
    simp [checkQuantityLoop, quoteInvestmentLoop]
  | succ k ih =>
    intro rq t b
    rw [checkQuantityLoop, quoteInvestmentLoop]
    unfold checkQuantityBody quoteInvestmentBody
    by_cases hle : lp ≤ pins.getD k 0
    · simp only [if_pos hle, if_neg hnq]
      by_cases hk : 0 < k
      · simp only [if_pos hk]
        rw [ih _ (t + pins.getD (k - 1) 0) _]
        congr 1
        ring
      · simp only [if_neg hk]
        rw [ih rq t b]
    · simp only [if_neg hle]
      by_cases hskip : b ≠ 0 ∧ pins.getD k 0 = b
      · simp only [if_pos hskip]
        rw [ih rq t b]
      · simp only [if_neg hskip]
        rw [ih _ (t + pins.getD k 0) _]
        congr 1
        ring

lemma quoteInvestmentLoop_total (lp : ℚ) (pins : List ℚ)
    (hasc : pins.Pairwise (fun a b => a < b)) (hpos : ∀ p ∈ pins, 0 < p) :
    (quoteInvestmentLoop lp pins pins.length ⟨0, 0⟩).totalQuotePrice =
      (buyLegPrices lp pins).sum := by
  have h1 := checkQuantityLoop_quoteInvestmentLoop 1 lp one_pos pins pins.length 0 0 0
  rw [checkQuantityLoop_noBase 1 lp one_pos pins hasc hpos 0 0] at h1
  have h2 := congrArg ScanState.requiredQuote h1
  simp only [zero_add, one_mul, sub_zero] at h2
  rw [← h2, buyLegPrices, List.sum_append]

lemma mem_buyLegPrices_pos (lp : ℚ) (pins : List ℚ) (hpos : ∀ p ∈ pins, 0 < p) :
    ∀ p ∈ buyLegPrices lp pins, 0 < p := by
  intro p hp
  unfold buyLegPrices at hp
  rcases List.mem_append.mp hp with h | h
  · exact hpos p (List.mem_of_mem_filter h)
  · unfold convertedBuyPrices at h
    rw [List.mem_map] at h
    obtain ⟨ab, hab, rfl⟩ := h
    exact hpos ab.1 (List.of_mem_zip (List.mem_of_mem_filter hab)).1

/-- With at least two strictly ascending positive pins there is a buy leg: the second lowest
pin is converted to a buy, or it is an ordinary buy. -/
lemma buyLegPrices_ne_nil (lp : ℚ) (pins : List ℚ) (hpos : ∀ p ∈ pins, 0 < p)
    (hlen : 2 ≤ pins.length) : buyLegPrices lp pins ≠ [] := by
  match pins, hlen with
  | a :: b :: rest, _ =>
    by_cases hc : convertedBuyPrices lp (a :: b :: rest) = []
    · have hb : ¬ lp ≤ b := by
        intro hle
        have : a ∈ convertedBuyPrices lp (a :: b :: rest) := by
          simp [convertedBuyPrices, List.filter_cons, hle]
        rw [hc] at this
        exact List.not_mem_nil a this
      have hb0 : b ≠ 0 := (hpos b (by simp)).ne'
      have hmem : b ∈ buyLegPrices lp (a :: b :: rest) := by
        unfold buyLegPrices
        apply List.mem_append_left
        simp only [ownBuyPrices, lastConvertedPrice, hc, List.head?_nil, Option.getD_none,
          List.mem_filter, Bool.and_eq_true, decide_eq_true_eq, Bool.not_eq_true',
          decide_eq_false_iff_not]
        exact ⟨by simp, not_le.mp hb, hb0⟩
      exact List.ne_nil_of_mem hmem
    · intro h
      unfold buyLegPrices at h
      exact hc (List.append_eq_nil.mp h).2

/-- C10: the quote-investment quantity exactly spends the quote investment.  For every
strictly ascending list of at least two positive pins, every `lastPrice` and every
`quoteInvestment > 0`, `q = calculateQuoteInvestmentQuantity(quoteInvestment, lastPrice,
pins)` equals `quoteInvestment` divided by the sum of the buy-leg prices, which is positive,
and `checkRequiredInvestmentByQuantity(0, quoteInvestment, q, lastPrice, pins)` succeeds
with `requiredBase = 0` and `requiredQuote = quoteInvestment`. -/
theorem C10_quote_investment_exact (pins : List ℚ) (lastPrice quoteInvestment : ℚ)
    (hasc : pins.Pairwise (fun a b => a < b)) (hpos : ∀ p ∈ pins, 0 < p)
    (hlen : 2 ≤ pins.length) (hqi : 0 < quoteInvestment) :
    calculateQuoteInvestmentQuantity quoteInvestment lastPrice pins =
      quoteInvestment / (buyLegPrices lastPrice pins).sum ∧
    0 < (buyLegPrices lastPrice pins).sum ∧
    checkRequiredInvestmentByQuantity 0 quoteInvestment
      (calculateQuoteInvestmentQuantity quoteInvestment lastPrice pins) lastPrice pins =
        (0, quoteInvestment, none) := by
  have hsum : 0 < (buyLegPrices lastPrice pins).sum :=
    List.sum_pos _ (mem_buyLegPrices_pos lastPrice pins hpos)
      (buyLegPrices_ne_nil lastPrice pins hpos hlen)
  have hq : calculateQuoteInvestmentQuantity quoteInvestment lastPrice pins =
      quoteInvestment / (buyLegPrices lastPrice pins).sum := by
    unfold calculateQuoteInvestmentQuantity
    rw [quoteInvestmentLoop_total lastPrice pins hasc hpos]
  refine ⟨hq, hsum, ?_⟩
  rw [hq]
  have hqpos : 0 < quoteInvestment / (buyLegPrices lastPrice pins).sum := div_pos hqi hsum
  unfold checkRequiredInvestmentByQuantity investmentResult
  rw [checkQuantityLoop_noBase _ lastPrice hqpos pins hasc hpos 0 0]
  have hval : 0 + quoteInvestment / (buyLegPrices lastPrice pins).sum *
      ((ownBuyPrices lastPrice (lastConvertedPrice lastPrice 0 pins) pins).sum +
        (convertedBuyPrices lastPrice pins).sum) = quoteInvestment := by
    rw [← List.sum_append, ← buyLegPrices, zero_add, div_mul_cancel₀ _ hsum.ne']
  simp only [hval, lt_irrefl, false_and, if_false]

/-- Witness of C10: pins `[90, 95, 100, 105, 110]`, last price `100`, quote investment
`390`: the quantity is `1` and the check needs exactly `390` quote. -/
theorem C10_quote_investment_exact_witness :
    calculateQuoteInvestmentQuantity 390 100 [90, 95, 100, 105, 110] = 1 ∧
    checkRequiredInvestmentByQuantity 0 390
      (calculateQuoteInvestmentQuantity 390 100 [90, 95, 100, 105, 110]) 100
        [90, 95, 100, 105, 110] = (0, 390, none) := by
  have hasc : ([90, 95, 100, 105, 110] : List ℚ).Pairwise (fun a b => a < b) := by
    norm_num
  have hpos : ∀ p ∈ ([90, 95, 100, 105, 110] : List ℚ), 0 < p := by
    intro p hp
    simp only [List.mem_cons, List.mem_singleton, List.not_mem_nil, or_false] at hp
    rcases hp with h | h | h | h | h <;> rw [h] <;> norm_num
  obtain ⟨h1, -, h3⟩ :=
    C10_quote_investment_exact [90, 95, 100, 105, 110] 100 390 hasc hpos (by simp)
      (by norm_num)
  refine ⟨?_, h3⟩
  have hconv : convertedBuyPrices 100 [90, 95, 100, 105, 110] = [95, 100, 105] := by
    norm_num [convertedBuyPrices, List.filter_cons]
  rw [h1]
  norm_num [buyLegPrices, ownBuyPrices, lastConvertedPrice, hconv, List.filter_cons]

/-! ## C11: quote and base sizing -/

lemma countSellOrdersLoop_snoc (lp : ℚ) (l : List ℚ) (a : ℚ) :
    ∀ (k c : Nat), k ≤ l.length →
      countSellOrdersLoop lp (l ++ [a]) k c = countSellOrdersLoop lp l k c := by
  intro k
  induction k with
  | zero => intro c _; rfl
  | succ k ih =>
    intro c hk
    rw [countSellOrdersLoop, countSellOrdersLoop, List.getD_append l [a] 0 k (by omega),
      ih _ (by omega)]

/-- On strictly ascending pins the counting loop, which stops at the first pin below the
last price, counts all pins at or above the last price. -/
lemma countSellOrdersLoop_eq (lp : ℚ) :
    ∀ (l : List ℚ), l.Pairwise (fun a b => a < b) → ∀ c : Nat,
      countSellOrdersLoop lp l l.length c =
        c + (l.filter (fun p => decide (lp ≤ p))).length := by
  intro l
  induction l using List.reverseRecOn with
  | nil => intro _ c; simp [countSellOrdersLoop]
  | append_singleton l a ih =>
    intro hasc c
    have hascl : l.Pairwise (fun a b => a < b) := (List.pairwise_append.mp hasc).1
    have hlt : ∀ x ∈ l, x < a := fun x hx =>
      (List.pairwise_append.mp hasc).2.2 x hx a (List.mem_singleton_self a)
    rw [List.length_append, List.length_singleton, countSellOrdersLoop, getD_snoc_length,
      List.filter_append]
    by_cases ha : a < lp
    · have hnil : l.filter (fun p => decide (lp ≤ p)) = [] := by
        rw [List.filter_eq_nil_iff]
        intro x hx
        simpa using (hlt x hx).trans ha
      rw [if_pos ha, hnil]
      simp [List.filter_cons, ha]
    · rw [if_neg ha, countSellOrdersLoop_snoc lp l a l.length _ (le_refl _), ih hascl]
      push_neg at ha
      simp [List.filter_cons, ha]
      omega

/-- The reduction loop, entered with `n ≥ 1` assumed sell orders and the quantity
`baseInvestment / n`, stops at the largest `k ≤ n` whose quantity clears the minimum. -/
lemma reduceSellOrdersLoop_eq (minQuantity minBase bi : ℚ) (hmin : minQuantity ≤ minBase)
    (hbi : minBase < bi) :
    ∀ (n fuel : Nat), 1 ≤ n → n ≤ fuel →
      ∃ k : Nat, 1 ≤ k ∧ k ≤ n ∧ minBase < bi / (k : ℚ) ∧
        (∀ j : Nat, k < j → j ≤ n → bi / (j : ℚ) ≤ minBase) ∧
        reduceSellOrdersLoop minQuantity minBase bi fuel (n : ℤ) (bi / (n : ℚ)) =
          some ((k : ℤ), bi / (k : ℚ)) := by
  intro n
  induction n with
  | zero => intro fuel h; omega
  | succ n ih =>
    intro fuel _ hfuel
    obtain ⟨f, rfl⟩ : ∃ f, fuel = f + 1 := ⟨fuel - 1, by omega⟩
    by_cases hclear : minBase < bi / ((n + 1 : ℕ) : ℚ)
    · refine ⟨n + 1, by omega, le_refl _, hclear, fun j h1 h2 => by omega, ?_⟩
      have hcond : ¬ (bi / ((n + 1 : ℕ) : ℚ) ≤ minQuantity ∨
          bi / ((n + 1 : ℕ) : ℚ) ≤ minBase) := by
        push_neg
        exact ⟨lt_of_le_of_lt hmin hclear, hclear⟩
      rw [reduceSellOrdersLoop, if_neg hcond]
    · push_neg at hclear
      have hn : 1 ≤ n := by
        by_contra h0
        have : n = 0 := by omega
        subst this
        simp at hclear
        linarith
      obtain ⟨k, hk1, hk2, hk3, hk4, hk5⟩ := ih f hn (by omega)
      refine ⟨k, hk1, by omega, hk3, ?_, ?_⟩
      · intro j h1 h2
        by_cases hj : j ≤ n
        · exact hk4 j h1 hj
        · have : j = n + 1 := by omega
          rw [this]; exact hclear
      · have hcast : (((n + 1 : ℕ) : ℤ) - 1) = (n : ℤ) := by push_cast; ring
        rw [reduceSellOrdersLoop, if_pos (Or.inr hclear), hcast, Int.cast_natCast, hk5]



/-- C11, as stated, fails when the minimums are negative: with `minQuantity = -1`,
`minNotional = -100`, `lastPrice = 100`, pins `[90, 110]` (one pin at or above the last
price), `baseInvestment = 1 > m = -1` and `quoteInvestment = 9`, the reduction loop is not
entered (`0 <= minQuantity` and `0 <= m` both fail), `maxBaseQuantity` stays `0` and the code
returns `max(9/90, 0) = 1/10`; the claim's value is `max(9/90, 1/1) = 1`. -/
theorem C11_counterexample :
    (([90, 110] : List ℚ).Pairwise (fun a b => a < b) ∧
      (∀ p ∈ ([90, 110] : List ℚ), 0 < p) ∧
      (([90, 110] : List ℚ).filter (fun p => decide ((100 : ℚ) ≤ p))).length = 1 ∧
      max (-1 : ℚ) (-100 / 100) < 1) ∧
    calculateQuoteBaseInvestmentQuantity 5 ⟨1, -1, -100⟩ 9 1 100 [90, 110] = some (1 / 10) ∧
    (buyLegPrices 100 [90, 110]).sum = 90 ∧
    max ((9 : ℚ) / (buyLegPrices 100 [90, 110]).sum) (1 / ((1 : ℕ) : ℚ)) = 1 ∧
    calculateQuoteBaseInvestmentQuantity 5 ⟨1, -1, -100⟩ 9 1 100 [90, 110] ≠
      some (max ((9 : ℚ) / (buyLegPrices 100 [90, 110]).sum) (1 / ((1 : ℕ) : ℚ))) := by
  have hsum : (buyLegPrices 100 [90, 110]).sum = 90 := by
    norm_num [buyLegPrices, ownBuyPrices, lastConvertedPrice, convertedBuyPrices,
      List.filter_cons]
  have hcode : calculateQuoteBaseInvestmentQuantity 5 ⟨1, -1, -100⟩ 9 1 100 [90, 110] =
      some (1 / 10) := by
    norm_num [calculateQuoteBaseInvestmentQuantity, countSellOrdersLoop,
      reduceSellOrdersLoop, quoteInvestmentLoop, quoteInvestmentBody]
  have hclaim : max ((9 : ℚ) / (buyLegPrices 100 [90, 110]).sum) (1 / ((1 : ℕ) : ℚ)) = 1 := by
    rw [hsum]; norm_num
  refine ⟨⟨by norm_num, ?_, by norm_num [List.filter_cons], by norm_num⟩, hcode, hsum,
    hclaim, ?_⟩
  · intro p hp
    simp only [List.mem_cons, List.mem_singleton, List.not_mem_nil, or_false] at hp
    rcases hp with h | h <;> rw [h] <;> norm_num
  · rw [hcode, hclaim]
    norm_num

/-- C11, amended: quote and base sizing returns the maximum of two candidates when the
minimum `m = max(minQuantity, minNotional/lastPrice)` is not negative.  For every strictly
ascending list of positive pins with `count ≥ 1` pins at or above `lastPrice`, every
`m ≥ 0` and every `baseInvestment > m`, `calculateQuoteBaseInvestmentQuantity` returns (any
fuel of at least `count + 1` loop tests suffices)
`max(quoteInvestment / (sum of buy-leg prices), baseInvestment / n)`, where `n` is the
largest integer in `[1, count]` with `baseInvestment / n > m`; and the quote-side candidate
equals `calculateQuoteInvestmentQuantity(quoteInvestment, lastPrice, pins)`. -/
theorem C11_quote_base_quantity (pins : List ℚ) (market : Market)
    (quoteInvestment baseInvestment lastPrice : ℚ) (fuel : Nat)
    (hasc : pins.Pairwise (fun a b => a < b)) (hpos : ∀ p ∈ pins, 0 < p)
    (hcount : 1 ≤ (pins.filter (fun p => decide (lastPrice ≤ p))).length)
    (hm : 0 ≤ max market.MinQuantity (market.MinNotional / lastPrice))
    (hbi : max market.MinQuantity (market.MinNotional / lastPrice) < baseInvestment)
    (hfuel : (pins.filter (fun p => decide (lastPrice ≤ p))).length + 1 ≤ fuel) :
    ∃ n : Nat, 1 ≤ n ∧ n ≤ (pins.filter (fun p => decide (lastPrice ≤ p))).length ∧
      max market.MinQuantity (market.MinNotional / lastPrice) < baseInvestment / (n : ℚ) ∧
      (∀ j : Nat, n < j → j ≤ (pins.filter (fun p => decide (lastPrice ≤ p))).length →
        baseInvestment / (j : ℚ) ≤ max market.MinQuantity (market.MinNotional / lastPrice)) ∧
      calculateQuoteBaseInvestmentQuantity fuel market quoteInvestment baseInvestment
          lastPrice pins =
        some (max (quoteInvestment / (buyLegPrices lastPrice pins).sum)
          (baseInvestment / (n : ℚ))) ∧
      quoteInvestment / (buyLegPrices lastPrice pins).sum =
        calculateQuoteInvestmentQuantity quoteInvestment lastPrice pins := by
  rw [max_comm] at hm hbi ⊢
  obtain ⟨f, rfl⟩ : ∃ f, fuel = f + 1 := ⟨fuel - 1, by omega⟩
  obtain ⟨k, hk1, hk2, hk3, hk4, hk5⟩ :=
    reduceSellOrdersLoop_eq market.MinQuantity
      (max (market.MinNotional / lastPrice) market.MinQuantity) baseInvestment
      (le_max_right _ _) hbi
      (pins.filter (fun p => decide (lastPrice ≤ p))).length f hcount (by omega)
  refine ⟨k, hk1, hk2, hk3, hk4, ?_, ?_⟩
  · unfold calculateQuoteBaseInvestmentQuantity
    simp only
    rw [countSellOrdersLoop_eq lastPrice pins hasc 0, Nat.zero_add, reduceSellOrdersLoop,
      if_pos (Or.inr hm), add_sub_cancel_right, Int.cast_natCast, hk5,
      quoteInvestmentLoop_total lastPrice pins hasc hpos]
    have hkpos : (0 : ℤ) < (k : ℤ) := by exact_mod_cast hk1
    simp only [Option.map_some', if_pos hkpos]
  · unfold calculateQuoteInvestmentQuantity
    rw [quoteInvestmentLoop_total lastPrice pins hasc hpos]

/-- Witness of C11: pins `[90, 95, 100, 105, 110]`, last price `100` (three pins at or above
it), no minimums, base investment `3`, quote investment `390`: the base candidate is `3/3`
and the quote candidate is `390/390`, so the quantity is `1`. -/
theorem C11_quote_base_quantity_witness :
    calculateQuoteBaseInvestmentQuantity 4 ⟨1, 0, 0⟩ 390 3 100 [90, 95, 100, 105, 110] =
      some 1 := by
  have hasc : ([90, 95, 100, 105, 110] : List ℚ).Pairwise (fun a b => a < b) := by
    norm_num
  have hpos : ∀ p ∈ ([90, 95, 100, 105, 110] : List ℚ), 0 < p := by
    intro p hp
    simp only [List.mem_cons, List.mem_singleton, List.not_mem_nil, or_false] at hp
    rcases hp with h | h | h | h | h <;> rw [h] <;> norm_num
  have hcount : (([90, 95, 100, 105, 110] : List ℚ).filter
      (fun p => decide ((100 : ℚ) ≤ p))).length = 3 := by
    norm_num [List.filter_cons]
  obtain ⟨n, hn1, hn2, hn3, hn4, hres, -⟩ :=
    C11_quote_base_quantity [90, 95, 100, 105, 110] ⟨1, 0, 0⟩ 390 3 100 4 hasc hpos
      (by rw [hcount]; norm_num) (by norm_num) (by norm_num) (by rw [hcount])
  have hn : n = 3 := by
    rw [hcount] at hn2 hn4
    by_contra hne
    have h3 := hn4 3 (by omega) (le_refl _)
    norm_num at h3
  have hsum : (buyLegPrices 100 [90, 95, 100, 105, 110]).sum = 390 := by
    norm_num [buyLegPrices, ownBuyPrices, lastConvertedPrice, convertedBuyPrices,
      List.filter_cons]
  rw [hres, hn, hsum]
  norm_num

/-! ## C12, C13: the grid reference -/

lemma NewGrid_gridExample_int :
    NewGrid 6 90 110 (((4 : ℤ)) : ℚ) 1 = some gridExample := by
  simpa using NewGrid_gridExample

/-- The sizing step assigns the quantity only: the grid reference is kept. -/
lemma openGridSizing_grid (fuel : Nat) (s s2 : Strategy) (lastPrice totalBase totalQuote : ℚ)
    (err : Option GridError) (pins : List ℚ)
    (h : openGridSizing fuel s lastPrice totalBase totalQuote err pins = some (Except.ok s2)) :
    s2.grid = s.grid := by
  unfold openGridSizing at h
  split_ifs at h
  · cases h
  · cases h
  · cases h
    rfl
  · simp only [Option.map_eq_some'] at h
    obtain ⟨q, -, hq⟩ := h
    cases hq
    rfl
  · cases h
    rfl
  · cases h
    rfl

/-- Whenever `openGrid` returns, with or without an error, the grid reference is set; when it
was nil before, it is the grid `NewGrid` built at line 499. -/
lemma openGrid_grid (fuel : Nat) (env : Session) (s s1 : Strategy) (calls : List Call)
    (e : Option GridError) (hnil : s.grid = none)
    (h : openGrid fuel env s = some (s1, calls, e)) :
    ∃ g, NewGrid fuel s.LowerPrice s.UpperPrice (s.GridNum : ℚ) s.Market.TickSize = some g ∧
      s1.grid = some g := by
  unfold openGrid at h
  rw [hnil] at h
  simp only at h
  cases hg : NewGrid fuel s.LowerPrice s.UpperPrice (s.GridNum : ℚ) s.Market.TickSize with
  | none => rw [hg] at h; simp at h
  | some g =>
    refine ⟨g, rfl, ?_⟩
    rw [hg] at h
    simp only at h
    cases hp : getLastTradePrice env with
    | error cause =>
      rw [hp] at h
      simp only [Option.some.injEq, Prod.mk.injEq] at h
      rw [← h.1]
    | ok lastPrice =>
      rw [hp] at h
      simp only at h
      cases hb : env.BaseBalance with
      | none =>
        rw [hb] at h
        simp only [Option.some.injEq, Prod.mk.injEq] at h
        rw [← h.1]
      | some totalBase =>
        rw [hb] at h
        simp only at h
        cases hq : env.QuoteBalance with
        | none =>
          rw [hq] at h
          simp only [Option.some.injEq, Prod.mk.injEq] at h
          rw [← h.1]
        | some totalQuote =>
          rw [hq] at h
          simp only at h
          cases hsz : openGridSizing fuel { s with grid := some g } lastPrice totalBase
              totalQuote none g.Pins with
          | none => rw [hsz] at h; simp at h
          | some r =>
            rw [hsz] at h
            cases r with
            | error err2 =>
              simp only [Option.some.injEq, Prod.mk.injEq] at h
              rw [← h.1]
            | ok s2 =>
              have hgrid := openGridSizing_grid fuel _ s2 _ _ _ _ _ hsz
              simp only at h
              split_ifs at h <;>
                (simp only [Option.some.injEq, Prod.mk.injEq] at h
                 rw [← h.1, hgrid])



/-- C12: `openGrid` is a no-op when the grid reference is already set.  For every strategy
state with `grid != nil`, `openGrid` returns no error, makes no call at all (no
`SubmitOrders`, no balance or price lookup) and leaves the state unchanged; `closeGrid`
leaves the whole state, so the grid reference, unchanged; and an `openGrid` that follows a
successful `openGrid` and a `closeGrid` makes no call, so it submits no order. -/
theorem C12_openGrid_noop (fuel : Nat) (env : Session) (s : Strategy) :
    (s.grid ≠ none → openGrid fuel env s = some (s, [], none)) ∧
    (closeGrid env s).1 = s ∧
    (∀ s1 calls1, openGrid fuel env s = some (s1, calls1, none) →
      s1.grid ≠ none ∧
      ∀ (envClose envOpen : Session) (fuel2 : Nat),
        (closeGrid envClose s1).1.grid = s1.grid ∧
        openGrid fuel2 envOpen (closeGrid envClose s1).1 =
          some ((closeGrid envClose s1).1, [], none)) := by
  have hnoop : ∀ (f : Nat) (e : Session) (t : Strategy), t.grid ≠ none →
      openGrid f e t = some (t, [], none) := by
    intro f e t ht
    unfold openGrid
    cases hg : t.grid with
    | none => exact absurd hg ht
    | some g => rfl
  refine ⟨hnoop fuel env s, rfl, ?_⟩
  intro s1 calls1 h
  have hs1 : s1.grid ≠ none := by
    cases hg : s.grid with
    | none =>
      obtain ⟨g, -, hg1⟩ := openGrid_grid fuel env s s1 calls1 none hg h
      rw [hg1]; simp
    | some g =>
      have hne : s.grid ≠ none := by rw [hg]; simp
      rw [hnoop fuel env s hne] at h
      simp only [Option.some.injEq, Prod.mk.injEq] at h
      rw [← h.1, hg]; simp
  refine ⟨hs1, fun envClose envOpen fuel2 => ⟨rfl, ?_⟩⟩
  exact hnoop fuel2 envOpen _ hs1

/-- Witness of C12: the example strategy with the grid `90..110` set. -/
theorem C12_openGrid_noop_witness :
    ({ strategyExample with grid := some gridExample } : Strategy).grid ≠ none ∧
    openGrid 0 (sessionExample (some 0) (some 1000) (fun _ _ => none))
        { strategyExample with grid := some gridExample } =
      some ({ strategyExample with grid := some gridExample }, [], none) :=
  have hne : ({ strategyExample with grid := some gridExample } : Strategy).grid ≠ none := by
    simp
  ⟨hne, (C12_openGrid_noop 0 (sessionExample (some 0) (some 1000) (fun _ _ => none))
    { strategyExample with grid := some gridExample }).1 hne⟩

lemma NewGrid_strategyExample :
    NewGrid 6 strategyExample.LowerPrice strategyExample.UpperPrice
      ((strategyExample.GridNum : ℤ) : ℚ) strategyExample.Market.TickSize =
      some gridExample := NewGrid_gridExample_int

lemma openGrid_base_not_found :
    openGrid 6 (sessionExample none (some 1000) (fun _ _ => none)) strategyExample =
      some ({ strategyExample with grid := some gridExample },
        [Call.getLastTradePrice, Call.BalanceBase], some GridError.baseBalanceNotFound) := by
  unfold openGrid
  simp only [show strategyExample.grid = none from rfl, NewGrid_strategyExample]
  simp [getLastTradePrice, sessionExample]

lemma openGrid_quote_not_found :
    openGrid 6 (sessionExample (some 0) none (fun _ _ => none)) strategyExample =
      some ({ strategyExample with grid := some gridExample },
        [Call.getLastTradePrice, Call.BalanceBase, Call.BalanceQuote],
        some GridError.quoteBalanceNotFound) := by
  unfold openGrid
  simp only [show strategyExample.grid = none from rfl, NewGrid_strategyExample]
  simp [getLastTradePrice, sessionExample]

/-- C13, as stated, fails: the example strategy (grid `90..110`, no grid reference yet), with
a session in which the base balance is not found, makes `openGrid` return the error "base
balance not found", and the grid reference is set afterwards, to the grid built at line 499
before the lookups. -/
theorem C13_counterexample :
    strategyExample.grid = none ∧
    openGrid 6 (sessionExample none (some 1000) (fun _ _ => none)) strategyExample =
      some ({ strategyExample with grid := some gridExample },
        [Call.getLastTradePrice, Call.BalanceBase], some GridError.baseBalanceNotFound) ∧
    ({ strategyExample with grid := some gridExample } : Strategy).grid ≠ none :=
  ⟨rfl, openGrid_base_not_found, by simp⟩

/-- C13, amended: a failed open leaves the grid built.  For every state with `grid = nil`,
if `openGrid` returns an error then the grid reference is set afterwards, to the grid that
`NewGrid` built, so that a later `openGrid` call returns immediately: no error, no call, no
change. -/
theorem C13_failed_open_keeps_grid (fuel : Nat) (env : Session) (s s1 : Strategy)
    (calls : List Call) (e : GridError) (hnil : s.grid = none)
    (h : openGrid fuel env s = some (s1, calls, some e)) :
    (∃ g, NewGrid fuel s.LowerPrice s.UpperPrice (s.GridNum : ℚ) s.Market.TickSize = some g ∧
      s1.grid = some g) ∧
    ∀ (fuel2 : Nat) (env2 : Session), openGrid fuel2 env2 s1 = some (s1, [], none) := by
  obtain ⟨g, hg, hg1⟩ := openGrid_grid fuel env s s1 calls (some e) hnil h
  refine ⟨⟨g, hg, hg1⟩, fun fuel2 env2 => ?_⟩
  unfold openGrid
  rw [hg1]

/-- Witness of C13: the example strategy with a session in which the quote balance is not
found; the open fails, the grid `90..110` is set, and the next `openGrid` is a no-op. -/
theorem C13_failed_open_keeps_grid_witness :
    strategyExample.grid = none ∧
    (∃ g, NewGrid 6 strategyExample.LowerPrice strategyExample.UpperPrice
        ((strategyExample.GridNum : ℤ) : ℚ) strategyExample.Market.TickSize = some g ∧
      ({ strategyExample with grid := some gridExample } : Strategy).grid = some g) ∧
    ∀ (fuel2 : Nat) (env2 : Session),
      openGrid fuel2 env2 { strategyExample with grid := some gridExample } =
        some ({ strategyExample with grid := some gridExample }, [], none) :=
  ⟨rfl, C13_failed_open_keeps_grid 6 (sessionExample (some 0) none (fun _ _ => none))
    strategyExample _ _ GridError.quoteBalanceNotFound rfl openGrid_quote_not_found⟩

/-! ## C14, C15, C16: `openGrid` at concrete inputs -/

/-- The pin scan of `openGrid` on the grid `90..110` with last price `100`, quantity `1`, no
base balance and every `SubmitOrders` call succeeding: the four buy orders at `105`, `100`,
`95`, `90` are built, and `SubmitOrders` is called four times, each time with all the orders
built so far. -/
lemma openGridLoop_example (env : Session) (s : Strategy)
    (hq : s.QuantityOrAmount.Quantity = 1) (hsub : ∀ k orders, env.SubmitOrders k orders = none) :
    openGridLoop env s 100 0 [90, 95, 100, 105, 110] 5 ⟨0, 0, 0, [], []⟩ =
      (⟨95, 0, 110 + 105 + 100 + 90,
        [gridOrder SideType.SideTypeBuy 105 1, gridOrder SideType.SideTypeBuy 100 1,
          gridOrder SideType.SideTypeBuy 95 1, gridOrder SideType.SideTypeBuy 90 1],
        [Call.SubmitOrders [gridOrder SideType.SideTypeBuy 105 1],
          Call.SubmitOrders [gridOrder SideType.SideTypeBuy 105 1,
            gridOrder SideType.SideTypeBuy 100 1],
          Call.SubmitOrders [gridOrder SideType.SideTypeBuy 105 1,
            gridOrder SideType.SideTypeBuy 100 1, gridOrder SideType.SideTypeBuy 95 1],
          Call.SubmitOrders [gridOrder SideType.SideTypeBuy 105 1,
            gridOrder SideType.SideTypeBuy 100 1, gridOrder SideType.SideTypeBuy 95 1,
            gridOrder SideType.SideTypeBuy 90 1]]⟩, false) := by
  simp only [openGridLoop, openGridBody, openGridQuantity, hq, hsub]
  norm_num



/-- With `err` nil, the sizing step of `openGrid` never returns from the function: the
feasibility errors are computed and dropped. -/
lemma openGridSizing_no_return (fuel : Nat) (s : Strategy) (lastPrice totalBase totalQuote : ℚ)
    (pins : List ℚ) (e : Option GridError) :
    openGridSizing fuel s lastPrice totalBase totalQuote none pins ≠ some (Except.error e) := by
  unfold openGridSizing
  intro h
  split_ifs at h with h1 h2 h3
  · exact h2.2 rfl
  · exact h3.2 rfl
  · cases h
  · simp only [Option.map_eq_some'] at h
    obtain ⟨q, -, hq⟩ := h
    cases hq
  · cases h
  · cases h

/-- The errors `openGrid` can return: a failed price lookup, a balance that is not found, or
an investment above the balance.  It never returns a balance shortfall of the feasibility
checks nor an error of `SubmitOrders`. -/
lemma openGrid_error_kinds (fuel : Nat) (env : Session) (s s1 : Strategy) (calls : List Call)
    (e : GridError) (h : openGrid fuel env s = some (s1, calls, some e)) :
    (∃ cause, e = GridError.failedLastTradePrice cause) ∨ e = GridError.baseBalanceNotFound ∨
      e = GridError.quoteBalanceNotFound ∨ e = GridError.baseInvestmentTooLarge ∨
      e = GridError.quoteInvestmentTooLarge := by
  unfold openGrid at h
  cases hgr : s.grid with
  | some g => rw [hgr] at h; simp at h
  | none =>
    rw [hgr] at h
    simp only at h
    cases hg : NewGrid fuel s.LowerPrice s.UpperPrice (s.GridNum : ℚ) s.Market.TickSize with
    | none => rw [hg] at h; simp at h
    | some g =>
      rw [hg] at h
      simp only at h
      cases hp : getLastTradePrice env with
      | error cause =>
        rw [hp] at h
        simp only [Option.some.injEq, Prod.mk.injEq] at h
        exact Or.inl ⟨cause, h.2.2.symm⟩
      | ok lastPrice =>
        rw [hp] at h
        simp only at h
        cases hb : env.BaseBalance with
        | none =>
          rw [hb] at h
          simp only [Option.some.injEq, Prod.mk.injEq] at h
          exact Or.inr (Or.inl h.2.2.symm)
        | some totalBase =>
          rw [hb] at h
          simp only at h
          cases hq : env.QuoteBalance with
          | none =>
            rw [hq] at h
            simp only [Option.some.injEq, Prod.mk.injEq] at h
            exact Or.inr (Or.inr (Or.inl h.2.2.symm))
          | some totalQuote =>
            rw [hq] at h
            simp only at h
            cases hsz : openGridSizing fuel { s with grid := some g } lastPrice totalBase
                totalQuote none g.Pins with
            | none => rw [hsz] at h; simp at h
            | some r =>
              rw [hsz] at h
              cases r with
              | error err2 => exact absurd hsz (openGridSizing_no_return _ _ _ _ _ _ _)
              | ok s2 =>
                simp only at h
                split_ifs at h
                · simp only [Option.some.injEq, Prod.mk.injEq] at h
                  exact Or.inr (Or.inr (Or.inr (Or.inl h.2.2.symm)))
                · simp only [Option.some.injEq, Prod.mk.injEq] at h
                  exact Or.inr (Or.inr (Or.inr (Or.inr h.2.2.symm)))
                · simp at h
                · simp at h

/-- The example strategy opened with last price `100`, no base balance and every
`SubmitOrders` call succeeding, whatever the quote balance. -/
lemma openGrid_example (quote : ℚ) :
    openGrid 6 (sessionExample (some 0) (some quote) (fun _ _ => none)) strategyExample =
      some ({ strategyExample with grid := some gridExample },
        [Call.getLastTradePrice, Call.BalanceBase, Call.BalanceQuote,
          Call.SubmitOrders [gridOrder SideType.SideTypeBuy 105 1],
          Call.SubmitOrders [gridOrder SideType.SideTypeBuy 105 1,
            gridOrder SideType.SideTypeBuy 100 1],
          Call.SubmitOrders [gridOrder SideType.SideTypeBuy 105 1,
            gridOrder SideType.SideTypeBuy 100 1, gridOrder SideType.SideTypeBuy 95 1],
          Call.SubmitOrders [gridOrder SideType.SideTypeBuy 105 1,
            gridOrder SideType.SideTypeBuy 100 1, gridOrder SideType.SideTypeBuy 95 1,
            gridOrder SideType.SideTypeBuy 90 1]], none) := by
  have hloop := openGridLoop_example (sessionExample (some 0) (some quote) (fun _ _ => none))
    { strategyExample with grid := some gridExample } rfl (fun _ _ => rfl)
  have hsz : openGridSizing 6 { strategyExample with grid := some gridExample } 100 0 quote
      none gridExample.Pins = some (Except.ok { strategyExample with grid := some gridExample }) := by
    simp [openGridSizing, strategyExample, QuantityOrAmount.IsSet]
  have hpins : gridExample.Pins = [90, 95, 100, 105, 110] := rfl
  unfold openGrid
  simp only [show strategyExample.grid = none from rfl, NewGrid_strategyExample]
  simp only [getLastTradePrice, sessionExample, if_true, hsz]
  simp only [sessionExample] at hloop
  rw [hpins]
  simp only [List.length_cons, List.length_nil, Nat.zero_add, Nat.reduceAdd, hloop]
  simp [strategyExample]



/-- C14 at a failing input: the example strategy (quantity `1`, grid `90..110`, no grid
reference yet) with last price `100`, base balance `0` and quote balance `0`.
`checkRequiredInvestmentByQuantity(0, 0, quantity = 1, lastPrice = 100, pins)` returns the
quote-balance error (`390` quote required), yet `openGrid` returns nil and passes orders to
`SubmitOrders`: line 526 tests `err`, which is nil, instead of `err2`. -/
theorem C14_openGrid_at_failing_input :
    strategyExample.grid = none ∧ 0 < strategyExample.QuantityOrAmount.Quantity ∧
    checkRequiredInvestmentByQuantity 0 0 1 100 [90, 95, 100, 105, 110] =
      (0, 390, some InvestmentError.quoteBalance) ∧
    ∃ s1 calls,
      openGrid 6 (sessionExample (some 0) (some 0) (fun _ _ => none)) strategyExample =
        some (s1, calls, none) ∧
      s1.grid = some gridExample ∧
      Call.SubmitOrders [gridOrder SideType.SideTypeBuy 105 1] ∈ calls ∧
      (submittedOrders calls).length = 10 := by
  refine ⟨rfl, by norm_num [strategyExample], ?_, _, _, openGrid_example 0, rfl, by simp, ?_⟩
  · norm_num [checkRequiredInvestmentByQuantity, checkQuantityLoop, checkQuantityBody,
      investmentResult]
  · simp [submittedOrders]

/-- C15 at a failing input: the example strategy with last price `100`, base balance `0`,
quote balance `1000`, and a `SubmitOrders` that fails with the error of code `7`.  `openGrid`
stops the scan after the first `SubmitOrders` call, but it returns nil: line 634 returns
`err`, which is nil, instead of `err2`. -/
theorem C15_openGrid_at_failing_input :
    strategyExample.grid = none ∧
    (sessionExample (some 0) (some 1000) (fun _ _ => some 7)).SubmitOrders 0
      [gridOrder SideType.SideTypeBuy 105 1] = some 7 ∧
    openGrid 6 (sessionExample (some 0) (some 1000) (fun _ _ => some 7)) strategyExample =
      some ({ strategyExample with grid := some gridExample },
        [Call.getLastTradePrice, Call.BalanceBase, Call.BalanceQuote,
          Call.SubmitOrders [gridOrder SideType.SideTypeBuy 105 1]], none) := by
  refine ⟨rfl, rfl, ?_⟩
  have hloop : openGridLoop (sessionExample (some 0) (some 1000) (fun _ _ => some 7))
      { strategyExample with grid := some gridExample } 100 0 [90, 95, 100, 105, 110] 5
      ⟨0, 0, 0, [], []⟩ =
      (⟨105, 0, 110, [gridOrder SideType.SideTypeBuy 105 1],
        [Call.SubmitOrders [gridOrder SideType.SideTypeBuy 105 1]]⟩, true) := by
    simp only [openGridLoop, openGridBody, openGridQuantity, sessionExample, strategyExample]
    norm_num
  have hsz : openGridSizing 6 { strategyExample with grid := some gridExample } 100 0 1000
      none gridExample.Pins = some (Except.ok { strategyExample with grid := some gridExample }) := by
    simp [openGridSizing, strategyExample, QuantityOrAmount.IsSet]
  have hpins : gridExample.Pins = [90, 95, 100, 105, 110] := rfl
  unfold openGrid
  simp only [show strategyExample.grid = none from rfl, NewGrid_strategyExample]
  simp only [getLastTradePrice, sessionExample, if_true, hsz]
  simp only [sessionExample] at hloop
  rw [hpins]
  simp only [List.length_cons, List.length_nil, Nat.zero_add, Nat.reduceAdd, hloop]
  simp [strategyExample]

/-- C16 at a failing input: the example strategy with last price `100`, base balance `0`,
quote balance `1000` and every lookup and submission succeeding.  The scan classifies four
legs (buys at `105`, `100`, `95`, `90`), but `SubmitOrders` is called inside the loop with
the whole `submitOrders` slice each time: four calls with `1`, `2`, `3` and `4` orders, ten
orders in all, the buy at `105` four times. -/
theorem C16_openGrid_at_failing_input :
    ∃ s1 calls,
      openGrid 6 (sessionExample (some 0) (some 1000) (fun _ _ => none)) strategyExample =
        some (s1, calls, none) ∧
      calls.getLast? = some (Call.SubmitOrders
        [gridOrder SideType.SideTypeBuy 105 1, gridOrder SideType.SideTypeBuy 100 1,
          gridOrder SideType.SideTypeBuy 95 1, gridOrder SideType.SideTypeBuy 90 1]) ∧
      (submittedOrders calls).length = 10 ∧
      (submittedOrders calls).count (gridOrder SideType.SideTypeBuy 105 1) = 4 ∧
      ¬ (submittedOrders calls).Nodup ∧
      ¬ ((submittedOrders calls).map SubmitOrder.Price).Nodup := by
  refine ⟨_, _, openGrid_example 1000, by simp, by simp [submittedOrders], ?_, ?_, ?_⟩
  · simp [submittedOrders, gridOrder, List.count_cons]
  · simp [submittedOrders, gridOrder]
  · simp [submittedOrders, gridOrder]

/-! ## C17, C18: the replacement order of `handleOrderFilled` -/

/-- The scan for the next lower pin finds nothing exactly when no pin is below the price,
and otherwise the highest pin below the price. -/
lemma NextLowerPin_spec (g : Grid) (price : ℚ) :
    (g.NextLowerPin price = none → ∀ p ∈ g.Pins, ¬ p < price) ∧
    (∀ q, g.NextLowerPin price = some q →
      q ∈ g.Pins ∧ q < price ∧ ∀ p ∈ g.Pins, p < price → p ≤ q) := by
  unfold Grid.NextLowerPin
  generalize g.Pins = l
  induction l using List.reverseRecOn with
  | nil => simp
  | append_singleton l a ih =>
    obtain ⟨ih1, ih2⟩ := ih
    rw [List.foldl_append, List.foldl_cons, List.foldl_nil]
    generalize List.foldl _ none l = r at ih1 ih2 ⊢
    by_cases ha : a < price
    · rw [if_pos ha]
      cases r with
      | none =>
        refine ⟨by simp, ?_⟩
        intro q hq
        simp only [Option.some.injEq] at hq
        subst hq
        refine ⟨by simp, ha, ?_⟩
        intro p hp hlt
        rcases List.mem_append.mp hp with h | h
        · exact absurd hlt (ih1 rfl p h)
        · rw [List.mem_singleton.mp h]
      | some b =>
        obtain ⟨hb1, hb2, hb3⟩ := ih2 b rfl
        simp only
        by_cases hba : b < a
        · rw [if_pos hba]
          refine ⟨by simp, ?_⟩
          intro q hq
          simp only [Option.some.injEq] at hq
          subst hq
          refine ⟨by simp, ha, ?_⟩
          intro p hp hlt
          rcases List.mem_append.mp hp with h | h
          · exact (hb3 p h hlt).trans hba.le
          · rw [List.mem_singleton.mp h]
        · rw [if_neg hba]
          refine ⟨by simp, ?_⟩
          intro q hq
          simp only [Option.some.injEq] at hq
          subst hq
          refine ⟨List.mem_append_left _ hb1, hb2, ?_⟩
          intro p hp hlt
          rcases List.mem_append.mp hp with h | h
          · exact hb3 p h hlt
          · rw [List.mem_singleton.mp h]; exact not_lt.mp hba
    · rw [if_neg ha]
      refine ⟨?_, ?_⟩
      · intro hnone p hp
        rcases List.mem_append.mp hp with h | h
        · exact ih1 hnone p h
        · rw [List.mem_singleton.mp h]; exact ha
      · intro q hq
        obtain ⟨h1, h2, h3⟩ := ih2 q hq
        refine ⟨List.mem_append_left _ h1, h2, ?_⟩
        intro p hp hlt
        rcases List.mem_append.mp hp with h | h
        · exact h3 p h hlt
        · rw [List.mem_singleton.mp h] at hlt; exact absurd hlt ha

/-- The scan for the next higher pin finds nothing exactly when no pin is above the price,
and otherwise the lowest pin above the price. -/
lemma NextHigherPin_spec (g : Grid) (price : ℚ) :
    (g.NextHigherPin price = none → ∀ p ∈ g.Pins, ¬ price < p) ∧
    (∀ q, g.NextHigherPin price = some q →
      q ∈ g.Pins ∧ price < q ∧ ∀ p ∈ g.Pins, price < p → q ≤ p) := by
  unfold Grid.NextHigherPin
  generalize g.Pins = l
  induction l using List.reverseRecOn with
  | nil => simp
  | append_singleton l a ih =>
    obtain ⟨ih1, ih2⟩ := ih
    rw [List.foldl_append, List.foldl_cons, List.foldl_nil]
    generalize List.foldl _ none l = r at ih1 ih2 ⊢
    by_cases ha : price < a
    · rw [if_pos ha]
      cases r with
      | none =>
        refine ⟨by simp, ?_⟩
        intro q hq
        simp only [Option.some.injEq] at hq
        subst hq
        refine ⟨by simp, ha, ?_⟩
        intro p hp hlt
        rcases List.mem_append.mp hp with h | h
        · exact absurd hlt (ih1 rfl p h)
        · rw [List.mem_singleton.mp h]
      | some b =>
        obtain ⟨hb1, hb2, hb3⟩ := ih2 b rfl
        simp only
        by_cases hba : a < b
        · rw [if_pos hba]
          refine ⟨by simp, ?_⟩
          intro q hq
          simp only [Option.some.injEq] at hq
          subst hq
          refine ⟨by simp, ha, ?_⟩
          intro p hp hlt
          rcases List.mem_append.mp hp with h | h
          · exact hba.le.trans (hb3 p h hlt)
          · rw [List.mem_singleton.mp h]
        · rw [if_neg hba]
          refine ⟨by simp, ?_⟩
          intro q hq
          simp only [Option.some.injEq] at hq
          subst hq
          refine ⟨List.mem_append_left _ hb1, hb2, ?_⟩
          intro p hp hlt
          rcases List.mem_append.mp hp with h | h
          · exact hb3 p h hlt
          · rw [List.mem_singleton.mp h]; exact not_lt.mp hba
    · rw [if_neg ha]
      refine ⟨?_, ?_⟩
      · intro hnone p hp
        rcases List.mem_append.mp hp with h | h
        · exact ih1 hnone p h
        · rw [List.mem_singleton.mp h]; exact ha
      · intro q hq
        obtain ⟨h1, h2, h3⟩ := ih2 q hq
        refine ⟨List.mem_append_left _ h1, h2, ?_⟩
        intro p hp hlt
        rcases List.mem_append.mp hp with h | h
        · exact h3 p h hlt
        · rw [List.mem_singleton.mp h] at hlt; exact absurd hlt ha



lemma newOrderForm_sell (s : Strategy) (g : Grid) (o : Order) (hg : s.grid = some g)
    (hside : o.Side = SideType.SideTypeSell) :
    newOrderForm s o = some
      { Type_ := OrderType.OrderTypeLimit
        Side := SideType.SideTypeBuy
        Price := if s.ProfitSpread ≠ 0 then o.Price - s.ProfitSpread
          else (g.NextLowerPin o.Price).getD o.Price
        Quantity :=
          if s.Compound || s.EarnBase then
            o.Quantity * o.Price /
              (if s.ProfitSpread ≠ 0 then o.Price - s.ProfitSpread
                else (g.NextLowerPin o.Price).getD o.Price)
          else o.Quantity
        TimeInForce := TimeInForce.TimeInForceGTC } := by
  unfold newOrderForm
  rw [hside]
  by_cases hps : s.ProfitSpread = 0
  · simp only [hps, ne_eq, not_true_eq_false, if_false, hg, Option.map_some']
    cases g.NextLowerPin o.Price <;> rfl
  · simp only [ne_eq, hps, not_false_eq_true, if_true, Option.map_some']

lemma newOrderForm_buy (s : Strategy) (g : Grid) (o : Order) (hg : s.grid = some g)
    (hside : o.Side = SideType.SideTypeBuy) :
    newOrderForm s o = some
      { Type_ := OrderType.OrderTypeLimit
        Side := SideType.SideTypeSell
        Price := if s.ProfitSpread ≠ 0 then o.Price + s.ProfitSpread
          else (g.NextHigherPin o.Price).getD o.Price
        Quantity :=
          if s.EarnBase then
            o.Quantity * o.Price /
              (if s.ProfitSpread ≠ 0 then o.Price + s.ProfitSpread
                else (g.NextHigherPin o.Price).getD o.Price)
          else o.Quantity
        TimeInForce := TimeInForce.TimeInForceGTC } := by
  unfold newOrderForm
  rw [hside]
  by_cases hps : s.ProfitSpread = 0
  · simp only [hps, ne_eq, not_true_eq_false, if_false, hg, Option.map_some']
    cases g.NextHigherPin o.Price <;> rfl
  · simp only [ne_eq, hps, not_false_eq_true, if_true, Option.map_some']

lemma newOrderForm_self (s : Strategy) (o : Order) (hside : o.Side = SideType.SideTypeSelf) :
    newOrderForm s o = some
      { Type_ := OrderType.OrderTypeLimit
        Side := SideType.SideTypeSell
        Price := o.Price
        Quantity := o.Quantity
        TimeInForce := TimeInForce.TimeInForceGTC } := by
  unfold newOrderForm
  rw [hside]

/-- C17, as stated, fails when no pin lies strictly below the fill price: on the grid
`90..110` with no profit spread, a filled SELL at `90` gives a BUY at `90`, the fill price
itself (`NextLowerPin` finds nothing and `newPrice` keeps its initial value), which is not a
pin strictly below `90`. -/
theorem C17_counterexample :
    ({ strategyExample with grid := some gridExample } : Strategy).ProfitSpread = 0 ∧
    (∀ p ∈ gridExample.Pins, ¬ p < (90 : ℚ)) ∧
    handleOrderFilled (sessionExample none none (fun _ _ => none))
        { strategyExample with grid := some gridExample }
        { Side := SideType.SideTypeSell, Price := 90, Quantity := 1 } =
      some ({ strategyExample with grid := some gridExample },
        [Call.SubmitOrders [gridOrder SideType.SideTypeBuy 90 1]]) ∧
    ¬ ((gridOrder SideType.SideTypeBuy 90 1).Price < (90 : ℚ)) := by
  refine ⟨rfl, ?_, ?_, by norm_num [gridOrder]⟩
  · intro p hp
    simp only [gridExample, List.mem_cons, List.mem_singleton, List.not_mem_nil,
      or_false] at hp
    rcases hp with h | h | h | h | h <;> rw [h] <;> norm_num
  · norm_num [handleOrderFilled, newOrderForm, strategyExample, Grid.NextLowerPin,
      gridExample, gridOrder]

/-- C17, amended: `handleOrderFilled` replaces a fill by one order on the opposite side.
For every state whose grid is set and every filled order `o`, it makes exactly one
`SubmitOrders` call with exactly one limit GTC order and leaves the state unchanged; a
filled SELL gives a BUY at `o.Price - profitSpread` when `profitSpread != 0`, otherwise at
the nearest pin strictly below `o.Price` when there is one and at `o.Price` itself when
there is none; a filled BUY gives a SELL at `o.Price + profitSpread` when
`profitSpread != 0`, otherwise at the nearest pin strictly above `o.Price` when there is one
and at `o.Price` itself when there is none; the answer of `SubmitOrders` is not read, so its
error is swallowed. -/
theorem C17_handleOrderFilled (env : Session) (s : Strategy) (g : Grid) (o : Order)
    (hg : s.grid = some g) :
    ∃ order, handleOrderFilled env s o = some (s, [Call.SubmitOrders [order]]) ∧
      order.Type_ = OrderType.OrderTypeLimit ∧
      order.TimeInForce = TimeInForce.TimeInForceGTC ∧
      (o.Side = SideType.SideTypeSell →
        order.Side = SideType.SideTypeBuy ∧
        (s.ProfitSpread ≠ 0 → order.Price = o.Price - s.ProfitSpread) ∧
        (s.ProfitSpread = 0 →
          ((∃ p ∈ g.Pins, p < o.Price) →
            order.Price ∈ g.Pins ∧ order.Price < o.Price ∧
              ∀ p ∈ g.Pins, p < o.Price → p ≤ order.Price) ∧
          ((∀ p ∈ g.Pins, ¬ p < o.Price) → order.Price = o.Price))) ∧
      (o.Side = SideType.SideTypeBuy →
        order.Side = SideType.SideTypeSell ∧
        (s.ProfitSpread ≠ 0 → order.Price = o.Price + s.ProfitSpread) ∧
        (s.ProfitSpread = 0 →
          ((∃ p ∈ g.Pins, o.Price < p) →
            order.Price ∈ g.Pins ∧ o.Price < order.Price ∧
              ∀ p ∈ g.Pins, o.Price < p → order.Price ≤ p) ∧
          ((∀ p ∈ g.Pins, ¬ o.Price < p) → order.Price = o.Price))) ∧
      (∀ env2 : Session, handleOrderFilled env2 s o = handleOrderFilled env s o) := by
  obtain ⟨hl1, hl2⟩ := NextLowerPin_spec g o.Price
  obtain ⟨hh1, hh2⟩ := NextHigherPin_spec g o.Price
  have hswallow : ∀ env2 : Session, handleOrderFilled env2 s o = handleOrderFilled env s o :=
    fun _ => rfl
  rcases hside : o.Side with _ | _ | _
  · -- a filled BUY
    have hform := newOrderForm_buy s g o hg hside
    refine ⟨_, by unfold handleOrderFilled; rw [hform]; rfl, rfl, rfl, ?_, ?_, hswallow⟩
    · intro h; cases h
    · intro _
      refine ⟨rfl, fun hps => if_pos hps, fun hps => ?_⟩
      have hprice : (if s.ProfitSpread ≠ 0 then o.Price + s.ProfitSpread
          else (g.NextHigherPin o.Price).getD o.Price) =
          (g.NextHigherPin o.Price).getD o.Price := if_neg (fun h => h hps)
      show (_ → (if s.ProfitSpread ≠ 0 then o.Price + s.ProfitSpread
          else (g.NextHigherPin o.Price).getD o.Price) ∈ g.Pins ∧ _) ∧ _
      rw [hprice]
      cases hn : g.NextHigherPin o.Price with
      | none =>
        exact ⟨fun ⟨p, hp, hlt⟩ => absurd hlt (hh1 hn p hp), fun _ => rfl⟩
      | some q =>
        obtain ⟨h1, h2, h3⟩ := hh2 q hn
        exact ⟨fun _ => ⟨h1, h2, h3⟩, fun hall => absurd h2 (hall q h1)⟩
  · -- a filled SELL
    have hform := newOrderForm_sell s g o hg hside
    refine ⟨_, by unfold handleOrderFilled; rw [hform]; rfl, rfl, rfl, ?_, ?_, hswallow⟩
    · intro _
      refine ⟨rfl, fun hps => if_pos hps, fun hps => ?_⟩
      have hprice : (if s.ProfitSpread ≠ 0 then o.Price - s.ProfitSpread
          else (g.NextLowerPin o.Price).getD o.Price) =
          (g.NextLowerPin o.Price).getD o.Price := if_neg (fun h => h hps)
      show (_ → (if s.ProfitSpread ≠ 0 then o.Price - s.ProfitSpread
          else (g.NextLowerPin o.Price).getD o.Price) ∈ g.Pins ∧ _) ∧ _
      rw [hprice]
      cases hn : g.NextLowerPin o.Price with
      | none =>
        exact ⟨fun ⟨p, hp, hlt⟩ => absurd hlt (hl1 hn p hp), fun _ => rfl⟩
      | some q =>
        obtain ⟨h1, h2, h3⟩ := hl2 q hn
        exact ⟨fun _ => ⟨h1, h2, h3⟩, fun hall => absurd h2 (hall q h1)⟩
    · intro h; cases h
  · -- any other side
    have hform := newOrderForm_self s o hside
    refine ⟨_, by unfold handleOrderFilled; rw [hform]; rfl, rfl, rfl, ?_, ?_, hswallow⟩
    · intro h; cases h
    · intro h; cases h

/-- Witness of C17: grid pins `[90, 95, 100, 105, 110]`, `profitSpread = 0`, a filled SELL at
`105` gives one BUY at `100`. -/
theorem C17_handleOrderFilled_witness :
    ∃ order,
      handleOrderFilled (sessionExample none none (fun _ _ => none))
          { strategyExample with grid := some gridExample }
          { Side := SideType.SideTypeSell, Price := 105, Quantity := 1 } =
        some ({ strategyExample with grid := some gridExample },
          [Call.SubmitOrders [order]]) ∧
      order.Side = SideType.SideTypeBuy ∧ order.Price = 100 := by
  obtain ⟨order, h, -, -, hsell, -, -⟩ :=
    C17_handleOrderFilled (sessionExample none none (fun _ _ => none))
      { strategyExample with grid := some gridExample } gridExample
      { Side := SideType.SideTypeSell, Price := 105, Quantity := 1 } rfl
  obtain ⟨hside, -, hpin⟩ := hsell rfl
  obtain ⟨hmem, hlt, hmax⟩ := (hpin rfl).1 ⟨100, by simp [gridExample], by norm_num⟩
  refine ⟨order, h, hside, ?_⟩
  have h100 : (100 : ℚ) ≤ order.Price := hmax 100 (by simp [gridExample]) (by norm_num)
  simp only [gridExample, List.mem_cons, List.mem_singleton, List.not_mem_nil,
    or_false] at hmem
  rcases hmem with h | h | h | h | h
  · rw [h] at h100; norm_num at h100
  · rw [h] at h100; norm_num at h100
  · exact h
  · rw [h] at hlt; norm_num at hlt
  · rw [h] at hlt; norm_num at hlt



/-- The quantity of the order form, in terms of its price. -/
lemma newOrderForm_quantity (s : Strategy) (o : Order) (order : SubmitOrder)
    (h : newOrderForm s o = some order) :
    (o.Side = SideType.SideTypeSell →
      order.Quantity =
        if s.Compound || s.EarnBase then o.Quantity * o.Price / order.Price else o.Quantity) ∧
    (o.Side = SideType.SideTypeBuy →
      order.Quantity =
        if s.EarnBase then o.Quantity * o.Price / order.Price else o.Quantity) := by
  unfold newOrderForm at h
  constructor
  · intro hside
    rw [hside] at h
    simp only [Option.map_eq_some'] at h
    obtain ⟨price, -, rfl⟩ := h
    rfl
  · intro hside
    rw [hside] at h
    simp only [Option.map_eq_some'] at h
    obtain ⟨price, -, rfl⟩ := h
    rfl

/-- C18: quantity of the replacement order of `handleOrderFilled`.  For every filled order
`o` whose replacement order has a price `p != 0`: when a SELL is filled the new quantity is
`o.Quantity` if neither `compound` nor `earnBase` is set and `o.Quantity*o.Price/p` if one
of them is set; when a BUY is filled it is `o.Quantity` if `earnBase` is unset (whatever
`compound`) and `o.Quantity*o.Price/p` if `earnBase` is set; and in the cases with the
quotient the notional is preserved, `newQuantity*p = o.Quantity*o.Price`. -/
theorem C18_replacement_quantity (s : Strategy) (o : Order) (order : SubmitOrder)
    (h : newOrderForm s o = some order) (hp : order.Price ≠ 0) :
    (o.Side = SideType.SideTypeSell →
      (s.Compound = false ∧ s.EarnBase = false → order.Quantity = o.Quantity) ∧
      (s.Compound = true ∨ s.EarnBase = true →
        order.Quantity = o.Quantity * o.Price / order.Price ∧
        order.Quantity * order.Price = o.Quantity * o.Price)) ∧
    (o.Side = SideType.SideTypeBuy →
      (s.EarnBase = false → order.Quantity = o.Quantity) ∧
      (s.EarnBase = true →
        order.Quantity = o.Quantity * o.Price / order.Price ∧
        order.Quantity * order.Price = o.Quantity * o.Price)) := by
  obtain ⟨hsell, hbuy⟩ := newOrderForm_quantity s o order h
  constructor
  · intro hside
    have hq := hsell hside
    constructor
    · rintro ⟨hc, he⟩
      rw [hq]
      simp [hc, he]
    · intro hce
      have hb : (s.Compound || s.EarnBase) = true := by
        rcases hce with h | h <;> simp [h]
      rw [if_pos hb] at hq
      exact ⟨hq, by rw [hq, div_mul_cancel₀ _ hp]⟩
  · intro hside
    have hq := hbuy hside
    constructor
    · intro he
      rw [hq]
      simp [he]
    · intro he
      rw [if_pos he] at hq
      exact ⟨hq, by rw [hq, div_mul_cancel₀ _ hp]⟩

/-- Witness of C18: on the grid `90..110` with `compound` set and no profit spread, a filled
SELL of `2` at `105` gives a BUY at `100` of `2*105/100 = 21/10`, the same notional `210`. -/
theorem C18_replacement_quantity_witness :
    newOrderForm { strategyExample with grid := some gridExample, Compound := true }
        { Side := SideType.SideTypeSell, Price := 105, Quantity := 2 } =
      some (gridOrder SideType.SideTypeBuy 100 (21 / 10)) ∧
    (gridOrder SideType.SideTypeBuy 100 (21 / 10)).Quantity =
      2 * 105 / (gridOrder SideType.SideTypeBuy 100 (21 / 10)).Price ∧
    (gridOrder SideType.SideTypeBuy 100 (21 / 10)).Quantity *
      (gridOrder SideType.SideTypeBuy 100 (21 / 10)).Price = 2 * 105 := by
  have hform : newOrderForm { strategyExample with grid := some gridExample, Compound := true }
      { Side := SideType.SideTypeSell, Price := 105, Quantity := 2 } =
      some (gridOrder SideType.SideTypeBuy 100 (21 / 10)) := by
    norm_num [newOrderForm, strategyExample, Grid.NextLowerPin, gridExample, gridOrder]
  have hthm := (C18_replacement_quantity
    { strategyExample with grid := some gridExample, Compound := true }
    { Side := SideType.SideTypeSell, Price := 105, Quantity := 2 }
    (gridOrder SideType.SideTypeBuy 100 (21 / 10)) hform
    (by norm_num [gridOrder])).1 rfl
  exact ⟨hform, hthm.2 (Or.inl rfl)⟩

/-! ## C19: `handleOrderCanceled` -/

/-- C19: `handleOrderCanceled` closes the grid exactly when configured.  For every cancelled
order and every state: if `closeWhenCancelOrder` is true the handler makes exactly one
`GracefulCancel` call (after the `Sync` checkpoint of `closeGrid`) and no `SubmitOrders`
call; if it is false the handler makes no call at all; in both cases the state is unchanged,
and the handler returns nothing, so that an error of `GracefulCancel` does not escape: the
outcome is the same whatever `GracefulCancel` and `SubmitOrders` answer. -/
theorem C19_handleOrderCanceled (env : Session) (s : Strategy) (o : Order) :
    (s.CloseWhenCancelOrder = true →
      handleOrderCanceled env s o = (s, [Call.Sync, Call.GracefulCancel]) ∧
      (handleOrderCanceled env s o).2.count Call.GracefulCancel = 1 ∧
      submittedOrders (handleOrderCanceled env s o).2 = [] ∧
      ∀ orders, Call.SubmitOrders orders ∉ (handleOrderCanceled env s o).2) ∧
    (s.CloseWhenCancelOrder = false → handleOrderCanceled env s o = (s, [])) ∧
    (handleOrderCanceled env s o).1 = s ∧
    (∀ (cancel : Option Nat) (submit : Nat → List SubmitOrder → Option Nat),
      handleOrderCanceled { env with GracefulCancel := cancel, SubmitOrders := submit } s o =
        handleOrderCanceled env s o) := by
  unfold handleOrderCanceled closeGrid
  refine ⟨?_, ?_, ?_, ?_⟩
  · intro h
    simp [h, submittedOrders]
  · intro h
    simp [h]
  · split_ifs <;> rfl
  · intro cancel submit
    rfl

/-- Witness of C19: the example strategy has `closeWhenCancelOrder` set; a cancelled order
gives one `GracefulCancel`, also when the cancellation fails. -/
theorem C19_handleOrderCanceled_witness :
    strategyExample.CloseWhenCancelOrder = true ∧
    handleOrderCanceled
        { sessionExample none none (fun _ _ => none) with GracefulCancel := some 3 }
        strategyExample { Side := SideType.SideTypeBuy, Price := 95, Quantity := 1 } =
      (strategyExample, [Call.Sync, Call.GracefulCancel]) ∧
    ({ strategyExample with CloseWhenCancelOrder := false } : Strategy).CloseWhenCancelOrder =
      false ∧
    handleOrderCanceled (sessionExample none none (fun _ _ => none))
        { strategyExample with CloseWhenCancelOrder := false }
        { Side := SideType.SideTypeBuy, Price := 95, Quantity := 1 } =
      ({ strategyExample with CloseWhenCancelOrder := false }, []) :=
  ⟨rfl,
   ((C19_handleOrderCanceled
      { sessionExample none none (fun _ _ => none) with GracefulCancel := some 3 }
      strategyExample { Side := SideType.SideTypeBuy, Price := 95, Quantity := 1 }).1 rfl).1,
   rfl,
   (C19_handleOrderCanceled (sessionExample none none (fun _ _ => none))
      { strategyExample with CloseWhenCancelOrder := false }
      { Side := SideType.SideTypeBuy, Price := 95, Quantity := 1 }).2.1 rfl⟩

/-! ## C20: `Validate` and the sizing modes -/

/-- With a base investment set, `Validate` never reaches its two sizing errors: both are
guarded by `BaseInvestment.IsZero()`. -/
lemma Validate_of_baseInvestment (s : Strategy) (hb : s.BaseInvestment ≠ 0)
    (hu : s.UpperPrice ≠ 0) (hl : s.LowerPrice ≠ 0) (hul : s.LowerPrice < s.UpperPrice)
    (hps : s.ProfitSpread = 0) (hn : s.GridNum ≠ 0) : s.Validate = none := by
  unfold Strategy.Validate
  rw [if_neg hu, if_neg hl, if_neg (not_le.mpr hul), if_neg (fun h => h.1 hps), if_neg hn,
    if_neg (fun h => hb h.2.2), if_neg (fun h => hb h.2.2)]

/-- C20 at a failing input: upper price `110`, lower price `90`, four grids, no profit
spread, quantity, amount and quote investment all zero, base investment `1`.  No sizing mode
applies, yet `Validate` returns nil; with the base investment zero as well it returns the
error of `QuantityOrAmount.Validate`. -/
theorem C20_Validate_at_failing_input :
    ({ strategyExample with QuantityOrAmount := ⟨0, 0⟩, BaseInvestment := 1 } :
      Strategy).QuantityOrAmount.Quantity = 0 ∧
    ({ strategyExample with QuantityOrAmount := ⟨0, 0⟩, BaseInvestment := 1 } :
      Strategy).QuantityOrAmount.Amount = 0 ∧
    ({ strategyExample with QuantityOrAmount := ⟨0, 0⟩, BaseInvestment := 1 } :
      Strategy).QuoteInvestment = 0 ∧
    ({ strategyExample with QuantityOrAmount := ⟨0, 0⟩, BaseInvestment := 1 } :
      Strategy).Validate = none ∧
    ({ strategyExample with QuantityOrAmount := ⟨0, 0⟩, BaseInvestment := 0 } :
      Strategy).Validate = some ValidateError.quantityOrAmount := by
  refine ⟨rfl, rfl, rfl, ?_, ?_⟩
  · norm_num [Strategy.Validate, strategyExample]
  · norm_num [Strategy.Validate, strategyExample, QuantityOrAmount.Validate]

/-! ## C21: the scan of `openGrid` against the feasibility check -/

/-- The scan of `openGrid` on the pins `[90, 95, 100, 105, 110]` with last price `100`,
quantity `1` and the base balance `1`: no sell order, the buy orders at `105`, `100`, `95`
and `90`. -/
lemma openGridLoop_tie :
    (openGridLoop (sessionExample (some 1) (some 1000) (fun _ _ => none)) strategyExample 100 1
      [90, 95, 100, 105, 110] 5 ⟨0, 0, 0, [], []⟩).1.submitOrders =
      [gridOrder SideType.SideTypeBuy 105 1, gridOrder SideType.SideTypeBuy 100 1,
        gridOrder SideType.SideTypeBuy 95 1, gridOrder SideType.SideTypeBuy 90 1] := by
  simp only [openGridLoop, openGridBody, openGridQuantity, sessionExample, strategyExample]
  norm_num

/-- The same scan with the base balance `3/2`: the sell order at `110`, the buy orders at
`100`, `95` and `90`. -/
lemma openGridLoop_off_tie :
    (openGridLoop (sessionExample (some (3 / 2)) (some 1000) (fun _ _ => none)) strategyExample
      100 (3 / 2) [90, 95, 100, 105, 110] 5 ⟨0, 0, 0, [], []⟩).1.submitOrders =
      [gridOrder SideType.SideTypeSell 110 1, gridOrder SideType.SideTypeBuy 100 1,
        gridOrder SideType.SideTypeBuy 95 1, gridOrder SideType.SideTypeBuy 90 1] := by
  simp only [openGridLoop, openGridBody, openGridQuantity, sessionExample, strategyExample]
  norm_num

lemma sellLegsQuantity_append_sell (orders : List SubmitOrder) (p q : ℚ) :
    sellLegsQuantity (orders ++ [gridOrder SideType.SideTypeSell p q]) =
      sellLegsQuantity orders + q := by
  simp [sellLegsQuantity, gridOrder, List.filter_append]

lemma sellLegsQuantity_append_buy (orders : List SubmitOrder) (p q : ℚ) :
    sellLegsQuantity (orders ++ [gridOrder SideType.SideTypeBuy p q]) =
      sellLegsQuantity orders := by
  simp [sellLegsQuantity, gridOrder, List.filter_append]

lemma buyLegsNotional_append_sell (orders : List SubmitOrder) (p q : ℚ) :
    buyLegsNotional (orders ++ [gridOrder SideType.SideTypeSell p q]) =
      buyLegsNotional orders := by
  simp [buyLegsNotional, gridOrder, List.filter_append]

lemma buyLegsNotional_append_buy (orders : List SubmitOrder) (p q : ℚ) :
    buyLegsNotional (orders ++ [gridOrder SideType.SideTypeBuy p q]) =
      buyLegsNotional orders + p * q := by
  simp [buyLegsNotional, gridOrder, List.filter_append]

lemma getD_le_of_pairwise (pins : List ℚ) (hasc : pins.Pairwise (fun a b => a < b))
    (i j : Nat) (hij : i ≤ j) (hj : j < pins.length) : pins.getD i 0 ≤ pins.getD j 0 := by
  rcases Nat.eq_or_lt_of_le hij with h | h
  · rw [h]
  · rw [List.getD_eq_getElem pins 0 hj, List.getD_eq_getElem pins 0 (by omega)]
    exact (List.pairwise_iff_getElem.mp hasc i j (by omega) hj h).le

/-- Off the tie the scan of `openGrid` and the scan of the feasibility check go together:
when `(j + 1) * q` is never the base balance, the two tests `usedBase + q < totalBase` and
`requiredBase + q <= baseBalance` agree, and on strictly ascending pins the two skip tests
agree, so the sell legs add up to `requiredBase` and the buy legs to `requiredQuote`. -/
lemma openGridLoop_agrees (env : Session) (s : Strategy) (q lp base : ℚ) (pins : List ℚ)
    (hq : s.QuantityOrAmount.Quantity = q) (hq0 : q ≠ 0)
    (hsub : ∀ k orders, env.SubmitOrders k orders = none)
    (hasc : pins.Pairwise (fun a b => a < b))
    (htie : ∀ j : ℕ, ((j : ℚ) + 1) * q ≠ base) :
    ∀ (i : Nat), i ≤ pins.length → ∀ (stc : ScanState) (sto : OpenGridState),
      sto.usedBase = stc.requiredBase → sto.buyPlacedPrice = stc.buyPlacedPrice →
      sellLegsQuantity sto.submitOrders = stc.requiredBase →
      buyLegsNotional sto.submitOrders = stc.requiredQuote →
      (∃ j : ℕ, stc.requiredBase = (j : ℚ) * q) →
      (stc.buyPlacedPrice = 0 ∨ ∀ i', i' < i → pins.getD i' 0 ≤ stc.buyPlacedPrice) →
      sellLegsQuantity (openGridLoop env s lp base pins i sto).1.submitOrders =
        (checkQuantityLoop base q lp pins i stc).requiredBase ∧
      buyLegsNotional (openGridLoop env s lp base pins i sto).1.submitOrders =
        (checkQuantityLoop base q lp pins i stc).requiredQuote := by
  intro i
  induction i with
  | zero =>
    intro _ stc sto _ _ h3 h4 _ _
    exact ⟨h3, h4⟩
  | succ i ih =>
    intro hi stc sto h1 h2 h3 h4 h5 h6
    obtain ⟨j, hj⟩ := h5
    have hquant : openGridQuantity s.QuantityOrAmount.Quantity s.QuantityOrAmount.Amount
        (pins.getD i 0) = q := by
      unfold openGridQuantity
      rw [hq, if_neg hq0]
    rw [openGridLoop, checkQuantityLoop]
    by_cases hlp : lp ≤ pins.getD i 0
    · by_cases hbase : stc.requiredBase + q ≤ base
      · have hlt : sto.usedBase + q < base := by
          rw [h1]
          refine lt_of_le_of_ne hbase ?_
          rw [hj]
          have := htie j
          intro h
          apply this
          rw [← h]
          ring
        have hb : openGridBody s lp base pins i sto = some { sto with
            submitOrders := sto.submitOrders ++ [gridOrder SideType.SideTypeSell (pins.getD i 0) q]
            usedBase := sto.usedBase + q } := by
          unfold openGridBody
          simp only [hquant, if_pos hlp, if_pos hlt]
        have hc : checkQuantityBody base q lp pins i stc =
            { stc with requiredBase := stc.requiredBase + q } := by
          unfold checkQuantityBody
          simp only [if_pos hlp, if_pos hbase]
        rw [hb, hc]
        simp only [hsub]
        refine ih (by omega) _ _ ?_ h2 ?_ ?_ ⟨j + 1, ?_⟩ ?_
        · show sto.usedBase + q = stc.requiredBase + q
          rw [h1]
        · show sellLegsQuantity (sto.submitOrders ++ _) = stc.requiredBase + q
          rw [sellLegsQuantity_append_sell, h3]
        · show buyLegsNotional (sto.submitOrders ++ _) = stc.requiredQuote
          rw [buyLegsNotional_append_sell, h4]
        · show stc.requiredBase + q = ((j + 1 : ℕ) : ℚ) * q
          rw [hj]; push_cast; ring
        · rcases h6 with h | h
          · exact Or.inl h
          · exact Or.inr fun i' hi' => h i' (by omega)
      · have hnlt : ¬ sto.usedBase + q < base := by
          rw [h1]
          intro h
          exact hbase h.le
        by_cases hi0 : 0 < i
        · have hb : openGridBody s lp base pins i sto = some { sto with
              submitOrders := sto.submitOrders ++
                [gridOrder SideType.SideTypeBuy (pins.getD (i - 1) 0) q]
              usedQuote := sto.usedQuote + q * pins.getD i 0
              buyPlacedPrice := pins.getD (i - 1) 0 } := by
            unfold openGridBody
            simp only [hquant, if_pos hlp, if_neg hnlt, if_pos hi0]
          have hc : checkQuantityBody base q lp pins i stc =
              { stc with
                requiredQuote := stc.requiredQuote + q * pins.getD (i - 1) 0
                buyPlacedPrice := pins.getD (i - 1) 0 } := by
            unfold checkQuantityBody
            simp only [if_pos hlp, if_neg hbase, if_pos hi0]
          rw [hb, hc]
          simp only [hsub]
          refine ih (by omega) _ _ h1 rfl ?_ ?_ ⟨j, hj⟩ ?_
          · show sellLegsQuantity (sto.submitOrders ++ _) = stc.requiredBase
            rw [sellLegsQuantity_append_buy, h3]
          · show buyLegsNotional (sto.submitOrders ++ _) = stc.requiredQuote + _
            rw [buyLegsNotional_append_buy, h4, mul_comm]
          · exact Or.inr fun i' hi' =>
              getD_le_of_pairwise pins hasc i' (i - 1) (by omega) (by omega)
        · have hb : openGridBody s lp base pins i sto = some sto := by
            unfold openGridBody
            simp only [hquant, if_pos hlp, if_neg hnlt, if_neg hi0]
          have hc : checkQuantityBody base q lp pins i stc = stc := by
            unfold checkQuantityBody
            simp only [if_pos hlp, if_neg hbase, if_neg hi0]
          rw [hb, hc]
          simp only [hsub]
          refine ih (by omega) _ _ h1 h2 h3 h4 ⟨j, hj⟩ ?_
          rcases h6 with h | h
          · exact Or.inl h
          · exact Or.inr fun i' hi' => h i' (by omega)
    · by_cases hskip : stc.buyPlacedPrice ≠ 0 ∧ pins.getD i 0 = stc.buyPlacedPrice
      · have hskip' : sto.buyPlacedPrice ≠ 0 ∧ sto.buyPlacedPrice ≤ pins.getD i 0 := by
          rw [h2]
          exact ⟨hskip.1, hskip.2.ge⟩
        have hb : openGridBody s lp base pins i sto = none := by
          unfold openGridBody
          simp only [hquant, if_neg hlp, if_pos hskip']
        have hc : checkQuantityBody base q lp pins i stc = stc := by
          unfold checkQuantityBody
          simp only [if_neg hlp, if_pos hskip]
        rw [hb, hc]
        refine ih (by omega) _ _ h1 h2 h3 h4 ⟨j, hj⟩ ?_
        rcases h6 with h | h
        · exact Or.inl h
        · exact Or.inr fun i' hi' => h i' (by omega)
      · have hskip' : ¬ (sto.buyPlacedPrice ≠ 0 ∧ sto.buyPlacedPrice ≤ pins.getD i 0) := by
          rw [h2]
          rintro ⟨hne, hle⟩
          apply hskip
          refine ⟨hne, ?_⟩
          rcases h6 with h | h
          · exact absurd h hne
          · exact le_antisymm (h i (by omega)) hle
        have hb : openGridBody s lp base pins i sto = some { sto with
            submitOrders := sto.submitOrders ++ [gridOrder SideType.SideTypeBuy (pins.getD i 0) q]
            usedQuote := sto.usedQuote + q * pins.getD i 0 } := by
          unfold openGridBody
          simp only [hquant, if_neg hlp, if_neg hskip']
        have hc : checkQuantityBody base q lp pins i stc =
            { stc with requiredQuote := stc.requiredQuote + q * pins.getD i 0 } := by
          unfold checkQuantityBody
          simp only [if_neg hlp, if_neg hskip]
        rw [hb, hc]
        simp only [hsub]
        refine ih (by omega) _ _ h1 h2 ?_ ?_ ⟨j, hj⟩ ?_
        · show sellLegsQuantity (sto.submitOrders ++ _) = stc.requiredBase
          rw [sellLegsQuantity_append_buy, h3]
        · show buyLegsNotional (sto.submitOrders ++ _) = stc.requiredQuote + _
          rw [buyLegsNotional_append_buy, h4, mul_comm]
        · rcases h6 with h | h
          · exact Or.inl h
          · exact Or.inr fun i' hi' => h i' (by omega)

lemma investmentResult_values (b qb : ℚ) (st : ScanState) :
    (investmentResult b qb st).1 = st.requiredBase ∧
    (investmentResult b qb st).2.1 = st.requiredQuote := by
  unfold investmentResult
  split_ifs <;> exact ⟨rfl, rfl⟩

/-- Off the tie the legs built by the scan of `openGrid` are the legs counted by
`checkRequiredInvestmentByQuantity`: for every quantity `q ≠ 0`, strictly ascending pins and
a base balance that is no positive multiple `(j + 1) * q` of the quantity, with every
`SubmitOrders` call succeeding, the total quantity of the sell orders is `requiredBase` and
the sum of price times quantity over the buy orders is `requiredQuote`. -/
lemma openGridLoop_agrees_check (env : Session) (s : Strategy) (q lp base quote : ℚ)
    (pins : List ℚ) (hq : s.QuantityOrAmount.Quantity = q) (hq0 : q ≠ 0)
    (hsub : ∀ k orders, env.SubmitOrders k orders = none)
    (hasc : pins.Pairwise (fun a b => a < b))
    (htie : ∀ j : ℕ, ((j : ℚ) + 1) * q ≠ base) :
    sellLegsQuantity
        (openGridLoop env s lp base pins pins.length ⟨0, 0, 0, [], []⟩).1.submitOrders =
      (checkRequiredInvestmentByQuantity base quote q lp pins).1 ∧
    buyLegsNotional
        (openGridLoop env s lp base pins pins.length ⟨0, 0, 0, [], []⟩).1.submitOrders =
      (checkRequiredInvestmentByQuantity base quote q lp pins).2.1 := by
  obtain ⟨h1, h2⟩ := investmentResult_values base quote
    (checkQuantityLoop base q lp pins pins.length ⟨0, 0, 0⟩)
  unfold checkRequiredInvestmentByQuantity
  rw [h1, h2]
  exact openGridLoop_agrees env s q lp base pins hq hq0 hsub hasc htie pins.length
    (le_refl _) ⟨0, 0, 0⟩ ⟨0, 0, 0, [], []⟩ rfl rfl (by simp [sellLegsQuantity])
    (by simp [buyLegsNotional]) ⟨0, by simp⟩ (Or.inl rfl)

/-- C21 at a failing input: pins `[90, 95, 100, 105, 110]`, last price `100`, quantity `1`
and the base balance `1 = 1 * 1` (`k = 1`).  The feasibility check counts one sell leg
(`requiredBase = 1`, the pin `110`) and the buy legs at `100`, `95`, `90`
(`requiredQuote = 285`), since it tests `requiredBase + q <= baseBalance`.  The scan of
`openGrid` tests `usedBase + q < totalBase`: it builds no sell order, and the buy orders at
`105`, `100`, `95`, `90` (sell quantity `0`, buy notional `390`).  With the base balance
`3/2` both give the sell leg at `110` and the buy legs at `100`, `95`, `90`. -/
theorem C21_openGrid_scan_at_failing_input :
    ([90, 95, 100, 105, 110] : List ℚ).Pairwise (fun a b => a < b) ∧
    (1 : ℚ) = ((1 : ℕ) : ℚ) * 1 ∧
    checkRequiredInvestmentByQuantity 1 1000 1 100 [90, 95, 100, 105, 110] = (1, 285, none) ∧
    (openGridLoop (sessionExample (some 1) (some 1000) (fun _ _ => none)) strategyExample 100 1
      [90, 95, 100, 105, 110] 5 ⟨0, 0, 0, [], []⟩).1.submitOrders =
      [gridOrder SideType.SideTypeBuy 105 1, gridOrder SideType.SideTypeBuy 100 1,
        gridOrder SideType.SideTypeBuy 95 1, gridOrder SideType.SideTypeBuy 90 1] ∧
    sellLegsQuantity
      (openGridLoop (sessionExample (some 1) (some 1000) (fun _ _ => none)) strategyExample
        100 1 [90, 95, 100, 105, 110] 5 ⟨0, 0, 0, [], []⟩).1.submitOrders = 0 ∧
    buyLegsNotional
      (openGridLoop (sessionExample (some 1) (some 1000) (fun _ _ => none)) strategyExample
        100 1 [90, 95, 100, 105, 110] 5 ⟨0, 0, 0, [], []⟩).1.submitOrders = 390 ∧
    checkRequiredInvestmentByQuantity (3 / 2) 1000 1 100 [90, 95, 100, 105, 110] =
      (1, 285, none) ∧
    sellLegsQuantity
      (openGridLoop (sessionExample (some (3 / 2)) (some 1000) (fun _ _ => none))
        strategyExample 100 (3 / 2) [90, 95, 100, 105, 110] 5
        ⟨0, 0, 0, [], []⟩).1.submitOrders = 1 ∧
    buyLegsNotional
      (openGridLoop (sessionExample (some (3 / 2)) (some 1000) (fun _ _ => none))
        strategyExample 100 (3 / 2) [90, 95, 100, 105, 110] 5
        ⟨0, 0, 0, [], []⟩).1.submitOrders = 285 := by
  refine ⟨by norm_num, by norm_num, ?_, openGridLoop_tie, ?_, ?_, ?_, ?_, ?_⟩
  · norm_num [checkRequiredInvestmentByQuantity, checkQuantityLoop, checkQuantityBody,
      investmentResult]
  · rw [openGridLoop_tie]
    simp [sellLegsQuantity, gridOrder]
  · rw [openGridLoop_tie]
    simp [buyLegsNotional, gridOrder]
    norm_num
  · norm_num [checkRequiredInvestmentByQuantity, checkQuantityLoop, checkQuantityBody,
      investmentResult]
  · rw [openGridLoop_off_tie]
    simp [sellLegsQuantity, gridOrder]
  · rw [openGridLoop_off_tie]
    simp [buyLegsNotional, gridOrder]
    norm_num

/-! ## C22: the base requirement stays within the base balance -/

lemma checkQuantityBody_base_le (b q lp : ℚ) (pins : List ℚ) (i : Nat) (st : ScanState)
    (h : st.requiredBase ≤ b) : (checkQuantityBody b q lp pins i st).requiredBase ≤ b := by
  unfold checkQuantityBody
  simp only
  split_ifs with h1 h2 h3 h4
  · exact h2
  · exact h
  · exact h
  · exact h
  · exact h

lemma checkQuantityLoop_base_le (b q lp : ℚ) (pins : List ℚ) :
    ∀ (k : Nat) (st : ScanState), st.requiredBase ≤ b →
      (checkQuantityLoop b q lp pins k st).requiredBase ≤ b := by
  intro k
  induction k with
  | zero => intro st h; exact h
  | succ k ih =>
    intro st h
    rw [checkQuantityLoop]
    exact ih _ (checkQuantityBody_base_le b q lp pins k st h)

lemma checkAmountBody_base_le (b amount lp : ℚ) (pins : List ℚ) (i : Nat) (st : ScanState)
    (h : st.requiredBase ≤ b) : (checkAmountBody b amount lp pins i st).requiredBase ≤ b := by
  unfold checkAmountBody
  simp only
  split_ifs with h1 h2 h3 h4
  · exact h2
  · exact h
  · exact h
  · exact h
  · exact h

lemma checkAmountLoop_base_le (b amount lp : ℚ) (pins : List ℚ) :
    ∀ (k : Nat) (st : ScanState), st.requiredBase ≤ b →
      (checkAmountLoop b amount lp pins k st).requiredBase ≤ b := by
  intro k
  induction k with
  | zero => intro st h; exact h
  | succ k ih =>
    intro st h
    rw [checkAmountLoop]
    exact ih _ (checkAmountBody_base_le b amount lp pins k st h)

/-- When the base requirement is within the base balance, the final comparisons return the
quote-balance error or nothing. -/
lemma investmentResult_of_base_le (b qb : ℚ) (st : ScanState) (h : st.requiredBase ≤ b) :
    (investmentResult b qb st).1 = st.requiredBase ∧
    (investmentResult b qb st).2.1 = st.requiredQuote ∧
    (investmentResult b qb st).2.2 ≠ some InvestmentError.baseBalance ∧
    (investmentResult b qb st).2.2 ≠ some InvestmentError.bothBalances ∧
    ((investmentResult b qb st).2.2 ≠ none ↔ qb < st.requiredQuote) := by
  have hb : ¬ b < st.requiredBase := not_lt.mpr h
  unfold investmentResult
  by_cases hq : qb < st.requiredQuote <;> simp [hb, hq]

/-- C22: the base requirement computed by the feasibility scan never exceeds the base
balance.  For every `baseBalance ≥ 0` and every quantity (amount), `lastPrice`,
`quoteBalance` and pins, the `requiredBase` returned by `checkRequiredInvestmentByQuantity`
and by `checkRequiredInvestmentByAmount` is `≤ baseBalance`; hence neither the base-balance
error nor the both-balances error is returned, and each function fails if and only if its
`requiredQuote` exceeds `quoteBalance`.  The sign of the quantity plays no part. -/
theorem C22_required_base_within_balance (baseBalance quoteBalance quantity lastPrice : ℚ)
    (pins : List ℚ) (hb : 0 ≤ baseBalance) :
    ((checkRequiredInvestmentByQuantity baseBalance quoteBalance quantity lastPrice pins).1
        ≤ baseBalance ∧
      (checkRequiredInvestmentByQuantity baseBalance quoteBalance quantity lastPrice pins).2.2
        ≠ some InvestmentError.baseBalance ∧
      (checkRequiredInvestmentByQuantity baseBalance quoteBalance quantity lastPrice pins).2.2
        ≠ some InvestmentError.bothBalances ∧
      ((checkRequiredInvestmentByQuantity baseBalance quoteBalance quantity lastPrice pins).2.2
          ≠ none ↔
        quoteBalance <
          (checkRequiredInvestmentByQuantity baseBalance quoteBalance quantity lastPrice
            pins).2.1)) ∧
    ((checkRequiredInvestmentByAmount baseBalance quoteBalance quantity lastPrice pins).1
        ≤ baseBalance ∧
      (checkRequiredInvestmentByAmount baseBalance quoteBalance quantity lastPrice pins).2.2
        ≠ some InvestmentError.baseBalance ∧
      (checkRequiredInvestmentByAmount baseBalance quoteBalance quantity lastPrice pins).2.2
        ≠ some InvestmentError.bothBalances ∧
      ((checkRequiredInvestmentByAmount baseBalance quoteBalance quantity lastPrice pins).2.2
          ≠ none ↔
        quoteBalance <
          (checkRequiredInvestmentByAmount baseBalance quoteBalance quantity lastPrice
            pins).2.1)) := by
  constructor
  · have hle := checkQuantityLoop_base_le baseBalance quantity lastPrice pins pins.length
      ⟨0, 0, 0⟩ hb
    obtain ⟨h1, h2, h3, h4, h5⟩ := investmentResult_of_base_le baseBalance quoteBalance _ hle
    unfold checkRequiredInvestmentByQuantity
    exact ⟨by rw [h1]; exact hle, h3, h4, by rw [h2]; exact h5⟩
  · have hle := checkAmountLoop_base_le baseBalance quantity lastPrice pins pins.length
      ⟨0, 0, 0⟩ hb
    obtain ⟨h1, h2, h3, h4, h5⟩ := investmentResult_of_base_le baseBalance quoteBalance _ hle
    unfold checkRequiredInvestmentByAmount
    exact ⟨by rw [h1]; exact hle, h3, h4, by rw [h2]; exact h5⟩

/-- Witness of C22: base balance `2`, quote balance `100`, quantity `1`, last price `100`,
pins `[90, 95, 100, 105, 110]`: two pins are sold, `requiredBase = 2`, and the check fails
on the quote balance only (`185` required). -/
theorem C22_required_base_within_balance_witness :
    (0 : ℚ) ≤ 2 ∧
    checkRequiredInvestmentByQuantity 2 100 1 100 [90, 95, 100, 105, 110] =
      (2, 185, some InvestmentError.quoteBalance) ∧
    (checkRequiredInvestmentByQuantity 2 100 1 100 [90, 95, 100, 105, 110]).1 ≤ 2 ∧
    (checkRequiredInvestmentByAmount 2 100 1 100 [90, 95, 100, 105, 110]).1 ≤ 2 := by
  have h := C22_required_base_within_balance 2 100 1 100 [90, 95, 100, 105, 110]
    (by norm_num)
  refine ⟨by norm_num, ?_, h.1.1, h.2.1⟩
  norm_num [checkRequiredInvestmentByQuantity, checkQuantityLoop, checkQuantityBody,
    investmentResult]

/-! ## C23: the size and the pin count under extension -/

/-- The bounds of the grid after `ExtendLowerPrice`: the upper price is kept, the lower price
is the argument. -/
lemma ExtendLowerPrice_bounds (g g' : Grid) (newLower : ℚ) (fuel : Nat) (r : List ℚ)
    (h : g.ExtendLowerPrice fuel newLower = some (g', r)) :
    g'.UpperPrice = g.UpperPrice ∧ g'.LowerPrice = newLower := by
  unfold Grid.ExtendLowerPrice at h
  simp only at h
  split at h
  · cases h
  · split_ifs at h
    · cases h
      exact ⟨rfl, rfl⟩
    · simp only [Option.map_eq_some'] at h
      obtain ⟨pins, -, hp⟩ := h
      cases hp
      exact ⟨rfl, rfl⟩

/-- The lower extension keeps the size consistent with the pin count: on a grid of positive
integer size `n` whose pins are `lower + k * spread` (`k = 0..n`), after
`ExtendLowerPrice(newLower)` with `newLower < lower` the number of pins is `Size + 1`; and
`Spread()` is the spread before the call when the added height is a whole multiple of it. -/
lemma ExtendLowerPrice_consistent (g : Grid) (n : Nat) (newLower : ℚ) (fuel : Nat)
    (hsize : g.Size = (n : ℚ)) (hn : 0 < n) (hlu : g.LowerPrice < g.UpperPrice)
    (hpins : g.Pins = (List.range (n + 1)).map
      (fun (k : ℕ) => g.LowerPrice + (k : ℚ) * g.Spread))
    (hlt : newLower < g.LowerPrice)
    (hfuel : ⌊(g.LowerPrice - newLower) / g.Spread⌋.toNat + 1 ≤ fuel) :
    ∃ g' r, g.ExtendLowerPrice fuel newLower = some (g', r) ∧
      (g'.Pins.length : ℚ) = g'.Size + 1 ∧
      ((∃ j : ℕ, g.LowerPrice - newLower = (j : ℚ) * g.Spread) → g'.Spread = g.Spread) := by
  have hnq : (0 : ℚ) < (n : ℚ) := by exact_mod_cast hn
  have hs : 0 < g.Spread := by
    unfold Grid.Spread Grid.Height
    rw [hsize]
    exact div_pos (by linarith) hnq
  have hheight : g.UpperPrice - g.LowerPrice = (n : ℚ) * g.Spread := by
    unfold Grid.Spread Grid.Height
    rw [hsize]
    field_simp
  have hf : g.Pins.head? = some g.LowerPrice := by
    rw [hpins, List.range_succ_eq_map]
    simp
  obtain ⟨g', hext, hsz, hp⟩ := ExtendLowerPrice_eq g newLower g.LowerPrice
    ⌊(g.LowerPrice - newLower) / g.Spread⌋ fuel hf hs rfl hfuel
  obtain ⟨hup, hlow⟩ := ExtendLowerPrice_bounds g g' newLower fuel _ hext
  have hm0 : 0 ≤ ⌊(g.LowerPrice - newLower) / g.Spread⌋ :=
    Int.floor_nonneg.mpr (div_nonneg (by linarith) hs.le)
  have hsplit : (g.UpperPrice - newLower) / g.Spread =
      (g.LowerPrice - newLower) / g.Spread + (n : ℚ) := by
    have : g.UpperPrice - newLower = (g.LowerPrice - newLower) + (n : ℚ) * g.Spread := by
      linarith
    rw [this, add_div, mul_div_assoc, div_self hs.ne', mul_one]
  have hsz' : g'.Size = ((⌊(g.LowerPrice - newLower) / g.Spread⌋ : ℤ) : ℚ) + (n : ℚ) := by
    rw [hsz, hsplit, Int.floor_add_nat]
    push_cast
    rfl
  have hcast : ((⌊(g.LowerPrice - newLower) / g.Spread⌋.toNat : ℕ) : ℚ) =
      ((⌊(g.LowerPrice - newLower) / g.Spread⌋ : ℤ) : ℚ) := by
    have := Int.toNat_of_nonneg hm0
    exact_mod_cast this
  refine ⟨g', _, hext, ?_, ?_⟩
  · rw [hp, hpins, List.length_append, List.length_map, List.length_map, List.length_range,
      List.length_range, hsz']
    push_cast
    rw [hcast]
    ring
  · rintro ⟨j, hj⟩
    have hfl : ((⌊(g.LowerPrice - newLower) / g.Spread⌋ : ℤ) : ℚ) = (j : ℚ) := by
      rw [hj, mul_div_assoc, div_self hs.ne', mul_one]
      have : ⌊((j : ℕ) : ℚ)⌋ = (j : ℤ) := Int.floor_natCast j
      rw [this]
      norm_cast
    have hpos : (0 : ℚ) < (j : ℚ) + (n : ℚ) := by
      have : (0 : ℚ) ≤ (j : ℚ) := Nat.cast_nonneg j
      linarith
    show g'.Height / g'.Size = g.Spread
    unfold Grid.Height
    rw [hup, hlow, hsz', hfl, div_eq_iff hpos.ne']
    have : g.UpperPrice - newLower = (g.LowerPrice - newLower) + (n : ℚ) * g.Spread := by
      linarith
    rw [this, hj]
    ring

/-- C23 at a failing input: on the grid of `NewGrid(90, 110, 4, 1)` (pins `90 + k*5`,
`k = 0..4`, spread `5`), `ExtendUpperPrice(130)` adds the height `20 = 4 * 5`, but the upper
price is assigned before `Spread()` is read: the step is `(130 - 90) / 4 = 10`, the new pins
are `[120, 130]`, the size stays `4` for `7` pins, and `Spread()` is `10` afterwards.  The
lower extension is consistent: `ExtendLowerPrice(80)` adds the pins `[80, 85]`, the size is
`6` for `7` pins, and `Spread()` stays `5`. -/
theorem C23_extension_at_failing_input :
    NewGrid 6 90 110 ((4 : ℕ) : ℚ) 1 = some gridExample ∧
    gridExample.Pins = (List.range (4 + 1)).map (fun (k : ℕ) => 90 + (k : ℚ) * 5) ∧
    gridExample.Spread = 5 ∧ (130 : ℚ) - gridExample.UpperPrice = 4 * gridExample.Spread ∧
    (∃ g', gridExample.ExtendUpperPrice 3 130 = some (g', [120, 130]) ∧
      g'.Pins = [90, 95, 100, 105, 110, 120, 130] ∧ g'.Pins.length = 7 ∧ g'.Size = 4 ∧
      (g'.Pins.length : ℚ) ≠ g'.Size + 1 ∧ g'.Spread = 10 ∧ g'.Spread ≠ gridExample.Spread) ∧
    (∃ g', gridExample.ExtendLowerPrice 3 80 = some (g', [80, 85]) ∧
      g'.Pins = [80, 85, 90, 95, 100, 105, 110] ∧ g'.Size = 6 ∧
      (g'.Pins.length : ℚ) = g'.Size + 1 ∧ g'.Spread = gridExample.Spread) := by
  have hsp : gridExample.Spread = 5 := by norm_num [gridExample, Grid.Spread, Grid.Height]
  refine ⟨NewGrid_gridExample, ?_, hsp, ?_, ?_, ?_⟩
  · norm_num [gridExample, List.range_succ]
  · rw [hsp]; norm_num [gridExample]
  · have h1 : (130 - 90 : ℚ) / ((130 - 90) / 4) = 4 := by norm_num
    have hl : gridExample.Pins.getLast? = some 110 := by simp [gridExample]
    have hloop : extendUpperLoop 130 ((130 - 90) / 4) 3 (110 + (130 - 90) / 4) [] =
        some [120, 130] := by
      norm_num [extendUpperLoop]
    have hext : gridExample.ExtendUpperPrice 3 130 = some
        ({ UpperPrice := 130, LowerPrice := 90, Size := 4,
           Pins := [90, 95, 100, 105, 110, 120, 130],
           pinsCache := buildPinCache [90, 95, 100, 105, 110, 120, 130] }, [120, 130]) := by
      unfold Grid.ExtendUpperPrice
      simp only [hl]
      simp only [gridExample, Grid.Spread, Grid.Height, hloop, Option.map_some', h1,
        Grid.updatePinsCache]
      norm_num
    refine ⟨_, hext, rfl, rfl, rfl, by norm_num, by norm_num [Grid.Spread, Grid.Height], ?_⟩
    rw [hsp]
    norm_num [Grid.Spread, Grid.Height]
  · have h1 : ((110 : ℚ) - 80) / ((110 - 90) / 4) = 6 := by norm_num
    have h2 : ((90 : ℚ) - 80) / ((110 - 90) / 4) = 2 := by norm_num
    have hh : gridExample.Pins.head? = some 90 := by simp [gridExample]
    have hloop : extendLowerLoop 90 5 3 80 [] = some [80, 85] := by
      norm_num [extendLowerLoop]
    have hext : gridExample.ExtendLowerPrice 3 80 = some
        ({ UpperPrice := 110, LowerPrice := 80, Size := 6,
           Pins := [80, 85, 90, 95, 100, 105, 110],
           pinsCache := buildPinCache [80, 85, 90, 95, 100, 105, 110] }, [80, 85]) := by
      unfold Grid.ExtendLowerPrice
      simp only [hh]
      simp only [gridExample, Grid.Spread, Grid.Height, h1, h2, Grid.updatePinsCache]
      norm_num [hloop]
    refine ⟨_, hext, rfl, rfl, by norm_num, ?_⟩
    rw [hsp]
    norm_num [Grid.Spread, Grid.Height]

/-! ## C24: the divisors of the sizing functions -/

/-- The reduction loop, entered with `n ≥ 1` assumed sell orders and the quantity
`baseInvestment / n`, divides at most `n - 1` times more, each time by an integer `≥ 1`. -/
lemma reduceSellOrdersDivisors_bound (minQuantity minBase bi : ℚ)
    (hmin : minQuantity ≤ minBase) (hbi : minBase < bi) :
    ∀ (n steps : Nat), 1 ≤ n →
      (reduceSellOrdersDivisors minQuantity minBase bi steps (n : ℤ) (bi / (n : ℚ))).length + 1
          ≤ n ∧
      ∀ d ∈ reduceSellOrdersDivisors minQuantity minBase bi steps (n : ℤ) (bi / (n : ℚ)),
        (1 : ℤ) ≤ d := by
  intro n
  induction n with
  | zero => intro steps h; omega
  | succ n ih =>
    intro steps _
    cases steps with
    | zero =>
      rw [reduceSellOrdersDivisors]
      exact ⟨by simp, fun d hd => absurd hd (List.not_mem_nil d)⟩
    | succ steps =>
      rw [reduceSellOrdersDivisors]
      split_ifs with hcond
      · have hn : 1 ≤ n := by
          by_contra h0
          have h00 : n = 0 := by omega
          subst h00
          have hmq : bi ≤ minBase := by
            rcases hcond with h | h
            · have h1 : bi ≤ minQuantity := by simpa using h
              exact h1.trans hmin
            · simpa using h
          linarith
        have hcast : (((n + 1 : ℕ) : ℤ) - 1) = (n : ℤ) := by push_cast; ring
        rw [hcast, Int.cast_natCast]
        obtain ⟨h1, h2⟩ := ih steps hn
        refine ⟨by rw [List.length_cons]; omega, ?_⟩
        intro d hd
        rcases List.mem_cons.mp hd with h | h
        · rw [h]; exact_mod_cast hn
        · exact h2 d h
      · exact ⟨by simp, fun d hd => absurd hd (List.not_mem_nil d)⟩

/-- On pins from low to high the counting loop, which stops at the first pin below the last
price, counts all pins at or above the last price. -/
lemma countSellOrdersLoop_eq_of_sorted (lp : ℚ) :
    ∀ (l : List ℚ), l.Pairwise (fun a b => a ≤ b) → ∀ c : Nat,
      countSellOrdersLoop lp l l.length c =
        c + (l.filter (fun p => decide (lp ≤ p))).length := by
  intro l
  induction l using List.reverseRecOn with
  | nil => intro _ c; simp [countSellOrdersLoop]
  | append_singleton l a ih =>
    intro hasc c
    have hascl : l.Pairwise (fun a b => a ≤ b) := (List.pairwise_append.mp hasc).1
    have hle : ∀ x ∈ l, x ≤ a := fun x hx =>
      (List.pairwise_append.mp hasc).2.2 x hx a (List.mem_singleton_self a)
    rw [List.length_append, List.length_singleton, countSellOrdersLoop, getD_snoc_length,
      List.filter_append]
    by_cases ha : a < lp
    · have hnil : l.filter (fun p => decide (lp ≤ p)) = [] := by
        rw [List.filter_eq_nil_iff]
        intro x hx
        simpa using lt_of_le_of_lt (hle x hx) ha
      rw [if_pos ha, hnil]
      simp [List.filter_cons, ha]
    · rw [if_neg ha, countSellOrdersLoop_snoc lp l a l.length _ (le_refl _), ih hascl]
      push_neg at ha
      simp [List.filter_cons, ha]
      omega

/-- C24: the sell-count reduction loop of `calculateQuoteBaseInvestmentQuantity` stops
without dividing by zero.  For every pins (from low to high, as the grid keeps them) with
`count ≥ 1` pins at or above `lastPrice`, every `lastPrice > 0` and every
`baseInvestment > max(minQuantity, minNotional/lastPrice) ≥ 0`: the counting loop of lines
401-409 counts `count`; the reduction loop stops (any fuel of at least `count + 1` loop tests
suffices) after at most `count` iterations with an assumed sell-leg count `n`,
`1 ≤ n ≤ count`, and the quantity `baseInvestment / n`, so that the function returns; and
every divisor it uses is an integer `≥ 1`.  And the divisor of
`calculateQuoteInvestmentQuantity`, the sum of the buy-leg prices, is `> 0` whenever pins
holds at least two strictly ascending positive prices. -/
theorem C24_sizing_divisors (pins : List ℚ) (market : Market)
    (quoteInvestment baseInvestment lastPrice : ℚ) (fuel : Nat)
    (hsorted : pins.Pairwise (fun a b => a ≤ b))
    (hcount : 1 ≤ (pins.filter (fun p => decide (lastPrice ≤ p))).length)
    (hlp : 0 < lastPrice)
    (hm : 0 ≤ max market.MinQuantity (market.MinNotional / lastPrice))
    (hbi : max market.MinQuantity (market.MinNotional / lastPrice) < baseInvestment)
    (hfuel : (pins.filter (fun p => decide (lastPrice ≤ p))).length + 1 ≤ fuel) :
    countSellOrdersLoop lastPrice pins pins.length 0 =
      (pins.filter (fun p => decide (lastPrice ≤ p))).length ∧
    (∃ n : Nat, 1 ≤ n ∧ n ≤ (pins.filter (fun p => decide (lastPrice ≤ p))).length ∧
      reduceSellOrdersLoop market.MinQuantity
          (max (market.MinNotional / lastPrice) market.MinQuantity) baseInvestment fuel
          (((countSellOrdersLoop lastPrice pins pins.length 0 : ℕ) : ℤ) + 1) 0 =
        some ((n : ℤ), baseInvestment / (n : ℚ))) ∧
    (calculateQuoteBaseInvestmentQuantity fuel market quoteInvestment baseInvestment
        lastPrice pins).isSome = true ∧
    (∀ steps : Nat,
      (reduceSellOrdersDivisors market.MinQuantity
          (max (market.MinNotional / lastPrice) market.MinQuantity) baseInvestment steps
          (((countSellOrdersLoop lastPrice pins pins.length 0 : ℕ) : ℤ) + 1) 0).length
        ≤ (pins.filter (fun p => decide (lastPrice ≤ p))).length ∧
      ∀ d ∈ reduceSellOrdersDivisors market.MinQuantity
          (max (market.MinNotional / lastPrice) market.MinQuantity) baseInvestment steps
          (((countSellOrdersLoop lastPrice pins pins.length 0 : ℕ) : ℤ) + 1) 0,
        (1 : ℤ) ≤ d) ∧
    (pins.Pairwise (fun a b => a < b) → (∀ p ∈ pins, 0 < p) → 2 ≤ pins.length →
      0 < (quoteInvestmentLoop lastPrice pins pins.length ⟨0, 0⟩).totalQuotePrice ∧
      (quoteInvestmentLoop lastPrice pins pins.length ⟨0, 0⟩).totalQuotePrice =
        (buyLegPrices lastPrice pins).sum ∧
      calculateQuoteInvestmentQuantity quoteInvestment lastPrice pins =
        quoteInvestment / (buyLegPrices lastPrice pins).sum) := by
  have _hdiv : lastPrice ≠ 0 := hlp.ne'
  rw [max_comm] at hm hbi
  have hc : countSellOrdersLoop lastPrice pins pins.length 0 =
      (pins.filter (fun p => decide (lastPrice ≤ p))).length := by
    rw [countSellOrdersLoop_eq_of_sorted lastPrice pins hsorted 0, Nat.zero_add]
  rw [hc]
  generalize (pins.filter (fun p => decide (lastPrice ≤ p))).length = count at hcount hfuel hc ⊢
  obtain ⟨f, rfl⟩ : ∃ f, fuel = f + 1 := ⟨fuel - 1, by omega⟩
  obtain ⟨k, hk1, hk2, -, -, hk5⟩ :=
    reduceSellOrdersLoop_eq market.MinQuantity
      (max (market.MinNotional / lastPrice) market.MinQuantity) baseInvestment
      (le_max_right _ _) hbi count f hcount (by omega)
  have hloop : reduceSellOrdersLoop market.MinQuantity
      (max (market.MinNotional / lastPrice) market.MinQuantity) baseInvestment (f + 1)
      ((count : ℤ) + 1) 0 = some ((k : ℤ), baseInvestment / (k : ℚ)) := by
    rw [reduceSellOrdersLoop, if_pos (Or.inr hm), add_sub_cancel_right, Int.cast_natCast, hk5]
  refine ⟨rfl, ⟨k, hk1, hk2, hloop⟩, ?_, ?_, ?_⟩
  · unfold calculateQuoteBaseInvestmentQuantity
    simp only
    rw [hc, hloop]
    rfl
  · intro steps
    cases steps with
    | zero =>
      rw [reduceSellOrdersDivisors]
      exact ⟨by simp, fun d hd => absurd hd (List.not_mem_nil d)⟩
    | succ steps =>
      obtain ⟨h1, h2⟩ := reduceSellOrdersDivisors_bound market.MinQuantity
        (max (market.MinNotional / lastPrice) market.MinQuantity) baseInvestment
        (le_max_right _ _) hbi count steps hcount
      rw [reduceSellOrdersDivisors, if_pos (Or.inr hm), add_sub_cancel_right,
        Int.cast_natCast]
      refine ⟨by rw [List.length_cons]; omega, ?_⟩
      intro d hd
      rcases List.mem_cons.mp hd with h | h
      · rw [h]; exact_mod_cast hcount
      · exact h2 d h
  · intro hasc hpos hlen
    have htotal := quoteInvestmentLoop_total lastPrice pins hasc hpos
    have hsum : 0 < (buyLegPrices lastPrice pins).sum :=
      List.sum_pos _ (mem_buyLegPrices_pos lastPrice pins hpos)
        (buyLegPrices_ne_nil lastPrice pins hpos hlen)
    refine ⟨by rw [htotal]; exact hsum, htotal, ?_⟩
    unfold calculateQuoteInvestmentQuantity
    rw [htotal]

/-- Witness of C24: pins `[90, 95, 100, 105, 110]`, `lastPrice = 100`, minimums `0`,
`baseInvestment = 3`: three pins are at or above the last price, three are counted, and the
loop divides once, by `3`. -/
theorem C24_sizing_divisors_witness :
    (([90, 95, 100, 105, 110] : List ℚ).Pairwise (fun a b => a ≤ b) ∧
      (([90, 95, 100, 105, 110] : List ℚ).filter (fun p => decide ((100 : ℚ) ≤ p))).length = 3 ∧
      (0 : ℚ) < 100 ∧ (0 : ℚ) ≤ max 0 (0 / 100) ∧ max (0 : ℚ) (0 / 100) < 3) ∧
    countSellOrdersLoop 100 [90, 95, 100, 105, 110] ([90, 95, 100, 105, 110] : List ℚ).length 0
      = 3 ∧
    reduceSellOrdersDivisors 0 (max (0 / 100) 0) 3 4
      (((countSellOrdersLoop 100 [90, 95, 100, 105, 110]
        ([90, 95, 100, 105, 110] : List ℚ).length 0 : ℕ) : ℤ) + 1) 0 = [3] ∧
    (calculateQuoteBaseInvestmentQuantity 4 ⟨1, 0, 0⟩ 390 3 100 [90, 95, 100, 105, 110]).isSome
      = true ∧
    0 < (quoteInvestmentLoop 100 [90, 95, 100, 105, 110]
      ([90, 95, 100, 105, 110] : List ℚ).length ⟨0, 0⟩).totalQuotePrice := by
  have hsorted : ([90, 95, 100, 105, 110] : List ℚ).Pairwise (fun a b => a ≤ b) := by
    norm_num
  have hasc : ([90, 95, 100, 105, 110] : List ℚ).Pairwise (fun a b => a < b) := by
    norm_num
  have hpos : ∀ p ∈ ([90, 95, 100, 105, 110] : List ℚ), 0 < p := by
    intro p hp
    simp only [List.mem_cons, List.mem_singleton, List.not_mem_nil, or_false] at hp
    rcases hp with h | h | h | h | h <;> rw [h] <;> norm_num
  have hcount : (([90, 95, 100, 105, 110] : List ℚ).filter
      (fun p => decide ((100 : ℚ) ≤ p))).length = 3 := by
    norm_num [List.filter_cons]
  have h := C24_sizing_divisors [90, 95, 100, 105, 110] ⟨1, 0, 0⟩ 390 3 100 4 hsorted
    (by rw [hcount]; norm_num) (by norm_num) (by norm_num) (by norm_num) (by rw [hcount])
  have hc : countSellOrdersLoop 100 [90, 95, 100, 105, 110]
      ([90, 95, 100, 105, 110] : List ℚ).length 0 = 3 := by
    rw [h.1, hcount]
  refine ⟨⟨hsorted, hcount, by norm_num, by norm_num, by norm_num⟩, hc, ?_, h.2.2.1,
    (h.2.2.2.2 hasc hpos (by simp)).1⟩
  rw [hc]
  norm_num [reduceSellOrdersDivisors]

end Grid2
